import Mathlib

/-!
Link resolution of podsync (`pkg/builder/url.go`, `pkg/builder/builder.go`)

A shallow embedding of `ParseURL`, of the five per-platform path parsers and of
the builder factory `New`, together with the part of the Go standard library
they call (`strings`, `net/url`).

Conventions of the embedding.

* A Go `string` is a sequence of bytes.  It is modelled by a Lean `String`
  whose characters stand for the bytes of the Go string (code points below
  256); ASCII text is written as is.
* A Go function returning `(T, error)` returns a pair whose second component
  is an `error`, that is an optional `GoError`; `none` is Go's `nil`.
* The path parsers index slices.  An index expression `parts[i]` is modelled
  by the checked lookup `parts[i]?` inside the `Option` monad, so that a
  result `none` of a parser stands for a run-time fault (index out of range)
  and `some r` for a normal return of `r`.
* The constructors that `New` calls may perform I/O.  They take the state of
  the world and return their result with the new state; `New` passes the state
  on.
-/

namespace Podsync

/-! ## Errors -/

/-- Go error values, kept structured: the constructor records which library
call built the error and from which pieces. -/
inductive GoError where
  /-- Built by `errors.New(msg)`, `errors.Errorf` and `fmt.Errorf` with the message formatted. -/
  | new (msg : String)
  /-- Built by `errors.Wrapf(cause, ...)` with the message formatted. -/
  | wrap (cause : GoError) (msg : String)
  /-- Built by `&url.Error{Op, URL, Err}`. -/
  | urlError (op url : String) (err : GoError)
  /-- Built by `url.EscapeError(s)`. -/
  | escapeError (s : String)
  /-- Built by `url.InvalidHostError(s)`. -/
  | invalidHostError (s : String)
  /-- Built by `fmt.Errorf("invalid port %q after host", colonPort)`. -/
  | invalidPort (colonPort : String)
  /-- Built by `errors.Errorf("unsupported provider %q", provider)` in `builder.New`. -/
  | unsupportedProvider (provider : String)
  deriving DecidableEq, Repr

/-- Go's `error` interface value: `none` is `nil`. -/
abbrev error := Option GoError

deriving instance DecidableEq for Except

/-! ## Package `strings` -/

namespace strings

/-- Go `strings.HasPrefix`. -/
def HasPrefix (s p : String) : Bool := p.data.isPrefixOf s.data

/-- Go `strings.HasSuffix`. -/
def HasSuffix (s p : String) : Bool := p.data.reverse.isPrefixOf s.data.reverse

/-- Go `strings.TrimPrefix`. -/
def TrimPrefix (s p : String) : String :=
  if HasPrefix s p then ⟨s.data.drop p.data.length⟩ else s

/-- Splitting a byte list at every occurrence of the byte `sep`. -/
def splitOn (sep : Char) : List Char → List (List Char)
  | [] => [[]]
  | c :: cs =>
    if c = sep then [] :: splitOn sep cs
    else
      match splitOn sep cs with
      | [] => [[c]]
      | p :: ps => (c :: p) :: ps

/-- Go `strings.Split(s, sep)` for a separator of one byte, the only form the
source uses (`"/"` and `"."`).  The result always has at least one element. -/
def Split (s : String) (sep : Char) : List String := (splitOn sep s.data).map String.mk

/-- The bytes before the first `sep`, the bytes after it, and whether `sep` occurs. -/
def cutOn (sep : Char) : List Char → List Char × List Char × Bool
  | [] => ([], [], false)
  | c :: cs =>
    if c = sep then ([], cs, true)
    else
      match cutOn sep cs with
      | (before, after, found) => (c :: before, after, found)

/-- Go `strings.Cut(s, sep)` for a separator of one byte. -/
def Cut (s : String) (sep : Char) : String × String × Bool :=
  match cutOn sep s.data with
  | (before, after, found) => (⟨before⟩, ⟨after⟩, found)

/-- Go `strings.Contains(s, sep)` for a separator of one byte. -/
def Contains (s : String) (sep : Char) : Bool := s.data.contains sep

/-- Go `strings.Count(s, sep)` for a separator of one byte. -/
def Count (s : String) (sep : Char) : Nat := s.data.count sep

/-- Position of the first place where `pat` starts. -/
def indexOf (pat : List Char) : List Char → Option Nat
  | [] => if pat.isEmpty then some 0 else none
  | c :: cs =>
    if pat.isPrefixOf (c :: cs) then some 0 else (indexOf pat cs).map (· + 1)

/-- Go `strings.Index(s, substr)`; `none` is Go's `-1`. -/
def Index (s substr : String) : Option Nat := indexOf substr.data s.data

/-- Position of the last occurrence of the byte `sep`, counting from `i`. -/
def lastIndexOf (sep : Char) : List Char → Nat → Option Nat
  | [], _ => none
  | c :: cs, i =>
    match lastIndexOf sep cs (i + 1) with
    | some j => some j
    | none => if c = sep then some i else none

/-- Go `strings.LastIndex(s, sep)` for a separator of one byte; `none` is Go's `-1`. -/
def LastIndex (s : String) (sep : Char) : Option Nat := lastIndexOf sep s.data 0

/-- Go `strings.ToLower` on ASCII text (the only use is on a URL scheme, which
consists of ASCII letters, digits, `+`, `-` and `.`). -/
def ToLower (s : String) : String := ⟨s.data.map Char.toLower⟩

/-- The slice expression `s[i:]`. -/
def sliceFrom (s : String) (i : Nat) : String := ⟨s.data.drop i⟩

/-- The slice expression `s[:i]`. -/
def sliceTo (s : String) (i : Nat) : String := ⟨s.data.take i⟩

/-- The slice expression `s[i:j]`. -/
def slice (s : String) (i j : Nat) : String := ⟨(s.data.take j).drop i⟩

end strings

/-! ## Package `net/url`

The functions below follow `net/url/url.go` of the Go standard library as of
Go 1.22 (`Parse`, `parse`, `getScheme`, `parseAuthority`, `parseHost`,
`setPath`, `setFragment`, `EscapedPath`, `unescape`, `escape`, `shouldEscape`,
`validEncoded`, `ParseQuery`, `Query`, `Values.Get`).  The path parsers of
`url.go` read a parsed URL only through `Host`, `EscapedPath()`, `Query()` and
`RawQuery`; the theorems about them hold for every value of the record `URL`,
whether or not `Parse` can produce it. -/

namespace url

/-- The escaping modes of `net/url`. -/
inductive encoding where
  | encodePath
  | encodePathSegment
  | encodeHost
  | encodeZone
  | encodeUserPassword
  | encodeQueryComponent
  | encodeFragment
  deriving DecidableEq, Repr

open encoding

/-- Go `ishex`. -/
def ishex (c : Char) : Bool :=
  ('0'.toNat ≤ c.toNat && c.toNat ≤ '9'.toNat) ||
  ('a'.toNat ≤ c.toNat && c.toNat ≤ 'f'.toNat) ||
  ('A'.toNat ≤ c.toNat && c.toNat ≤ 'F'.toNat)

/-- Go `unhex`. -/
def unhex (c : Char) : Nat :=
  if '0'.toNat ≤ c.toNat && c.toNat ≤ '9'.toNat then c.toNat - '0'.toNat
  else if 'a'.toNat ≤ c.toNat && c.toNat ≤ 'f'.toNat then c.toNat - 'a'.toNat + 10
  else if 'A'.toNat ≤ c.toNat && c.toNat ≤ 'F'.toNat then c.toNat - 'A'.toNat + 10
  else 0

/-- ASCII letters and digits, the unreserved characters of RFC 3986 §2.3. -/
def isAlnum (c : Char) : Bool :=
  ('a'.toNat ≤ c.toNat && c.toNat ≤ 'z'.toNat) ||
  ('A'.toNat ≤ c.toNat && c.toNat ≤ 'Z'.toNat) ||
  ('0'.toNat ≤ c.toNat && c.toNat ≤ '9'.toNat)

/-- Go `shouldEscape(c, mode)`. -/
def shouldEscape (c : Char) (mode : encoding) : Bool :=
  if isAlnum c then false
  else if (mode = encodeHost ∨ mode = encodeZone) ∧
      c ∈ ['!', '$', '&', '\'', '(', ')', '*', '+', ',', ';', '=', ':', '[', ']', '<', '>', '"'] then
    false
  else if c ∈ ['-', '_', '.', '~'] then false
  else if c ∈ ['$', '&', '+', ',', '/', ':', ';', '=', '?', '@'] then
    match mode with
    | encodePath => c = '?'
    | encodePathSegment => c = '/' || c = ';' || c = ',' || c = '?'
    | encodeUserPassword => c = '@' || c = '/' || c = '?' || c = ':'
    | encodeQueryComponent => true
    | encodeFragment => false
    | encodeHost => true
    | encodeZone => true
  else if mode = encodeFragment ∧ c ∈ ['!', '(', ')', '*'] then false
  else true

/-- The loop of `unescape`: validation and decoding in one left-to-right
pass (Go validates the whole string first and decodes afterwards; the first
offending position and the decoded bytes are the same). -/
def unescapeLoop (mode : encoding) : List Char → Except GoError (List Char)
  | [] => .ok []
  | c :: cs =>
    if c = '%' then
      match cs with
      | a :: b :: rest =>
        if !ishex a || !ishex b then .error (.escapeError ⟨(c :: cs).take 3⟩)
        else if mode = encodeHost ∧ unhex a < 8 ∧ [c, a, b] ≠ ['%', '2', '5'] then
          .error (.escapeError ⟨[c, a, b]⟩)
        else if mode = encodeZone ∧ [c, a, b] ≠ ['%', '2', '5'] ∧
            (unhex a * 16 + unhex b) ≠ ' '.toNat ∧
            shouldEscape (Char.ofNat (unhex a * 16 + unhex b)) encodeHost then
          .error (.escapeError ⟨[c, a, b]⟩)
        else
          match unescapeLoop mode rest with
          | .error e => .error e
          | .ok t => .ok (Char.ofNat (unhex a * 16 + unhex b) :: t)
      | _ => .error (.escapeError ⟨(c :: cs).take 3⟩)
    else if c = '+' then
      match unescapeLoop mode cs with
      | .error e => .error e
      | .ok t => .ok ((if mode = encodeQueryComponent then ' ' else '+') :: t)
    else if (mode = encodeHost ∨ mode = encodeZone) ∧ c.toNat < 0x80 ∧ shouldEscape c encodeHost then
      .error (.invalidHostError ⟨[c]⟩)
    else
      match unescapeLoop mode cs with
      | .error e => .error e
      | .ok t => .ok (c :: t)

/-- Go `unescape(s, mode)`. -/
def unescape (s : String) (mode : encoding) : Except GoError String :=
  match unescapeLoop mode s.data with
  | .error e => .error e
  | .ok t => .ok ⟨t⟩

/-- The digit `"0123456789ABCDEF"[n]`. -/
def upperhex (n : Nat) : Char := ("0123456789ABCDEF".data).getD n '0'

/-- The bytes written by `escape` for the byte `c`. -/
def escapeByte (mode : encoding) (c : Char) : List Char :=
  if shouldEscape c mode then
    if c = ' ' ∧ mode = encodeQueryComponent then ['+']
    else ['%', upperhex (c.toNat / 16 % 16), upperhex (c.toNat % 16)]
  else [c]

/-- Go `escape(s, mode)`. -/
def escape (s : String) (mode : encoding) : String := ⟨s.data.flatMap (escapeByte mode)⟩

/-- Go `validEncoded(s, mode)`. -/
def validEncoded (s : String) (mode : encoding) : Bool :=
  s.data.all fun c =>
    if c ∈ ['!', '$', '&', '\'', '(', ')', '*', '+', ',', ';', '=', ':', '@'] then true
    else if c ∈ ['[', ']'] then true
    else if c = '%' then true
    else !shouldEscape c mode

/-- Go `QueryUnescape`. -/
def QueryUnescape (s : String) : Except GoError String := unescape s encodeQueryComponent

/-- Go `url.Userinfo`. -/
structure Userinfo where
  username : String
  password : String
  passwordSet : Bool
  deriving DecidableEq, Repr

/-- Go `url.URL`. -/
structure URL where
  Scheme : String := ""
  Opaque : String := ""
  User : Option Userinfo := none
  Host : String := ""
  Path : String := ""
  RawPath : String := ""
  OmitHost : Bool := false
  ForceQuery : Bool := false
  RawQuery : String := ""
  Fragment : String := ""
  RawFragment : String := ""
  deriving DecidableEq, Repr

/-- Go `stringContainsCTLByte`. -/
def stringContainsCTLByte (s : String) : Bool :=
  s.data.any fun b => b.toNat < ' '.toNat || b.toNat = 0x7f

/-- The loop of `getScheme`; `seen` holds the bytes already passed, last first. -/
def getSchemeLoop (rawURL : String) : List Char → List Char → Except GoError (String × String)
  | _, [] => .ok ("", rawURL)
  | seen, c :: cs =>
    if ('a'.toNat ≤ c.toNat && c.toNat ≤ 'z'.toNat) || ('A'.toNat ≤ c.toNat && c.toNat ≤ 'Z'.toNat) then
      getSchemeLoop rawURL (c :: seen) cs
    else if ('0'.toNat ≤ c.toNat && c.toNat ≤ '9'.toNat) || c = '+' || c = '-' || c = '.' then
      if seen.isEmpty then .ok ("", rawURL) else getSchemeLoop rawURL (c :: seen) cs
    else if c = ':' then
      if seen.isEmpty then .error (.new "missing protocol scheme")
      else .ok (⟨seen.reverse⟩, ⟨cs⟩)
    else .ok ("", rawURL)

/-- Go `getScheme(rawURL)`: the scheme and the rest after the colon. -/
def getScheme (rawURL : String) : Except GoError (String × String) :=
  getSchemeLoop rawURL [] rawURL.data

/-- Go `validOptionalPort`. -/
def validOptionalPort (port : String) : Bool :=
  match port.data with
  | [] => true
  | c :: cs => c = ':' && cs.all fun b => '0'.toNat ≤ b.toNat && b.toNat ≤ '9'.toNat

/-- Go `validUserinfo`. -/
def validUserinfo (s : String) : Bool :=
  s.data.all fun r =>
    isAlnum r ||
    r ∈ ['-', '.', '_', ':', '~', '!', '$', '&', '\'', '(', ')', '*', '+', ',', ';', '=', '%', '@']

/-- Go `parseHost(host)`. -/
def parseHost (host : String) : Except GoError String :=
  if strings.HasPrefix host "[" then
    match strings.LastIndex host ']' with
    | none => .error (.new "missing ']' in host")
    | some i =>
      let colonPort := strings.sliceFrom host (i + 1)
      if !validOptionalPort colonPort then .error (.invalidPort colonPort)
      else
        match strings.Index (strings.sliceTo host i) "%25" with
        | some zone =>
          match unescape (strings.sliceTo host zone) encodeHost with
          | .error e => .error e
          | .ok host1 =>
            match unescape (strings.slice host zone i) encodeZone with
            | .error e => .error e
            | .ok host2 =>
              match unescape (strings.sliceFrom host i) encodeHost with
              | .error e => .error e
              | .ok host3 => .ok (host1 ++ host2 ++ host3)
        | none => unescape host encodeHost
  else
    match strings.LastIndex host ':' with
    | some i =>
      let colonPort := strings.sliceFrom host i
      if !validOptionalPort colonPort then .error (.invalidPort colonPort)
      else unescape host encodeHost
    | none => unescape host encodeHost

/-- The user part of `parseAuthority`. -/
def parseUserinfo (userinfo : String) : Except GoError Userinfo :=
  if !validUserinfo userinfo then .error (.new "net/url: invalid userinfo")
  else if !strings.Contains userinfo ':' then
    match unescape userinfo encodeUserPassword with
    | .error e => .error e
    | .ok u => .ok ⟨u, "", false⟩
  else
    match strings.Cut userinfo ':' with
    | (username, password, _) =>
      match unescape username encodeUserPassword with
      | .error e => .error e
      | .ok u =>
        match unescape password encodeUserPassword with
        | .error e => .error e
        | .ok p => .ok ⟨u, p, true⟩

/-- Go `parseAuthority(authority)`. -/
def parseAuthority (authority : String) : Except GoError (Option Userinfo × String) :=
  match strings.LastIndex authority '@' with
  | none =>
    match parseHost authority with
    | .error e => .error e
    | .ok host => .ok (none, host)
  | some i =>
    match parseHost (strings.sliceFrom authority (i + 1)) with
    | .error e => .error e
    | .ok host =>
      match parseUserinfo (strings.sliceTo authority i) with
      | .error e => .error e
      | .ok user => .ok (some user, host)

/-- Go `(*URL).setPath(p)`. -/
def URL.setPath (u : URL) (p : String) : Except GoError URL :=
  match unescape p encodePath with
  | .error e => .error e
  | .ok path =>
    if p = escape path encodePath then .ok { u with Path := path, RawPath := "" }
    else .ok { u with Path := path, RawPath := p }

/-- Go `(*URL).setFragment(f)`. -/
def URL.setFragment (u : URL) (f : String) : Except GoError URL :=
  match unescape f encodeFragment with
  | .error e => .error e
  | .ok frag =>
    if f = escape frag encodeFragment then .ok { u with Fragment := frag, RawFragment := "" }
    else .ok { u with Fragment := frag, RawFragment := f }

/-- The authority and path part of `parse`, after scheme and query have been cut off. -/
def parseRest (url : URL) (rest : String) (viaRequest : Bool) : Except GoError URL :=
  if (url.Scheme ≠ "" ∨ (!viaRequest ∧ !strings.HasPrefix rest "///")) ∧ strings.HasPrefix rest "//" then
    let authority := strings.sliceFrom rest 2
    let (authority, rest) :=
      match strings.Index authority "/" with
      | some i => (strings.sliceTo authority i, strings.sliceFrom authority i)
      | none => (authority, "")
    match parseAuthority authority with
    | .error e => .error e
    | .ok (user, host) => URL.setPath { url with User := user, Host := host } rest
  else if url.Scheme ≠ "" ∧ strings.HasPrefix rest "/" then
    URL.setPath { url with OmitHost := true } rest
  else URL.setPath url rest

/-- Go `parse(rawURL, viaRequest)`. -/
def parse (rawURL : String) (viaRequest : Bool) : Except GoError URL :=
  if stringContainsCTLByte rawURL then .error (.new "net/url: invalid control character in URL")
  else if rawURL = "" ∧ viaRequest then .error (.new "empty url")
  else if rawURL = "*" then .ok { Path := "*" }
  else
    match getScheme rawURL with
    | .error e => .error e
    | .ok (scheme, rest) =>
      let url : URL := { Scheme := strings.ToLower scheme }
      let (url, rest) :=
        if strings.HasSuffix rest "?" ∧ strings.Count rest '?' = 1 then
          ({ url with ForceQuery := true }, strings.sliceTo rest (rest.data.length - 1))
        else
          match strings.Cut rest '?' with
          | (before, after, _) => ({ url with RawQuery := after }, before)
      if !strings.HasPrefix rest "/" then
        if url.Scheme ≠ "" then .ok { url with Opaque := rest }
        else if viaRequest then .error (.new "invalid URI for request")
        else if strings.Contains (strings.Cut rest '/').1 ':' then
          .error (.new "first path segment in URL cannot contain colon")
        else parseRest url rest viaRequest
      else parseRest url rest viaRequest

/-- Go `url.Parse(rawURL)`. -/
def Parse (rawURL : String) : Except GoError URL :=
  match strings.Cut rawURL '#' with
  | (u, frag, _) =>
    match parse u false with
    | .error e => .error (.urlError "parse" u e)
    | .ok url =>
      if frag = "" then .ok url
      else
        match url.setFragment frag with
        | .error e => .error (.urlError "parse" rawURL e)
        | .ok url => .ok url

/-- Go `(*URL).EscapedPath()`. -/
def URL.EscapedPath (u : URL) : String :=
  if u.RawPath ≠ "" ∧ validEncoded u.RawPath encodePath ∧
      unescape u.RawPath encodePath = .ok u.Path then
    u.RawPath
  else if u.Path = "*" then "*"
  else escape u.Path encodePath

/-- Go `url.Values`, the map from a key to the list of its values.  It is kept
as the list of the `(key, value)` pairs in the order in which `parseQuery`
appended them; `Values.index` reads the map. -/
abbrev Values := List (String × String)

/-- The map lookup `v[key]`: the values stored under `key`, oldest first
(empty when the key is absent). -/
def Values.index (v : Values) (key : String) : List String :=
  (v.filter fun kv => kv.1 = key).map Prod.snd

/-- Go `Values.Get(key)`: the first value stored under `key`, or `""`. -/
def Values.Get (v : Values) (key : String) : String :=
  match v.index key with
  | [] => ""
  | value :: _ => value

/-- One turn of the loop of `parseQuery` on the piece `key` cut off at `&`;
the state is the map built so far and the error to return. -/
def parseQueryStep (st : Values × error) (key : String) : Values × error :=
  if strings.Contains key ';' then (st.1, some (.new "invalid semicolon separator in query"))
  else if key = "" then st
  else
    match strings.Cut key '=' with
    | (key, value, _) =>
      match QueryUnescape key with
      | .error err1 => (st.1, if st.2 = none then some err1 else st.2)
      | .ok key =>
        match QueryUnescape value with
        | .error err1 => (st.1, if st.2 = none then some err1 else st.2)
        | .ok value => (st.1 ++ [(key, value)], st.2)

/-- Go `url.ParseQuery(query)`.  Go cuts one piece off at the first `&` while the
query is not empty; these pieces are the parts of the query split at `&`
(a last empty part is skipped by the loop body in any case). -/
def ParseQuery (query : String) : Values × error :=
  if query = "" then ([], none)
  else (strings.Split query '&').foldl parseQueryStep ([], none)

/-- Go `(*URL).Query()`: the values of `RawQuery`, the error dropped. -/
def URL.Query (u : URL) : Values := (ParseQuery u.RawQuery).1

end url

/-! ## Package `model`

Package `model` is imported by `url.go` but is not among the sources.  Its two
string types, their ten constants and the record `Info` are modelled here.  The
spec names the constants and fixes no spelling for them; each is given the
lower-case name of its variant.  The theorems below depend only on the values
being pairwise distinct and different from the empty string. -/

namespace model

/-- Modelled from the spec: the type `model.Provider` of the closed enumeration
Provider; package `model` is not among the sources.  It is a string type:
`builder.New` formats a provider with `%q`, and the zero value of `model.Info`
holds the provider `""`. -/
abbrev Provider := String

/-- Modelled from the spec: the type `model.Type` of the closed enumeration Kind
(the link type of a resource); package `model` is not among the sources.  It is
a string type: every path parser returns the kind `""` next to an error. -/
abbrev Kind := String

/-- Modelled from the spec: the constant `model.ProviderYoutube` of the closed
enumeration Provider; package `model` is not among the sources. -/
def ProviderYoutube : Provider := "youtube"

/-- Modelled from the spec: the constant `model.ProviderVimeo` of the closed
enumeration Provider; package `model` is not among the sources. -/
def ProviderVimeo : Provider := "vimeo"

/-- Modelled from the spec: the constant `model.ProviderSoundcloud` of the closed
enumeration Provider; package `model` is not among the sources. -/
def ProviderSoundcloud : Provider := "soundcloud"

/-- Modelled from the spec: the constant `model.ProviderTwitch` of the closed
enumeration Provider; package `model` is not among the sources. -/
def ProviderTwitch : Provider := "twitch"

/-- Modelled from the spec: the constant `model.ProviderBilibili` of the closed
enumeration Provider; package `model` is not among the sources. -/
def ProviderBilibili : Provider := "bilibili"

/-- Modelled from the spec: the constant `model.TypeChannel` of the closed
enumeration Kind; package `model` is not among the sources. -/
def TypeChannel : Kind := "channel"

/-- Modelled from the spec: the constant `model.TypePlaylist` of the closed
enumeration Kind; package `model` is not among the sources. -/
def TypePlaylist : Kind := "playlist"

/-- Modelled from the spec: the constant `model.TypeUser` of the closed
enumeration Kind; package `model` is not among the sources. -/
def TypeUser : Kind := "user"

/-- Modelled from the spec: the constant `model.TypeGroup` of the closed
enumeration Kind; package `model` is not among the sources. -/
def TypeGroup : Kind := "group"

/-- Modelled from the spec: the constant `model.TypeHandle` of the closed
enumeration Kind; package `model` is not among the sources. -/
def TypeHandle : Kind := "handle"

/-- Modelled from the spec: the resource descriptor `model.Info` with its three
fields; package `model` is not among the sources. -/
structure Info where
  LinkType : Kind := ""
  Provider : Provider := ""
  ItemID : String := ""
  deriving DecidableEq, Repr

end model

/-! ## Package `builder`, file `url.go` -/

namespace builder

open model url

/-- What a path parser returns: `(model.Type, string, error)`. -/
abbrev Ret := Kind × String × error

/-- Function `parseURL(link)`: the pointer to the parsed URL (`none` is `nil`) and the error. -/
def parseURL (link : String) : Option URL × error :=
  let link := if !strings.HasPrefix link "http" then "https://" ++ link else link
  match url.Parse link with
  | .error err => (none, some (.wrap err ("failed to parse url: " ++ link)))
  | .ok parsed => (some parsed, none)

/-- Function `parseYoutubeURL(parsed)`. -/
def parseYoutubeURL (parsed : URL) : Option Ret :=
  let path := parsed.EscapedPath
  if strings.HasPrefix path "/playlist" || strings.HasPrefix path "/watch" then
    let kind := TypePlaylist
    let id := parsed.Query.Get "list"
    if id ≠ "" then some (kind, id, none)
    else some ("", "", some (.new "invalid playlist link"))
  else if strings.HasPrefix path "/channel" then
    let kind := TypeChannel
    let parts := strings.Split parsed.EscapedPath '/'
    if parts.length ≤ 2 then some ("", "", some (.new "invalid youtube channel link"))
    else
      match parts[2]? with
      | none => none
      | some id =>
        if id = "" then some ("", "", some (.new "invalid id"))
        else some (kind, id, none)
  else if strings.HasPrefix path "/user" then
    let kind := TypeUser
    let parts := strings.Split parsed.EscapedPath '/'
    if parts.length ≤ 2 then some ("", "", some (.new "invalid user link"))
    else
      match parts[2]? with
      | none => none
      | some id =>
        if id = "" then some ("", "", some (.new "invalid id"))
        else some (kind, id, none)
  else if strings.HasPrefix path "/@" then
    let kind := TypeHandle
    let parts := strings.Split parsed.EscapedPath '/'
    if parts.length ≤ 1 then some ("", "", some (.new "invalid handle link"))
    else
      match parts[1]? with
      | none => none
      | some handle =>
        if handle = "" ∨ !strings.HasPrefix handle "@" then
          some ("", "", some (.new "invalid handle format"))
        else
          let id := strings.TrimPrefix handle "@"
          if id = "" then some ("", "", some (.new "empty handle"))
          else some (kind, id, none)
  else some ("", "", some (.new "unsupported link format"))

/-- Function `parseBilibiliURL(parsed)`. -/
def parseBilibiliURL (parsed : URL) : Option Ret :=
  match (strings.Split parsed.Host '.')[0]? with
  | none => none
  | some subdomain =>
    let parts := strings.Split parsed.EscapedPath '/'
    if parts.length ≤ 1 ∨ subdomain ≠ "space" then
      some ("", "", some (.new "invalid bilibili link path"))
    else if parts.length = 2 then
      match parts[1]? with
      | none => none
      | some mid => some (TypeUser, mid, none)
    else
      match parts[2]? with
      | none => none
      | some second =>
        if second = "channel" then
          let (params, err) := url.ParseQuery parsed.RawQuery
          if err ≠ none ∨ (params.index "sid").length = 0 then
            some ("", "", some (.new "invalid bilibili channel path (missing sid)"))
          else
            match parts[1]?, (params.index "sid")[0]? with
            | some mid, some sid => some (TypeChannel, mid ++ ":" ++ sid, none)
            | _, _ => none
        else some ("", "", some (.new "unsupported bilibili link format"))

/-- Function `parseVimeoURL(parsed)`. -/
def parseVimeoURL (parsed : URL) : Option Ret :=
  let parts := strings.Split parsed.EscapedPath '/'
  if parts.length ≤ 1 then some ("", "", some (.new "invalid vimeo link path"))
  else
    match parts[1]? with
    | none => none
    | some first =>
      let kind : Kind :=
        if first = "groups" then TypeGroup
        else if first = "channels" then TypeChannel
        else TypeUser
      if kind = TypeGroup ∨ kind = TypeChannel then
        if parts.length ≤ 2 then some ("", "", some (.new "invalid channel link"))
        else
          match parts[2]? with
          | none => none
          | some id =>
            if id = "" then some ("", "", some (.new "invalid id"))
            else some (kind, id, none)
      else if kind = TypeUser then
        let id := first
        if id = "" then some ("", "", some (.new "invalid id"))
        else some (kind, id, none)
      else some ("", "", some (.new "unsupported link format"))

/-- Function `parseSoundcloudURL(parsed)`.  (The source repeats the `func` line of this
function; the function is embedded once.) -/
def parseSoundcloudURL (parsed : URL) : Option Ret :=
  let parts := strings.Split parsed.EscapedPath '/'
  if parts.length ≤ 3 then some ("", "", some (.new "invalid soundcloud link path"))
  else
    match parts[2]? with
    | none => none
    | some third =>
      if third = "sets" then
        let kind := TypePlaylist
        match parts[3]? with
        | none => none
        | some id => some (kind, id, none)
      else some ("", "", some (.new "invalid soundcloud url, missing sets"))

/-- Function `parseTwitchURL(parsed)`. -/
def parseTwitchURL (parsed : URL) : Option Ret :=
  let path := parsed.EscapedPath
  let parts := strings.Split path '/'
  if parts.length ≠ 2 then some ("", "", some (.new ("invalid twitch user path: " ++ path)))
  else
    let kind := TypeUser
    match parts[1]? with
    | none => none
    | some id =>
      if id = "" then some ("", "", some (.new "invalid id"))
      else some (kind, id, none)

/-- One arm of the host dispatch of `ParseURL`: run the provider's path parser
and fill the descriptor. -/
def route (provider : Provider) (r : Option Ret) : Option (Info × error) :=
  match r with
  | none => none
  | some (_, _, some err) => some ({}, some err)
  | some (kind, id, none) => some ({ Provider := provider, LinkType := kind, ItemID := id }, none)

/-- Function `ParseURL(link)`. -/
def ParseURL (link : String) : Option (Info × error) :=
  match parseURL link with
  | (_, some err) => some ({}, some err)
  | (none, none) => none
  | (some parsed, none) =>
    if strings.HasSuffix parsed.Host "bilibili.com" then
      route ProviderBilibili (parseBilibiliURL parsed)
    else if strings.HasSuffix parsed.Host "youtube.com" then
      route ProviderYoutube (parseYoutubeURL parsed)
    else if strings.HasSuffix parsed.Host "vimeo.com" then
      route ProviderVimeo (parseVimeoURL parsed)
    else if strings.HasSuffix parsed.Host "soundcloud.com" then
      route ProviderSoundcloud (parseSoundcloudURL parsed)
    else if strings.HasSuffix parsed.Host "twitch.tv" then
      route ProviderTwitch (parseTwitchURL parsed)
    else some ({}, some (.new "unsupported URL host"))

/-- The normal outcomes of a path parser: a kind among `kinds` with no error, or
the zero kind and identifier with an error made by `errors.New`, whose message
is not the one of the host router. -/
def Outcome (kinds : List Kind) (r : Ret) : Prop :=
  (r.2.2 = none ∧ r.1 ∈ kinds) ∨
    ∃ msg, r = ("", "", some (GoError.new msg)) ∧ msg ≠ "unsupported URL host"

end builder

/-! ## Error messages -/

namespace strconv

/-- The digit `"0123456789abcdef"[n]`. -/
def lowerhex (n : Nat) : Char := ("0123456789abcdef".data).getD n '0'

/-- The bytes that `strconv.Quote` writes for one byte below `0x80`, and for a
byte from `0x80` on that is not part of a valid UTF-8 sequence. -/
def quoteByte (c : Char) : List Char :=
  if c = '"' ∨ c = '\\' then ['\\', c]
  else if 0x20 ≤ c.toNat ∧ c.toNat < 0x7f then [c]
  else if c.toNat = 7 then ['\\', 'a']
  else if c.toNat = 8 then ['\\', 'b']
  else if c.toNat = 12 then ['\\', 'f']
  else if c.toNat = 10 then ['\\', 'n']
  else if c.toNat = 13 then ['\\', 'r']
  else if c.toNat = 9 then ['\\', 't']
  else if c.toNat = 11 then ['\\', 'v']
  else ['\\', 'x', lowerhex (c.toNat / 16 % 16), lowerhex (c.toNat % 16)]

/-- Go `strconv.Quote` on ASCII strings (more generally on strings in which no
bytes form a valid UTF-8 sequence of more than one byte).  The full function
consults the Unicode tables; the message of an error is therefore rendered with
the quoting function as a parameter, and this one serves to evaluate messages
of ASCII text. -/
def QuoteASCII (s : String) : String := ⟨'"' :: s.data.flatMap quoteByte ++ ['"']⟩

end strconv

/-- The method `Error()` of an error value: its message.  The verb `%q` is
`strconv.Quote`, passed as `quote`. -/
def GoError.Error (quote : String → String) : GoError → String
  | .new msg => msg
  | .wrap cause msg => msg ++ ": " ++ cause.Error quote
  | .urlError op url err => op ++ " " ++ quote url ++ ": " ++ err.Error quote
  | .escapeError s => "invalid URL escape " ++ quote s
  | .invalidHostError s => "invalid character " ++ quote s ++ " in host name"
  | .invalidPort colonPort => "invalid port " ++ quote colonPort ++ " after host"
  | .unsupportedProvider provider => "unsupported provider " ++ quote provider

/-! ## Package `builder`, file `builder.go` -/

namespace builder

open model url

/-- The five constructors that `New` calls.  They are defined in files of
package `builder` that are not among the sources and are parameters here.
A constructor may perform I/O (it may validate the credential against a remote
service): it takes the state `W` of the world and returns its `(Builder, error)`
pair, `none` being the `nil` builder, together with the new state. -/
structure Constructors (Ctx Downloader Builder W : Type) where
  NewYouTubeBuilder : String → Downloader → W → (Option Builder × error) × W
  NewVimeoBuilder : Ctx → String → W → (Option Builder × error) × W
  NewSoundcloudBuilder : W → (Option Builder × error) × W
  NewTwitchBuilder : String → W → (Option Builder × error) × W
  NewBilibiliBuilder : W → (Option Builder × error) × W

/-- Function `New(ctx, provider, key, downloader)` of `builder.go`. -/
def New {Ctx Downloader Builder W : Type} (c : Constructors Ctx Downloader Builder W)
    (ctx : Ctx) (provider : Provider) (key : String) (downloader : Downloader) (w : W) :
    (Option Builder × error) × W :=
  if provider = ProviderYoutube then c.NewYouTubeBuilder key downloader w
  else if provider = ProviderVimeo then c.NewVimeoBuilder ctx key w
  else if provider = ProviderSoundcloud then c.NewSoundcloudBuilder w
  else if provider = ProviderTwitch then c.NewTwitchBuilder key w
  else if provider = ProviderBilibili then c.NewBilibiliBuilder w
  else ((none, some (.unsupportedProvider provider)), w)

/-- Constructors for evaluating `New`: each returns a builder named after its
call and its arguments and records the call in the state, a list of calls. -/
def tracingConstructors : Constructors String (Option String) String (List String) where
  NewYouTubeBuilder key downloader w :=
    ((some ("youtube " ++ key ++ " " ++ downloader.getD "nil"), none), "NewYouTubeBuilder" :: w)
  NewVimeoBuilder ctx key w := ((some ("vimeo " ++ ctx ++ " " ++ key), none), "NewVimeoBuilder" :: w)
  NewSoundcloudBuilder w := ((some "soundcloud", none), "NewSoundcloudBuilder" :: w)
  NewTwitchBuilder key w :=
    if key = "" then ((none, some (.new "twitch key is missing")), "NewTwitchBuilder" :: w)
    else ((some ("twitch " ++ key), none), "NewTwitchBuilder" :: w)
  NewBilibiliBuilder w := ((some "bilibili", none), "NewBilibiliBuilder" :: w)

end builder

namespace builder

open model url

/-- The table of the host router: the five domain suffixes in the order in which
`ParseURL` tests them, each with its provider and its path parser. -/
def hostTable : List (String × Provider × (URL → Option Ret)) :=
  [("bilibili.com", ProviderBilibili, parseBilibiliURL),
   ("youtube.com", ProviderYoutube, parseYoutubeURL),
   ("vimeo.com", ProviderVimeo, parseVimeoURL),
   ("soundcloud.com", ProviderSoundcloud, parseSoundcloudURL),
   ("twitch.tv", ProviderTwitch, parseTwitchURL)]

/-- The host router as the spec words it, with the order of the tests as a
parameter: the host is tested against the suffixes of `order` from first to
last, the first suffix that matches wins and its parser is run; when none
matches the link is rejected as an unsupported host. -/
def ParseURLOrdered (order : List (String × Provider × (URL → Option Ret))) (link : String) :
    Option (Info × error) :=
  match parseURL link with
  | (_, some err) => some ({}, some err)
  | (none, none) => none
  | (some parsed, none) =>
    match order.find? (fun entry => strings.HasSuffix parsed.Host entry.1) with
    | some (_, provider, parser) => route provider (parser parsed)
    | none => some ({}, some (.new "unsupported URL host"))

end builder

/-! ## Canonical links -/

namespace builder

open model url

/-- Modelled from the spec: the canonical shape of a link for each provider and
kind that the shape table of the path parsers populates, as a function of the
path segment `seg` and of the query value `val` that fill it (a shape uses one
of them, the Bilibili channel both). -/
def canonicalShapes : List (Provider × Kind × (String → String → String)) :=
  [(ProviderYoutube, TypePlaylist, fun _ val => "https://www.youtube.com/playlist?list=" ++ val),
   (ProviderYoutube, TypeChannel, fun seg _ => "https://www.youtube.com/channel/" ++ seg),
   (ProviderYoutube, TypeUser, fun seg _ => "https://www.youtube.com/user/" ++ seg),
   (ProviderYoutube, TypeHandle, fun seg _ => "https://www.youtube.com/@" ++ seg),
   (ProviderBilibili, TypeUser, fun seg _ => "https://space.bilibili.com/" ++ seg),
   (ProviderBilibili, TypeChannel,
     fun seg val => "https://space.bilibili.com/" ++ seg ++ "/channel/x?sid=" ++ val),
   (ProviderVimeo, TypeGroup, fun seg _ => "https://vimeo.com/groups/" ++ seg),
   (ProviderVimeo, TypeChannel, fun seg _ => "https://vimeo.com/channels/" ++ seg),
   (ProviderVimeo, TypeUser, fun seg _ => "https://vimeo.com/" ++ seg),
   (ProviderSoundcloud, TypePlaylist, fun seg _ => "https://soundcloud.com/u/sets/" ++ seg),
   (ProviderTwitch, TypeUser, fun seg _ => "https://www.twitch.tv/" ++ seg)]

/-- A text that fills the place of one path segment of a link: it holds no `/`,
no `?` and no `#`. -/
def isSegment (s : String) : Prop := '/' ∉ s.data ∧ '?' ∉ s.data ∧ '#' ∉ s.data

/-- A text that fills the place of one query value of a link: it holds no `&`,
no `;`, no `#` and no `?`. -/
def isQueryValue (s : String) : Prop :=
  '&' ∉ s.data ∧ ';' ∉ s.data ∧ '#' ∉ s.data ∧ '?' ∉ s.data

/-- The percent-encoding `%XX` of every byte of a string (characters that stand
for no byte are kept): a text that `url.QueryUnescape` decodes to the string. -/
def percentEncode (s : String) : String :=
  ⟨s.data.flatMap fun c =>
    if c.toNat < 256 then ['%', upperhex (c.toNat / 16), upperhex (c.toNat % 16)] else [c]⟩

end builder

open model url builder

/-! ## Helper lemmas -/

theorem strings.splitOn_ne_nil (sep : Char) (l : List Char) : strings.splitOn sep l ≠ [] := by
  cases l with
  | nil => simp [strings.splitOn]
  | cons c cs =>
    unfold strings.splitOn
    split
    · simp
    · split <;> simp

theorem strings.Split_length_pos (s : String) (sep : Char) : 0 < (strings.Split s sep).length := by
  unfold strings.Split
  have := strings.splitOn_ne_nil sep s.data
  cases h : strings.splitOn sep s.data with
  | nil => exact absurd h this
  | cons a b => simp

theorem Outcome.err {kinds : List Kind} {msg : String} (h : msg ≠ "unsupported URL host") :
    Outcome kinds ("", "", some (GoError.new msg)) := Or.inr ⟨msg, rfl, h⟩

theorem Outcome.ok {kinds : List Kind} {kind : Kind} {id : String} (h : kind ∈ kinds) :
    Outcome kinds (kind, id, none) := Or.inl ⟨rfl, h⟩

theorem parseYoutubeURL_outcome (u : URL) :
    ∃ r, parseYoutubeURL u = some r ∧
      Outcome [TypePlaylist, TypeChannel, TypeUser, TypeHandle] r := by
  unfold parseYoutubeURL
  simp only []
  split_ifs with h1 h2 h3 h4 h5 h6 h7 h8
  · exact ⟨_, rfl, Outcome.ok (by simp)⟩
  · exact ⟨_, rfl, Outcome.err (by decide)⟩
  · exact ⟨_, rfl, Outcome.err (by decide)⟩
  · rw [List.getElem?_eq_getElem (by omega)]
    simp only []
    split_ifs
    · exact ⟨_, rfl, Outcome.err (by decide)⟩
    · exact ⟨_, rfl, Outcome.ok (by simp)⟩
  · exact ⟨_, rfl, Outcome.err (by decide)⟩
  · rw [List.getElem?_eq_getElem (by omega)]
    simp only []
    split_ifs
    · exact ⟨_, rfl, Outcome.err (by decide)⟩
    · exact ⟨_, rfl, Outcome.ok (by simp)⟩
  · exact ⟨_, rfl, Outcome.err (by decide)⟩
  · rw [List.getElem?_eq_getElem (by omega)]
    simp only []
    split_ifs
    · exact ⟨_, rfl, Outcome.err (by decide)⟩
    · exact ⟨_, rfl, Outcome.err (by decide)⟩
    · exact ⟨_, rfl, Outcome.ok (by simp)⟩
  · exact ⟨_, rfl, Outcome.err (by decide)⟩

theorem parseBilibiliURL_outcome (u : URL) :
    ∃ r, parseBilibiliURL u = some r ∧ Outcome [TypeUser, TypeChannel] r := by
  unfold parseBilibiliURL
  have h0 := strings.Split_length_pos u.Host '.'
  rw [List.getElem?_eq_getElem h0]
  simp only []
  by_cases h1 : (strings.Split u.EscapedPath '/').length ≤ 1 ∨
      (strings.Split u.Host '.')[0] ≠ "space"
  · rw [if_pos h1]
    exact ⟨_, rfl, Outcome.err (by decide)⟩
  rw [if_neg h1]
  have h1a : ¬ (strings.Split u.EscapedPath '/').length ≤ 1 := fun h => h1 (Or.inl h)
  by_cases h2 : (strings.Split u.EscapedPath '/').length = 2
  · rw [if_pos h2, List.getElem?_eq_getElem (by omega)]
    exact ⟨_, rfl, Outcome.ok (by simp)⟩
  rw [if_neg h2]
  have h3 : 2 < (strings.Split u.EscapedPath '/').length := by omega
  rw [List.getElem?_eq_getElem h3]
  simp only []
  by_cases h4 : (strings.Split u.EscapedPath '/')[2] = "channel"
  · rw [if_pos h4]
    by_cases h5 : (ParseQuery u.RawQuery).2 ≠ none ∨
        (Values.index (ParseQuery u.RawQuery).1 "sid").length = 0
    · rw [if_pos h5]
      exact ⟨_, rfl, Outcome.err (by decide)⟩
    · rw [if_neg h5]
      have h6 : 0 < (Values.index (ParseQuery u.RawQuery).1 "sid").length := by
        have := (not_or.mp h5).2
        omega
      rw [List.getElem?_eq_getElem (by omega), List.getElem?_eq_getElem h6]
      exact ⟨_, rfl, Outcome.ok (by simp)⟩
  · rw [if_neg h4]
    exact ⟨_, rfl, Outcome.err (by decide)⟩

theorem parseVimeoURL_outcome (u : URL) :
    ∃ r, parseVimeoURL u = some r ∧ Outcome [TypeGroup, TypeChannel, TypeUser] r := by
  unfold parseVimeoURL
  simp only []
  by_cases h1 : (strings.Split u.EscapedPath '/').length ≤ 1
  · rw [if_pos h1]
    exact ⟨_, rfl, Outcome.err (by decide)⟩
  rw [if_neg h1, List.getElem?_eq_getElem (by omega)]
  simp only []
  by_cases hg : (strings.Split u.EscapedPath '/')[1] = "groups"
  · simp only [hg, if_true, true_or]
    by_cases h2 : (strings.Split u.EscapedPath '/').length ≤ 2
    · rw [if_pos h2]
      exact ⟨_, rfl, Outcome.err (by decide)⟩
    rw [if_neg h2, List.getElem?_eq_getElem (by omega)]
    simp only []
    split_ifs
    · exact ⟨_, rfl, Outcome.err (by decide)⟩
    · exact ⟨_, rfl, Outcome.ok (by simp)⟩
  by_cases hc : (strings.Split u.EscapedPath '/')[1] = "channels"
  · simp only [hc, if_true, or_true, show ("channels" : String) ≠ "groups" by decide, if_false]
    by_cases h2 : (strings.Split u.EscapedPath '/').length ≤ 2
    · rw [if_pos h2]
      exact ⟨_, rfl, Outcome.err (by decide)⟩
    rw [if_neg h2, List.getElem?_eq_getElem (by omega)]
    simp only []
    split_ifs
    · exact ⟨_, rfl, Outcome.err (by decide)⟩
    · exact ⟨_, rfl, Outcome.ok (by simp)⟩
  · simp only [hg, hc, if_false, show ¬ (TypeUser = TypeGroup ∨ TypeUser = TypeChannel) by decide,
      if_true]
    split_ifs
    · exact ⟨_, rfl, Outcome.err (by decide)⟩
    · exact ⟨_, rfl, Outcome.ok (by simp)⟩

theorem parseSoundcloudURL_outcome (u : URL) :
    ∃ r, parseSoundcloudURL u = some r ∧ Outcome [TypePlaylist] r := by
  unfold parseSoundcloudURL
  simp only []
  split_ifs with h1
  · exact ⟨_, rfl, Outcome.err (by decide)⟩
  · rw [List.getElem?_eq_getElem (by omega)]
    simp only []
    split_ifs with h2
    · rw [List.getElem?_eq_getElem (by omega)]
      exact ⟨_, rfl, Outcome.ok (by simp)⟩
    · exact ⟨_, rfl, Outcome.err (by decide)⟩

theorem twitch_msg_ne (path : String) :
    "invalid twitch user path: " ++ path ≠ "unsupported URL host" := by
  intro h
  have := congrArg String.data h
  simp at this

theorem parseTwitchURL_outcome (u : URL) :
    ∃ r, parseTwitchURL u = some r ∧ Outcome [TypeUser] r := by
  unfold parseTwitchURL
  simp only []
  split_ifs with h1
  · exact ⟨_, rfl, Outcome.err (twitch_msg_ne _)⟩
  · have h2 : (strings.Split u.EscapedPath '/').length = 2 := not_not.mp h1
    rw [List.getElem?_eq_getElem (by omega)]
    simp only []
    split_ifs
    · exact ⟨_, rfl, Outcome.err (by decide)⟩
    · exact ⟨_, rfl, Outcome.ok (by simp)⟩

theorem parseURL_cases (link : String) :
    (∃ e, parseURL link = (none, some e)) ∨ ∃ parsed, parseURL link = (some parsed, none) := by
  unfold parseURL
  simp only []
  split
  · exact Or.inl ⟨_, rfl⟩
  · exact Or.inr ⟨_, rfl⟩

theorem ParseURL_of_parsed {link : String} {parsed : URL} (h : parseURL link = (some parsed, none)) :
    ParseURL link =
      if strings.HasSuffix parsed.Host "bilibili.com" then
        route ProviderBilibili (parseBilibiliURL parsed)
      else if strings.HasSuffix parsed.Host "youtube.com" then
        route ProviderYoutube (parseYoutubeURL parsed)
      else if strings.HasSuffix parsed.Host "vimeo.com" then
        route ProviderVimeo (parseVimeoURL parsed)
      else if strings.HasSuffix parsed.Host "soundcloud.com" then
        route ProviderSoundcloud (parseSoundcloudURL parsed)
      else if strings.HasSuffix parsed.Host "twitch.tv" then
        route ProviderTwitch (parseTwitchURL parsed)
      else some ({}, some (GoError.new "unsupported URL host")) := by
  unfold ParseURL
  rw [h]

theorem ParseURL_of_error {link : String} {e : GoError} (h : parseURL link = (none, some e)) :
    ParseURL link = some ({}, some e) := by
  unfold ParseURL
  rw [h]

/-- What `route` makes of a normal outcome of a path parser. -/
theorem route_outcome {kinds : List Kind} {r : Ret} (provider : Provider) (h : Outcome kinds r) :
    (r.2.2 = none ∧ r.1 ∈ kinds ∧
        route provider (some r) = some ({ Provider := provider, LinkType := r.1, ItemID := r.2.1 }, none)) ∨
      ∃ msg, msg ≠ "unsupported URL host" ∧ r = ("", "", some (GoError.new msg)) ∧
        route provider (some r) = some ({}, some (GoError.new msg)) := by
  rcases h with ⟨h1, h2⟩ | ⟨msg, h1, h2⟩
  · obtain ⟨kind, id, err⟩ := r
    simp only at h1 h2
    subst h1
    exact Or.inl ⟨rfl, h2, rfl⟩
  · subst h1
    exact Or.inr ⟨msg, h2, rfl, rfl⟩

/-! ## Claims C1 to C4: the router -/

/-- C1 (the code breaks the claim): `ParseURL` returns no error and an empty
`ItemID` on the Bilibili user link whose path is just `/` and on the SoundCloud
link whose segment after `sets` is empty. -/
theorem ParseURL_empty_identifier :
    ParseURL "https://space.bilibili.com/" =
        some ({ LinkType := TypeUser, Provider := ProviderBilibili, ItemID := "" }, none) ∧
      ParseURL "https://soundcloud.com/u/sets/" =
        some ({ LinkType := TypePlaylist, Provider := ProviderSoundcloud, ItemID := "" }, none) := by
  constructor <;> decide

/-- A routed result without error carries the provider of the arm and the
kind and identifier of the parser. -/
theorem route_eq_ok_iff (provider : Provider) (r : Option Ret) (info : Info) :
    route provider r = some (info, none) ↔
      info.Provider = provider ∧ r = some (info.LinkType, info.ItemID, none) := by
  unfold route
  split
  · simp
  · simp
  · rename_i kind id
    simp only [Option.some.injEq, Prod.mk.injEq, and_true]
    constructor
    · rintro rfl
      exact ⟨rfl, rfl, rfl⟩
    · rintro ⟨h1, h2, h3⟩
      obtain ⟨a, b, c⟩ := info
      simp only at h1 h2 h3
      subst h1 h2 h3
      rfl

/-- C2: for a link that the normalizer parses, `ParseURL` fails with
"unsupported URL host" exactly when the host ends with none of the five
suffixes; and when it succeeds, the host ends with the suffix of the returned
provider and kind and identifier are what that provider's parser returned. -/
theorem ParseURL_routes_by_host_suffix (link : String) (parsed : URL)
    (h : parseURL link = (some parsed, none)) :
    (ParseURL link = some ({}, some (GoError.new "unsupported URL host")) ↔
      ¬ (strings.HasSuffix parsed.Host "bilibili.com" = true ∨
         strings.HasSuffix parsed.Host "youtube.com" = true ∨
         strings.HasSuffix parsed.Host "vimeo.com" = true ∨
         strings.HasSuffix parsed.Host "soundcloud.com" = true ∨
         strings.HasSuffix parsed.Host "twitch.tv" = true)) ∧
    ∀ info : Info, ParseURL link = some (info, none) →
      ∃ suffix provider parser,
        (suffix, provider, parser) ∈
          [("bilibili.com", ProviderBilibili, parseBilibiliURL),
           ("youtube.com", ProviderYoutube, parseYoutubeURL),
           ("vimeo.com", ProviderVimeo, parseVimeoURL),
           ("soundcloud.com", ProviderSoundcloud, parseSoundcloudURL),
           ("twitch.tv", ProviderTwitch, parseTwitchURL)] ∧
        strings.HasSuffix parsed.Host suffix = true ∧
        info.Provider = provider ∧
        parser parsed = some (info.LinkType, info.ItemID, none) := by
  rw [ParseURL_of_parsed h]
  have key : ∀ (provider : Provider) (kinds : List Kind) (p : URL → Option Ret),
      (∃ r, p parsed = some r ∧ Outcome kinds r) →
      route provider (p parsed) ≠ some ({}, some (GoError.new "unsupported URL host")) := by
    intro provider kinds p ⟨r, hr, ho⟩ hc
    rw [hr] at hc
    rcases route_outcome provider ho with ⟨_, _, h3⟩ | ⟨msg, h1, _, h3⟩
    · rw [h3] at hc
      simp at hc
    · rw [h3] at hc
      simp only [Option.some.injEq, Prod.mk.injEq, GoError.new.injEq, true_and] at hc
      exact h1 hc
  constructor
  · split_ifs with hb hy hv hs ht
    · simp [hb, key _ _ _ (parseBilibiliURL_outcome parsed)]
    · simp [hy, key _ _ _ (parseYoutubeURL_outcome parsed)]
    · simp [hv, key _ _ _ (parseVimeoURL_outcome parsed)]
    · simp [hs, key _ _ _ (parseSoundcloudURL_outcome parsed)]
    · simp [ht, key _ _ _ (parseTwitchURL_outcome parsed)]
    · simp [hb, hy, hv, hs, ht]
  · intro info
    split_ifs with hb hy hv hs ht
    · intro hr
      exact ⟨"bilibili.com", _, parseBilibiliURL, by simp, hb, (route_eq_ok_iff _ _ _).mp hr⟩
    · intro hr
      exact ⟨"youtube.com", _, parseYoutubeURL, by simp, hy, (route_eq_ok_iff _ _ _).mp hr⟩
    · intro hr
      exact ⟨"vimeo.com", _, parseVimeoURL, by simp, hv, (route_eq_ok_iff _ _ _).mp hr⟩
    · intro hr
      exact ⟨"soundcloud.com", _, parseSoundcloudURL, by simp, hs, (route_eq_ok_iff _ _ _).mp hr⟩
    · intro hr
      exact ⟨"twitch.tv", _, parseTwitchURL, by simp, ht, (route_eq_ok_iff _ _ _).mp hr⟩
    · intro hr
      simp at hr

/-- Witness of C2: the host `evil-youtube.com` ends with `youtube.com`, so the
link is not rejected as an unsupported host and is parsed by the YouTube parser. -/
theorem ParseURL_routes_by_host_suffix_witness :
    parseURL "https://evil-youtube.com/channel/UC1" =
        (some { Scheme := "https", Host := "evil-youtube.com", Path := "/channel/UC1" }, none) ∧
      ParseURL "https://evil-youtube.com/channel/UC1" =
        some ({ LinkType := TypeChannel, Provider := ProviderYoutube, ItemID := "UC1" }, none) ∧
      ParseURL "https://evil-youtube.com/channel/UC1" ≠
        some ({}, some (GoError.new "unsupported URL host")) :=
  ⟨by decide, by decide, fun hc =>
    (ParseURL_routes_by_host_suffix "https://evil-youtube.com/channel/UC1"
      { Scheme := "https", Host := "evil-youtube.com", Path := "/channel/UC1" } (by decide)).1.mp hc
      (Or.inr (Or.inl (by decide)))⟩

/-- The result of `ParseURL` on a link, by cases: a routed error, or a routed
descriptor whose kind the parser of its provider can return. -/
theorem ParseURL_outcome (link : String) :
    (∃ e, ParseURL link = some ({}, some e)) ∨
      ∃ provider kinds kind id,
        (provider, kinds) ∈
          [(ProviderBilibili, [TypeUser, TypeChannel]),
           (ProviderYoutube, [TypePlaylist, TypeChannel, TypeUser, TypeHandle]),
           (ProviderVimeo, [TypeGroup, TypeChannel, TypeUser]),
           (ProviderSoundcloud, [TypePlaylist]),
           (ProviderTwitch, [TypeUser])] ∧
        kind ∈ kinds ∧
        ParseURL link = some ({ Provider := provider, LinkType := kind, ItemID := id }, none) := by
  have key : ∀ (provider : Provider) (kinds : List Kind) (r : Option Ret),
      (∃ r', r = some r' ∧ Outcome kinds r') →
      (∃ e, route provider r = some ({}, some e)) ∨
        ∃ kind id, kind ∈ kinds ∧
          route provider r = some ({ Provider := provider, LinkType := kind, ItemID := id }, none) := by
    intro provider kinds r ⟨r', hr, ho⟩
    subst hr
    rcases route_outcome provider ho with ⟨_, h2, h3⟩ | ⟨msg, _, _, h3⟩
    · exact Or.inr ⟨_, _, h2, h3⟩
    · exact Or.inl ⟨_, h3⟩
  rcases parseURL_cases link with ⟨e, he⟩ | ⟨parsed, hp⟩
  · exact Or.inl ⟨e, ParseURL_of_error he⟩
  · rw [ParseURL_of_parsed hp]
    split_ifs
    · rcases key ProviderBilibili _ _ (parseBilibiliURL_outcome parsed) with h | ⟨kind, id, h1, h2⟩
      · exact Or.inl h
      · exact Or.inr ⟨_, _, kind, id, by simp, h1, h2⟩
    · rcases key ProviderYoutube _ _ (parseYoutubeURL_outcome parsed) with h | ⟨kind, id, h1, h2⟩
      · exact Or.inl h
      · exact Or.inr ⟨_, _, kind, id, by simp, h1, h2⟩
    · rcases key ProviderVimeo _ _ (parseVimeoURL_outcome parsed) with h | ⟨kind, id, h1, h2⟩
      · exact Or.inl h
      · exact Or.inr ⟨_, _, kind, id, by simp, h1, h2⟩
    · rcases key ProviderSoundcloud _ _ (parseSoundcloudURL_outcome parsed) with h | ⟨kind, id, h1, h2⟩
      · exact Or.inl h
      · exact Or.inr ⟨_, _, kind, id, by simp, h1, h2⟩
    · rcases key ProviderTwitch _ _ (parseTwitchURL_outcome parsed) with h | ⟨kind, id, h1, h2⟩
      · exact Or.inl h
      · exact Or.inr ⟨_, _, kind, id, by simp, h1, h2⟩
    · exact Or.inl ⟨_, rfl⟩

/-- C3: `ParseURL` is fail-closed.  On every link it returns, and either with an
error and the zero-value `Info`, or with no error and an `Info` whose provider
is one of the five providers and whose kind is one of the five kinds; it never
returns the zero-value `Info` without an error.  The empty string yields an
error, and so does every parsed link whose host ends with none of the suffixes. -/
theorem ParseURL_fail_closed :
    (∀ link : String, ∃ info err, ParseURL link = some (info, err) ∧
      ((err ≠ none ∧ info = {}) ∨
        (err = none ∧
          info.Provider ∈ [ProviderYoutube, ProviderVimeo, ProviderSoundcloud, ProviderTwitch,
            ProviderBilibili] ∧
          info.LinkType ∈ [TypePlaylist, TypeChannel, TypeUser, TypeGroup, TypeHandle] ∧
          info.LinkType ≠ ""))) ∧
    (∀ link : String, ParseURL link ≠ some ({}, none)) ∧
    ParseURL "" = some ({}, some (GoError.new "unsupported URL host")) ∧
    (∀ (link : String) (parsed : URL), parseURL link = (some parsed, none) →
      strings.HasSuffix parsed.Host "bilibili.com" = false →
      strings.HasSuffix parsed.Host "youtube.com" = false →
      strings.HasSuffix parsed.Host "vimeo.com" = false →
      strings.HasSuffix parsed.Host "soundcloud.com" = false →
      strings.HasSuffix parsed.Host "twitch.tv" = false →
      ParseURL link = some ({}, some (GoError.new "unsupported URL host"))) := by
  have main : ∀ link : String, ∃ info err, ParseURL link = some (info, err) ∧
      ((err ≠ none ∧ info = {}) ∨
        (err = none ∧
          info.Provider ∈ [ProviderYoutube, ProviderVimeo, ProviderSoundcloud, ProviderTwitch,
            ProviderBilibili] ∧
          info.LinkType ∈ [TypePlaylist, TypeChannel, TypeUser, TypeGroup, TypeHandle] ∧
          info.LinkType ≠ "")) := by
    intro link
    rcases ParseURL_outcome link with ⟨e, he⟩ | ⟨provider, kinds, kind, id, hm, hk, hr⟩
    · exact ⟨_, _, he, Or.inl ⟨by simp, rfl⟩⟩
    · have hp5 : provider ∈ [ProviderYoutube, ProviderVimeo, ProviderSoundcloud, ProviderTwitch,
          ProviderBilibili] := by
        simp only [List.mem_cons, Prod.mk.injEq, List.mem_singleton, List.not_mem_nil, or_false] at hm
        rcases hm with ⟨rfl, _⟩ | ⟨rfl, _⟩ | ⟨rfl, _⟩ | ⟨rfl, _⟩ | ⟨rfl, _⟩ <;> simp
      have hk5 : kind ∈ [TypePlaylist, TypeChannel, TypeUser, TypeGroup, TypeHandle] := by
        simp only [List.mem_cons, Prod.mk.injEq, List.mem_singleton, List.not_mem_nil, or_false] at hm
        rcases hm with ⟨_, rfl⟩ | ⟨_, rfl⟩ | ⟨_, rfl⟩ | ⟨_, rfl⟩ | ⟨_, rfl⟩ <;>
          simp only [List.mem_cons, List.mem_singleton, List.not_mem_nil, or_false] at hk <;>
          rcases hk with rfl | rfl | rfl | rfl <;> simp
      have hne : kind ≠ "" := by
        simp only [List.mem_cons, List.mem_singleton, List.not_mem_nil, or_false] at hk5
        rcases hk5 with rfl | rfl | rfl | rfl | rfl <;> decide
      exact ⟨_, _, hr, Or.inr ⟨rfl, hp5, hk5, hne⟩⟩
  refine ⟨main, ?_, by decide, ?_⟩
  · intro link hc
    obtain ⟨info, err, h1, h2⟩ := main link
    rw [hc] at h1
    simp only [Option.some.injEq, Prod.mk.injEq] at h1
    obtain ⟨rfl, rfl⟩ := h1
    rcases h2 with ⟨h3, _⟩ | ⟨_, _, _, h3⟩
    · exact h3 rfl
    · exact h3 rfl
  · intro link parsed hp hb hy hv hs ht
    rw [ParseURL_of_parsed hp]
    simp [hb, hy, hv, hs, ht]

/-- Witness of C3: `example.com` ends with none of the five suffixes and the
link is rejected as an unsupported host. -/
theorem ParseURL_fail_closed_witness :
    parseURL "example.com/x" =
        (some { Scheme := "https", Host := "example.com", Path := "/x" }, none) ∧
      ParseURL "example.com/x" = some ({}, some (GoError.new "unsupported URL host")) :=
  ⟨by decide,
    ParseURL_fail_closed.2.2.2 "example.com/x"
      { Scheme := "https", Host := "example.com", Path := "/x" }
      (by decide) (by decide) (by decide) (by decide) (by decide) (by decide)⟩

/-- A normal outcome is a return without error or a return of an error with the
zero kind and identifier. -/
theorem Outcome_shape {kinds : List Kind} {r : Ret} (h : Outcome kinds r) :
    ∃ kind id err, r = (kind, id, err) ∧ (err = none ∨ (kind = "" ∧ id = "")) := by
  rcases h with ⟨h1, _⟩ | ⟨msg, h1, _⟩
  · exact ⟨r.1, r.2.1, r.2.2, rfl, Or.inl h1⟩
  · exact ⟨_, _, _, h1, Or.inr ⟨rfl, rfl⟩⟩

/-- C4: on every parsed URL none of the five path parsers faults.  Each returns
(the result is `some`, no checked index access having failed), with a kind and an
identifier or with an error and the zero kind and identifier; in particular
the first dot-separated label of the host always exists. -/
theorem path_parsers_never_fault (u : URL) :
    (strings.Split u.Host '.')[0]? ≠ none ∧
    ∀ parser ∈ [parseYoutubeURL, parseBilibiliURL, parseVimeoURL, parseSoundcloudURL,
        parseTwitchURL],
      ∃ kind id err, parser u = some (kind, id, err) ∧ (err = none ∨ (kind = "" ∧ id = "")) := by
  constructor
  · rw [List.getElem?_eq_getElem (strings.Split_length_pos _ _)]
    simp
  · intro parser hp
    simp only [List.mem_cons, List.mem_singleton, List.not_mem_nil, or_false] at hp
    rcases hp with rfl | rfl | rfl | rfl | rfl
    · obtain ⟨r, h1, h2⟩ := parseYoutubeURL_outcome u
      obtain ⟨kind, id, err, h3, h4⟩ := Outcome_shape h2
      exact ⟨kind, id, err, h3 ▸ h1, h4⟩
    · obtain ⟨r, h1, h2⟩ := parseBilibiliURL_outcome u
      obtain ⟨kind, id, err, h3, h4⟩ := Outcome_shape h2
      exact ⟨kind, id, err, h3 ▸ h1, h4⟩
    · obtain ⟨r, h1, h2⟩ := parseVimeoURL_outcome u
      obtain ⟨kind, id, err, h3, h4⟩ := Outcome_shape h2
      exact ⟨kind, id, err, h3 ▸ h1, h4⟩
    · obtain ⟨r, h1, h2⟩ := parseSoundcloudURL_outcome u
      obtain ⟨kind, id, err, h3, h4⟩ := Outcome_shape h2
      exact ⟨kind, id, err, h3 ▸ h1, h4⟩
    · obtain ⟨r, h1, h2⟩ := parseTwitchURL_outcome u
      obtain ⟨kind, id, err, h3, h4⟩ := Outcome_shape h2
      exact ⟨kind, id, err, h3 ▸ h1, h4⟩

/-! ## Lemmas on splitting and prefixes -/

theorem strings.HasPrefix_iff (s p : String) :
    strings.HasPrefix s p = true ↔ ∃ t, s.data = p.data ++ t := by
  unfold strings.HasPrefix
  rw [List.isPrefixOf_iff_prefix]
  constructor
  · rintro ⟨t, ht⟩
    exact ⟨t, ht.symm⟩
  · rintro ⟨t, ht⟩
    exact ⟨t, ht.symm⟩

theorem strings.splitOn_cons_sep (sep : Char) (l : List Char) :
    strings.splitOn sep (sep :: l) = [] :: strings.splitOn sep l := by
  simp [strings.splitOn]

theorem strings.splitOn_cons_ne {sep c : Char} (h : c ≠ sep) (l : List Char) :
    ∃ p ps, strings.splitOn sep l = p :: ps ∧ strings.splitOn sep (c :: l) = (c :: p) :: ps := by
  cases hl : strings.splitOn sep l with
  | nil => exact absurd hl (strings.splitOn_ne_nil sep l)
  | cons p ps =>
    refine ⟨p, ps, rfl, ?_⟩
    rw [strings.splitOn, if_neg h, hl]

/-- The first part of a split: it holds no separator, and the input is either
that part alone or that part, a separator, and an input whose split gives the
other parts. -/
theorem strings.splitOn_eq_cons {sep : Char} {l p : List Char} {rest : List (List Char)}
    (h : strings.splitOn sep l = p :: rest) :
    sep ∉ p ∧ ((rest = [] ∧ l = p) ∨ ∃ l', l = p ++ sep :: l' ∧ strings.splitOn sep l' = rest) := by
  induction l generalizing p rest with
  | nil =>
    simp only [strings.splitOn, List.cons.injEq] at h
    obtain ⟨rfl, rfl⟩ := h
    simp
  | cons c cs ih =>
    by_cases hc : c = sep
    · subst hc
      rw [strings.splitOn_cons_sep] at h
      simp only [List.cons.injEq] at h
      obtain ⟨rfl, rfl⟩ := h
      exact ⟨by simp, Or.inr ⟨cs, rfl, rfl⟩⟩
    · obtain ⟨q, qs, h1, h2⟩ := strings.splitOn_cons_ne hc cs
      rw [h2] at h
      simp only [List.cons.injEq] at h
      obtain ⟨rfl, rfl⟩ := h
      obtain ⟨h3, h4⟩ := ih h1
      refine ⟨?_, ?_⟩
      · simp only [List.mem_cons, not_or]
        exact ⟨fun h => hc h.symm, h3⟩
      · rcases h4 with ⟨rfl, rfl⟩ | ⟨l', rfl, h5⟩
        · exact Or.inl ⟨rfl, rfl⟩
        · exact Or.inr ⟨l', rfl, h5⟩

/-- The same for `strings.Split`. -/
theorem strings.Split_eq_cons {sep : Char} {s p : String} {rest : List String}
    (h : strings.Split s sep = p :: rest) :
    (rest = [] ∧ s = p) ∨
      ∃ s' : String, s.data = p.data ++ sep :: s'.data ∧ strings.Split s' sep = rest := by
  unfold strings.Split at h
  cases hl : strings.splitOn sep s.data with
  | nil => exact absurd hl (strings.splitOn_ne_nil sep _)
  | cons q qs =>
    rw [hl] at h
    simp only [List.map_cons, List.cons.injEq] at h
    obtain ⟨rfl, rfl⟩ := h
    rcases (strings.splitOn_eq_cons hl).2 with ⟨rfl, h1⟩ | ⟨l', h1, h2⟩
    · exact Or.inl ⟨rfl, String.ext h1⟩
    · exact Or.inr ⟨⟨l'⟩, h1, by rw [strings.Split, h2]⟩

/-- A path whose split begins with the empty part and the part `seg` begins
with `/` followed by `seg`. -/
theorem strings.data_of_Split_root {s seg : String} {rest : List String}
    (h : strings.Split s '/' = "" :: seg :: rest) :
    ∃ t, s.data = '/' :: (seg.data ++ t) := by
  rcases strings.Split_eq_cons h with ⟨h1, _⟩ | ⟨s', h1, h2⟩
  · simp at h1
  · rcases strings.Split_eq_cons h2 with ⟨_, h3⟩ | ⟨s'', h3, _⟩
    · exact ⟨[], by rw [h1, h3]; simp⟩
    · exact ⟨'/' :: s''.data, by rw [h1, h3]; simp⟩


/-! ## Claims C5 to C8: the YouTube parser -/

/-- C5: on a path `/playlist` or `/watch`, `parseYoutubeURL` returns the
playlist kind with the first value of the query parameter `list` when there is
one and it is not empty, and fails with "invalid playlist link" when `list` is
absent or its first value is empty; no other shape is tried. -/
theorem parseYoutubeURL_playlist (u : URL)
    (h : u.EscapedPath = "/playlist" ∨ u.EscapedPath = "/watch") :
    parseYoutubeURL u =
      match u.Query.index "list" with
      | [] => some ("", "", some (GoError.new "invalid playlist link"))
      | x :: _ =>
        if x = "" then some ("", "", some (GoError.new "invalid playlist link"))
        else some (TypePlaylist, x, none) := by
  have hp : (strings.HasPrefix u.EscapedPath "/playlist" ||
      strings.HasPrefix u.EscapedPath "/watch") = true := by
    rcases h with h | h <;> rw [h] <;> decide
  unfold parseYoutubeURL
  simp only [hp, if_true]
  unfold Values.Get
  cases u.Query.index "list" with
  | nil => simp
  | cons x xs =>
    by_cases hx : x = ""
    · simp [hx]
    · simp [hx]

/-- Witness of C5: the link `youtube.com/playlist?list=PL123` of the spec. -/
theorem parseYoutubeURL_playlist_witness :
    parseURL "youtube.com/playlist?list=PL123" =
        (some { Scheme := "https", Host := "youtube.com", Path := "/playlist",
                RawQuery := "list=PL123" }, none) ∧
      ParseURL "youtube.com/playlist?list=PL123" =
        some ({ LinkType := TypePlaylist, Provider := ProviderYoutube, ItemID := "PL123" }, none) ∧
      parseYoutubeURL
          { Scheme := "https", Host := "youtube.com", Path := "/playlist", RawQuery := "list=PL123" } =
        some (TypePlaylist, "PL123", none) :=
  ⟨by decide, by decide,
    (parseYoutubeURL_playlist
      { Scheme := "https", Host := "youtube.com", Path := "/playlist", RawQuery := "list=PL123" }
      (Or.inl (by decide))).trans (by decide)⟩

/-- The prefix tests of `parseYoutubeURL` on a path whose first segment is `channel`. -/
theorem prefixes_of_channel {s : String} {rest : List String}
    (h : strings.Split s '/' = "" :: "channel" :: rest) :
    strings.HasPrefix s "/playlist" = false ∧ strings.HasPrefix s "/watch" = false ∧
      strings.HasPrefix s "/channel" = true := by
  obtain ⟨t, ht⟩ := strings.data_of_Split_root h
  simp [strings.HasPrefix, ht, List.isPrefixOf]

/-- The prefix tests of `parseYoutubeURL` on a path whose first segment is `user`. -/
theorem prefixes_of_user {s : String} {rest : List String}
    (h : strings.Split s '/' = "" :: "user" :: rest) :
    strings.HasPrefix s "/playlist" = false ∧ strings.HasPrefix s "/watch" = false ∧
      strings.HasPrefix s "/channel" = false ∧ strings.HasPrefix s "/user" = true := by
  obtain ⟨t, ht⟩ := strings.data_of_Split_root h
  simp [strings.HasPrefix, ht, List.isPrefixOf]

/-- C6: on a path whose first segment is exactly `channel` (respectively
`user`), `parseYoutubeURL` returns the channel (respectively user) kind with
the second segment, whatever follows it, when there is a second segment and it
is not empty; it fails when there is no second segment or it is empty. -/
theorem parseYoutubeURL_channel_user (u : URL) (rest : List String) :
    (strings.Split u.EscapedPath '/' = "" :: "channel" :: rest →
      parseYoutubeURL u =
        match rest with
        | [] => some ("", "", some (GoError.new "invalid youtube channel link"))
        | id :: _ =>
          if id = "" then some ("", "", some (GoError.new "invalid id"))
          else some (TypeChannel, id, none)) ∧
    (strings.Split u.EscapedPath '/' = "" :: "user" :: rest →
      parseYoutubeURL u =
        match rest with
        | [] => some ("", "", some (GoError.new "invalid user link"))
        | id :: _ =>
          if id = "" then some ("", "", some (GoError.new "invalid id"))
          else some (TypeUser, id, none)) := by
  constructor
  · intro h
    obtain ⟨h1, h2, h3⟩ := prefixes_of_channel h
    unfold parseYoutubeURL
    simp only [h1, h2, h3, h]
    cases rest with
    | nil => simp
    | cons id tl =>
      by_cases hid : id = ""
      · simp [hid]
      · simp [hid]
  · intro h
    obtain ⟨h1, h2, h3, h4⟩ := prefixes_of_user h
    unfold parseYoutubeURL
    simp only [h1, h2, h3, h4, h]
    cases rest with
    | nil => simp
    | cons id tl =>
      by_cases hid : id = ""
      · simp [hid]
      · simp [hid]

/-- Witness of C6: `/channel/UC1/videos` gives the channel `UC1`, and `/user/`
fails on its empty second segment. -/
theorem parseYoutubeURL_channel_user_witness :
    strings.Split (URL.EscapedPath { Host := "www.youtube.com", Path := "/channel/UC1/videos" }) '/' =
        "" :: "channel" :: ["UC1", "videos"] ∧
      parseYoutubeURL { Host := "www.youtube.com", Path := "/channel/UC1/videos" } =
        some (TypeChannel, "UC1", none) ∧
      strings.Split (URL.EscapedPath { Host := "www.youtube.com", Path := "/user/" }) '/' =
        "" :: "user" :: [""] ∧
      parseYoutubeURL { Host := "www.youtube.com", Path := "/user/" } =
        some ("", "", some (GoError.new "invalid id")) :=
  ⟨by decide,
    (parseYoutubeURL_channel_user { Host := "www.youtube.com", Path := "/channel/UC1/videos" }
      ["UC1", "videos"]).1 (by decide),
    by decide,
    (parseYoutubeURL_channel_user { Host := "www.youtube.com", Path := "/user/" } [""]).2
      (by decide)⟩

/-- A path that begins with `/@` splits into the empty part, a part that
begins with `@`, and further parts; and it has none of the other prefixes. -/
theorem split_of_handle {s : String} (h : strings.HasPrefix s "/@" = true) :
    (∃ (hd : String) (rest : List String), strings.Split s '/' = "" :: ("@" ++ hd) :: rest) ∧
      strings.HasPrefix s "/playlist" = false ∧ strings.HasPrefix s "/watch" = false ∧
      strings.HasPrefix s "/channel" = false ∧ strings.HasPrefix s "/user" = false := by
  obtain ⟨t, ht⟩ := (strings.HasPrefix_iff s "/@").mp h
  have ht' : s.data = '/' :: '@' :: t := ht
  refine ⟨?_, ?_⟩
  · obtain ⟨p, ps, h1, h2⟩ := strings.splitOn_cons_ne (show '@' ≠ '/' by decide) t
    refine ⟨⟨p⟩, ps.map String.mk, ?_⟩
    unfold strings.Split
    rw [ht', strings.splitOn_cons_sep, h2]
    rfl
  · simp [strings.HasPrefix, ht', List.isPrefixOf]

/-- C7: on a path that begins with `/@`, the first segment is `@` followed by
some `hd`, and `parseYoutubeURL` returns the handle kind with `hd` (one leading
`@` removed, later segments ignored) when `hd` is not empty, and fails when it
is empty. -/
theorem parseYoutubeURL_handle (u : URL) (h : strings.HasPrefix u.EscapedPath "/@" = true) :
    ∃ (hd : String) (rest : List String),
      strings.Split u.EscapedPath '/' = "" :: ("@" ++ hd) :: rest ∧
      parseYoutubeURL u =
        if hd = "" then some ("", "", some (GoError.new "empty handle"))
        else some (TypeHandle, hd, none) := by
  obtain ⟨⟨hd, rest, hs⟩, h1, h2, h3, h4⟩ := split_of_handle h
  refine ⟨hd, rest, hs, ?_⟩
  have h5 : strings.HasPrefix ("@" ++ hd) "@" = true :=
    (strings.HasPrefix_iff _ _).mpr ⟨hd.data, by simp⟩
  have h6 : strings.TrimPrefix ("@" ++ hd) "@" = hd := by
    unfold strings.TrimPrefix
    rw [if_pos h5]
    apply String.ext
    simp
  have h7 : ("@" ++ hd : String) ≠ "" := by
    intro hc
    have := congrArg String.data hc
    simp at this
  unfold parseYoutubeURL
  simp only [h1, h2, h3, h4, h, hs]
  simp [h5, h6, h7]

/-- Witness of C7: the link `https://www.youtube.com/@someuser` of the spec. -/
theorem parseYoutubeURL_handle_witness :
    parseURL "https://www.youtube.com/@someuser" =
        (some { Scheme := "https", Host := "www.youtube.com", Path := "/@someuser" }, none) ∧
      ParseURL "https://www.youtube.com/@someuser" =
        some ({ LinkType := TypeHandle, Provider := ProviderYoutube, ItemID := "someuser" }, none) ∧
      ∃ (hd : String) (rest : List String),
        strings.Split
            (URL.EscapedPath { Scheme := "https", Host := "www.youtube.com", Path := "/@someuser" })
            '/' = "" :: ("@" ++ hd) :: rest ∧
          parseYoutubeURL { Scheme := "https", Host := "www.youtube.com", Path := "/@someuser" } =
            if hd = "" then some ("", "", some (GoError.new "empty handle"))
            else some (TypeHandle, hd, none) :=
  ⟨by decide, by decide,
    parseYoutubeURL_handle { Scheme := "https", Host := "www.youtube.com", Path := "/@someuser" }
      (by decide)⟩


/-- C8 (as stated, refuted): the first segments `channels`, `users` and
`watchlater` are none of `playlist`, `watch`, `channel`, `user` and do not begin
with `@`, yet the links are parsed as channel, user and playlist. -/
theorem parseYoutubeURL_segment_counterexample :
    (strings.Split (URL.EscapedPath { Host := "www.youtube.com", Path := "/channels/abc" }) '/')[1]? =
        some "channels" ∧
      "channels" ∉ ["playlist", "watch", "channel", "user"] ∧
      strings.HasPrefix "channels" "@" = false ∧
      parseYoutubeURL { Host := "www.youtube.com", Path := "/channels/abc" } =
        some (TypeChannel, "abc", none) ∧
      ParseURL "https://www.youtube.com/channels/abc" =
        some ({ LinkType := TypeChannel, Provider := ProviderYoutube, ItemID := "abc" }, none) ∧
      ParseURL "https://www.youtube.com/users/abc" =
        some ({ LinkType := TypeUser, Provider := ProviderYoutube, ItemID := "abc" }, none) ∧
      ParseURL "https://www.youtube.com/watchlater?list=X" =
        some ({ LinkType := TypePlaylist, Provider := ProviderYoutube, ItemID := "X" }, none) := by
  refine ⟨by decide, by decide, by decide, by decide, by decide, by decide, by decide⟩

/-- C8 (amended): `parseYoutubeURL` fails with "unsupported link format"
exactly when the escaped path has none of the string prefixes `/playlist`,
`/watch`, `/channel`, `/user`, `/@`. -/
theorem parseYoutubeURL_unsupported_iff (u : URL) :
    parseYoutubeURL u = some ("", "", some (GoError.new "unsupported link format")) ↔
      (strings.HasPrefix u.EscapedPath "/playlist" = false ∧
        strings.HasPrefix u.EscapedPath "/watch" = false ∧
        strings.HasPrefix u.EscapedPath "/channel" = false ∧
        strings.HasPrefix u.EscapedPath "/user" = false ∧
        strings.HasPrefix u.EscapedPath "/@" = false) := by
  unfold parseYoutubeURL
  simp only []
  split_ifs with h1 h2 h3 h4 h5 h6 h7 h8
  · have : TypePlaylist ≠ "" := by decide
    simp only [Bool.or_eq_true] at h1
    rcases h1 with h1 | h1 <;> simp [h1, this]
  · simp only [Bool.or_eq_true] at h1
    rcases h1 with h1 | h1 <;> simp [h1]
  · simp [h3]
  · rw [List.getElem?_eq_getElem (by omega)]
    simp only []
    have : TypeChannel ≠ "" := by decide
    split_ifs <;> simp [h3, this]
  · simp [h5]
  · rw [List.getElem?_eq_getElem (by omega)]
    simp only []
    have : TypeUser ≠ "" := by decide
    split_ifs <;> simp [h5, this]
  · simp [h7]
  · rw [List.getElem?_eq_getElem (by omega)]
    simp only []
    have : TypeHandle ≠ "" := by decide
    split_ifs <;> simp [h7, this]
  · simp only [Bool.or_eq_true, not_or, Bool.not_eq_true] at h1
    simp [h1.1, h1.2, h3, h5, h7]


/-! ## Claims C9 and C10: the Bilibili and Vimeo parsers -/

/-- C9 (as stated, refuted): the second segment is `channel`, the first label
of the host is `space`, and the query parameter `sid` is present with first
value `3`; yet the parser fails, because another pair of the query does not
decode and `url.ParseQuery` reports an error. -/
theorem parseBilibiliURL_channel_counterexample :
    parseURL "https://space.bilibili.com/1/channel/x?sid=3&a=%zz" =
        (some { Scheme := "https", Host := "space.bilibili.com", Path := "/1/channel/x",
                RawQuery := "sid=3&a=%zz" }, none) ∧
      strings.Split
          (URL.EscapedPath { Scheme := "https", Host := "space.bilibili.com", Path := "/1/channel/x",
                             RawQuery := "sid=3&a=%zz" }) '/' = ["", "1", "channel", "x"] ∧
      Values.index
          (URL.Query { Scheme := "https", Host := "space.bilibili.com", Path := "/1/channel/x",
                       RawQuery := "sid=3&a=%zz" }) "sid" = ["3"] ∧
      parseBilibiliURL
          { Scheme := "https", Host := "space.bilibili.com", Path := "/1/channel/x",
            RawQuery := "sid=3&a=%zz" } =
        some ("", "", some (GoError.new "invalid bilibili channel path (missing sid)")) ∧
      ParseURL "https://space.bilibili.com/1/channel/x?sid=3&a=%zz" =
        some ({}, some (GoError.new "invalid bilibili channel path (missing sid)")) := by
  refine ⟨by decide, by decide, by decide, by decide, by decide⟩

/-- C9 (amended): `parseBilibiliURL` succeeds only if the first dot-separated
label of the host is `space`, and then: a path of one segment `/mid` gives the
user `mid`; a path whose second segment is `channel` gives the channel
`mid:sid`, `sid` the first value of the query parameter `sid`, when
`url.ParseQuery` reports no error on the raw query and `sid` is present, and
fails when `sid` is absent or the query is reported malformed; a path without
`/` (the empty path) fails; every other path fails with "unsupported bilibili
link format". -/
theorem parseBilibiliURL_shapes (u : URL) :
    (∀ kind id, parseBilibiliURL u = some (kind, id, none) →
      (strings.Split u.Host '.')[0]? = some "space") ∧
    ((strings.Split u.Host '.')[0]? = some "space" →
      (∀ root mid, strings.Split u.EscapedPath '/' = [root, mid] →
        parseBilibiliURL u = some (TypeUser, mid, none)) ∧
      (∀ root mid rest, strings.Split u.EscapedPath '/' = root :: mid :: "channel" :: rest →
        parseBilibiliURL u =
          match url.ParseQuery u.RawQuery with
          | (_, some _) => some ("", "", some (GoError.new "invalid bilibili channel path (missing sid)"))
          | (params, none) =>
            match params.index "sid" with
            | [] => some ("", "", some (GoError.new "invalid bilibili channel path (missing sid)"))
            | sid :: _ => some (TypeChannel, mid ++ ":" ++ sid, none)) ∧
      (∀ only, strings.Split u.EscapedPath '/' = [only] →
        parseBilibiliURL u = some ("", "", some (GoError.new "invalid bilibili link path"))) ∧
      (u.EscapedPath = "" →
        parseBilibiliURL u = some ("", "", some (GoError.new "invalid bilibili link path"))) ∧
      (∀ root mid second rest, strings.Split u.EscapedPath '/' = root :: mid :: second :: rest →
        second ≠ "channel" →
        parseBilibiliURL u = some ("", "", some (GoError.new "unsupported bilibili link format")))) := by
  have h0 := strings.Split_length_pos u.Host '.'
  constructor
  · intro kind id h
    unfold parseBilibiliURL at h
    rw [List.getElem?_eq_getElem h0] at h ⊢
    simp only [] at h
    by_cases h1 : (strings.Split u.EscapedPath '/').length ≤ 1 ∨
        (strings.Split u.Host '.')[0] ≠ "space"
    · rw [if_pos h1] at h
      simp at h
    · simp only [not_or, not_not] at h1
      rw [h1.2]
  · intro hs
    rw [List.getElem?_eq_getElem h0] at hs
    simp only [Option.some.injEq] at hs
    have onlyCase : ∀ only, strings.Split u.EscapedPath '/' = [only] →
        parseBilibiliURL u = some ("", "", some (GoError.new "invalid bilibili link path")) := by
      intro only hp
      unfold parseBilibiliURL
      rw [List.getElem?_eq_getElem h0]
      simp [hp]
    refine ⟨?_, ?_, onlyCase, ?_, ?_⟩
    · intro root mid hp
      unfold parseBilibiliURL
      rw [List.getElem?_eq_getElem h0]
      simp [hp, hs]
    · intro root mid rest hp
      unfold parseBilibiliURL
      rw [List.getElem?_eq_getElem h0]
      simp only [hp, hs]
      rcases hq : url.ParseQuery u.RawQuery with ⟨params, err⟩
      cases err with
      | some e => simp
      | none =>
        cases hi : params.index "sid" with
        | nil => simp [hi]
        | cons sid tl => simp [hi]
    · intro hp
      exact onlyCase "" (by rw [hp]; decide)
    · intro root mid second rest hp hne
      unfold parseBilibiliURL
      rw [List.getElem?_eq_getElem h0]
      simp [hp, hs, hne]

/-- Witness of C9: the channel link of the spec, and a user link. -/
theorem parseBilibiliURL_shapes_witness :
    ParseURL "https://space.bilibili.com/123/channel/collectiondetail?sid=456" =
        some ({ LinkType := TypeChannel, Provider := ProviderBilibili, ItemID := "123:456" }, none) ∧
      (strings.Split (URL.Host { Host := "space.bilibili.com", Path := "/123" }) '.')[0]? =
        some "space" ∧
      strings.Split (URL.EscapedPath { Host := "space.bilibili.com", Path := "/123" }) '/' =
        ["", "123"] ∧
      parseBilibiliURL { Host := "space.bilibili.com", Path := "/123" } =
        some (TypeUser, "123", none) :=
  ⟨by decide, by decide, by decide,
    ((parseBilibiliURL_shapes { Host := "space.bilibili.com", Path := "/123" }).2 (by decide)).1
      "" "123" (by decide)⟩

/-- C10: `parseVimeoURL` on the parts of the path split at `/`.  With first
segment `groups` (respectively `channels`) it returns the group (respectively
channel) kind with the second segment, and fails when the second segment is
missing or empty; with any other first segment it returns the user kind with
the first segment, and fails when that segment is empty; it fails on a path
without `/`, such as the empty path. -/
theorem parseVimeoURL_shapes (u : URL) :
    (∀ root rest, strings.Split u.EscapedPath '/' = root :: "groups" :: rest →
      parseVimeoURL u =
        match rest with
        | [] => some ("", "", some (GoError.new "invalid channel link"))
        | id :: _ =>
          if id = "" then some ("", "", some (GoError.new "invalid id"))
          else some (TypeGroup, id, none)) ∧
    (∀ root rest, strings.Split u.EscapedPath '/' = root :: "channels" :: rest →
      parseVimeoURL u =
        match rest with
        | [] => some ("", "", some (GoError.new "invalid channel link"))
        | id :: _ =>
          if id = "" then some ("", "", some (GoError.new "invalid id"))
          else some (TypeChannel, id, none)) ∧
    (∀ root first rest, strings.Split u.EscapedPath '/' = root :: first :: rest →
      first ≠ "groups" → first ≠ "channels" →
      parseVimeoURL u =
        if first = "" then some ("", "", some (GoError.new "invalid id"))
        else some (TypeUser, first, none)) ∧
    (∀ only, strings.Split u.EscapedPath '/' = [only] →
      parseVimeoURL u = some ("", "", some (GoError.new "invalid vimeo link path"))) ∧
    (u.EscapedPath = "" →
      parseVimeoURL u = some ("", "", some (GoError.new "invalid vimeo link path"))) := by
  have onlyCase : ∀ only, strings.Split u.EscapedPath '/' = [only] →
      parseVimeoURL u = some ("", "", some (GoError.new "invalid vimeo link path")) := by
    intro only hp
    unfold parseVimeoURL
    simp [hp]
  refine ⟨?_, ?_, ?_, onlyCase, ?_⟩
  · intro root rest hp
    unfold parseVimeoURL
    simp only [hp]
    cases rest with
    | nil => simp
    | cons id tl =>
      by_cases hid : id = ""
      · simp [hid]
      · simp [hid]
  · intro root rest hp
    unfold parseVimeoURL
    simp only [hp]
    cases rest with
    | nil => simp
    | cons id tl =>
      by_cases hid : id = ""
      · simp [hid]
      · simp [hid]
  · intro root first rest hp hg hc
    have hk : ¬ (TypeUser = TypeGroup ∨ TypeUser = TypeChannel) := by decide
    unfold parseVimeoURL
    simp only [hp]
    by_cases hid : first = ""
    · simp [hid, hk]
    · simp [hid, hk, hg, hc]
  · intro hp
    exact onlyCase "" (by rw [hp]; decide)

/-- Witness of C10: the group link of the spec, and a user link. -/
theorem parseVimeoURL_shapes_witness :
    ParseURL "https://vimeo.com/groups/abc" =
        some ({ LinkType := TypeGroup, Provider := ProviderVimeo, ItemID := "abc" }, none) ∧
      strings.Split (URL.EscapedPath { Host := "vimeo.com", Path := "/groups/abc" }) '/' =
        "" :: "groups" :: ["abc"] ∧
      parseVimeoURL { Host := "vimeo.com", Path := "/groups/abc" } =
        some (TypeGroup, "abc", none) ∧
      strings.Split (URL.EscapedPath { Host := "vimeo.com", Path := "/staff" }) '/' =
        "" :: "staff" :: [] ∧
      parseVimeoURL { Host := "vimeo.com", Path := "/staff" } = some (TypeUser, "staff", none) :=
  ⟨by decide, by decide,
    (parseVimeoURL_shapes { Host := "vimeo.com", Path := "/groups/abc" }).1 "" ["abc"] (by decide),
    by decide,
    (parseVimeoURL_shapes { Host := "vimeo.com", Path := "/staff" }).2.2.1 "" "staff" []
      (by decide) (by decide) (by decide)⟩

/-! ## Claims C11 and C12: the SoundCloud and Twitch parsers -/

/-- C11: `parseSoundcloudURL` on the parts of the escaped path split at `/`.
With fewer than four parts it fails with "invalid soundcloud link path"; with
four parts or more it returns the playlist kind with the fourth part when the
third part is `sets`, and fails with "invalid soundcloud url, missing sets"
otherwise.  Hence it succeeds exactly when there are at least four parts and
the third is `sets`. -/
theorem parseSoundcloudURL_shapes (u : URL) :
    ((strings.Split u.EscapedPath '/').length < 4 →
      parseSoundcloudURL u = some ("", "", some (GoError.new "invalid soundcloud link path"))) ∧
    (∀ root user third name rest,
      strings.Split u.EscapedPath '/' = root :: user :: third :: name :: rest →
      parseSoundcloudURL u =
        if third = "sets" then some (TypePlaylist, name, none)
        else some ("", "", some (GoError.new "invalid soundcloud url, missing sets"))) ∧
    ((∃ kind id, parseSoundcloudURL u = some (kind, id, none)) ↔
      4 ≤ (strings.Split u.EscapedPath '/').length ∧
        (strings.Split u.EscapedPath '/')[2]? = some "sets") := by
  have short : (strings.Split u.EscapedPath '/').length < 4 →
      parseSoundcloudURL u = some ("", "", some (GoError.new "invalid soundcloud link path")) := by
    intro h
    unfold parseSoundcloudURL
    simp only []
    rw [if_pos (by omega)]
  have long : ∀ root user third name rest,
      strings.Split u.EscapedPath '/' = root :: user :: third :: name :: rest →
      parseSoundcloudURL u =
        if third = "sets" then some (TypePlaylist, name, none)
        else some ("", "", some (GoError.new "invalid soundcloud url, missing sets")) := by
    intro root user third name rest hp
    unfold parseSoundcloudURL
    simp only [hp]
    by_cases h3 : third = "sets"
    · simp [h3]
    · simp [h3]
  refine ⟨short, long, ?_⟩
  constructor
  · rintro ⟨kind, id, h⟩
    by_cases hl : (strings.Split u.EscapedPath '/').length < 4
    · rw [short hl] at h
      simp at h
    · match hp : strings.Split u.EscapedPath '/' with
      | [] => rw [hp] at hl; simp at hl
      | [_] => rw [hp] at hl; simp at hl
      | [_, _] => rw [hp] at hl; simp at hl
      | [_, _, _] => rw [hp] at hl; simp at hl
      | root :: user :: third :: name :: rest =>
        rw [long root user third name rest hp] at h
        by_cases h3 : third = "sets"
        · simp [h3]
        · simp [h3] at h
  · rintro ⟨hl, h3⟩
    match hp : strings.Split u.EscapedPath '/' with
    | [] => rw [hp] at hl; simp at hl
    | [_] => rw [hp] at hl; simp at hl
    | [_, _] => rw [hp] at hl; simp at hl
    | [_, _, _] => rw [hp] at hl; simp at hl
    | root :: user :: third :: name :: rest =>
      rw [hp] at h3
      simp only [List.getElem?_cons_succ, List.getElem?_cons_zero, Option.some.injEq] at h3
      rw [long root user third name rest hp, if_pos h3]
      exact ⟨_, _, rfl⟩

/-- Witness of C11: the set link of the comment in the source, and a link
whose third part is not `sets`. -/
theorem parseSoundcloudURL_shapes_witness :
    strings.Split (URL.EscapedPath { Host := "soundcloud.com", Path := "/user/sets/example-set" }) '/' =
        "" :: "user" :: "sets" :: "example-set" :: [] ∧
      parseSoundcloudURL { Host := "soundcloud.com", Path := "/user/sets/example-set" } =
        some (TypePlaylist, "example-set", none) ∧
      (strings.Split (URL.EscapedPath { Host := "soundcloud.com", Path := "/user/sets" }) '/').length < 4 ∧
      parseSoundcloudURL { Host := "soundcloud.com", Path := "/user/sets" } =
        some ("", "", some (GoError.new "invalid soundcloud link path")) ∧
      ParseURL "https://soundcloud.com/user/tracks/x" =
        some ({}, some (GoError.new "invalid soundcloud url, missing sets")) :=
  ⟨by decide,
    ((parseSoundcloudURL_shapes { Host := "soundcloud.com", Path := "/user/sets/example-set" }).2.1
      "" "user" "sets" "example-set" [] (by decide)).trans (by decide),
    by decide,
    (parseSoundcloudURL_shapes { Host := "soundcloud.com", Path := "/user/sets" }).1 (by decide),
    by decide⟩

/-! ## Lemmas on the URLs that `url.Parse` returns -/

theorem strings.splitOn_of_not_mem {sep : Char} {p : List Char} (h : sep ∉ p) :
    strings.splitOn sep p = [p] := by
  induction p with
  | nil => simp [strings.splitOn]
  | cons c cs ih =>
    simp only [List.mem_cons, not_or] at h
    rw [strings.splitOn, if_neg (fun hc => h.1 hc.symm), ih h.2]

theorem strings.splitOn_append_sep {sep : Char} {p : List Char} (h : sep ∉ p) (l : List Char) :
    strings.splitOn sep (p ++ sep :: l) = p :: strings.splitOn sep l := by
  induction p with
  | nil => simp [strings.splitOn]
  | cons c cs ih =>
    simp only [List.mem_cons, not_or] at h
    rw [List.cons_append, strings.splitOn, if_neg (fun hc => h.1 hc.symm), ih h.2]

/-- A split into exactly two parts: the input is the two parts around one
separator, and neither part holds a separator. -/
theorem strings.Split_eq_pair {sep : Char} {s a b : String} (h : strings.Split s sep = [a, b]) :
    s.data = a.data ++ sep :: b.data ∧ sep ∉ a.data ∧ sep ∉ b.data := by
  unfold strings.Split at h
  match hl : strings.splitOn sep s.data with
  | [] => exact absurd hl (strings.splitOn_ne_nil sep _)
  | [_] => rw [hl] at h; simp at h
  | _ :: _ :: _ :: _ => rw [hl] at h; simp at h
  | [p, q] =>
    rw [hl] at h
    simp only [List.map_cons, List.map_nil, List.cons.injEq, and_true] at h
    obtain ⟨rfl, rfl⟩ := h
    obtain ⟨h1, h2⟩ := strings.splitOn_eq_cons hl
    rcases h2 with ⟨h3, _⟩ | ⟨l', h3, h4⟩
    · simp at h3
    · obtain ⟨h5, h6⟩ := strings.splitOn_eq_cons h4
      rcases h6 with ⟨_, h7⟩ | ⟨l'', _, h8⟩
      · subst h7
        exact ⟨h3, h1, h5⟩
      · exact absurd h8 (strings.splitOn_ne_nil sep _)

theorem strings.indexOf_some {pat l : List Char} {i : Nat} (h : strings.indexOf pat l = some i) :
    pat.isPrefixOf (l.drop i) = true := by
  induction l generalizing i with
  | nil =>
    simp only [strings.indexOf] at h
    split at h
    · simp only [Option.some.injEq] at h
      subst h
      rename_i hp
      simp only [List.isEmpty_iff] at hp
      simp [hp]
    · simp at h
  | cons c cs ih =>
    simp only [strings.indexOf] at h
    split at h
    · simp only [Option.some.injEq] at h
      subst h
      rename_i hp
      simpa using hp
    · simp only [Option.map_eq_some'] at h
      obtain ⟨j, hj, rfl⟩ := h
      simpa using ih hj

theorem url.unescapeLoop_path_slash (cs : List Char) :
    unescapeLoop encoding.encodePath ('/' :: cs) =
      match unescapeLoop encoding.encodePath cs with
      | .error e => .error e
      | .ok t => .ok ('/' :: t) := by
  rw [unescapeLoop.eq_def]
  simp only [show ('/' : Char) ≠ '%' by decide, show ('/' : Char) ≠ '+' by decide, if_false]
  rw [if_neg (by decide)]

/-- What `setPath` leaves in the URL. -/
theorem url.setPath_ok {u u' : URL} {p : String} (h : URL.setPath u p = .ok u') :
    u'.Host = u.Host ∧ unescape p encoding.encodePath = .ok u'.Path ∧
      (u'.RawPath = "" ∨ u'.RawPath = p) := by
  unfold URL.setPath at h
  split at h
  · simp at h
  · rename_i path hp
    split at h
    · simp only [Except.ok.injEq] at h
      subst h
      exact ⟨rfl, hp, Or.inl rfl⟩
    · simp only [Except.ok.injEq] at h
      subst h
      exact ⟨rfl, hp, Or.inr rfl⟩

/-- The path of a URL with a host, as `parseRest` builds it: the rest `p` after
the authority is empty or begins with `/`, `Path` is `p` unescaped and
`RawPath` is empty or `p`. -/
theorem url.parseRest_host {u0 u : URL} {rest : String} {viaRequest : Bool}
    (h : parseRest u0 rest viaRequest = .ok u) (h0 : u0.Host = "") (hu : u.Host ≠ "") :
    ∃ p : String, (p = "" ∨ strings.HasPrefix p "/" = true) ∧
      unescape p encoding.encodePath = .ok u.Path ∧ (u.RawPath = "" ∨ u.RawPath = p) := by
  unfold parseRest at h
  split at h
  · simp only [] at h
    split at h
    · simp at h
    · rename_i user host _
      refine ⟨_, ?_, (url.setPath_ok h).2⟩
      split
      · rename_i i hi
        right
        exact strings.indexOf_some hi
      · left
        rfl
  · split at h
    · have := (url.setPath_ok h).1
      simp only [] at this
      exact absurd (this.trans h0) hu
    · have := (url.setPath_ok h).1
      exact absurd (this.trans h0) hu

theorem url.parse_host {rawURL : String} {viaRequest : Bool} {u : URL}
    (h : parse rawURL viaRequest = .ok u) (hu : u.Host ≠ "") :
    ∃ p : String, (p = "" ∨ strings.HasPrefix p "/" = true) ∧
      unescape p encoding.encodePath = .ok u.Path ∧ (u.RawPath = "" ∨ u.RawPath = p) := by
  unfold parse at h
  by_cases h1 : stringContainsCTLByte rawURL = true
  · rw [if_pos h1] at h
    simp at h
  rw [if_neg h1] at h
  by_cases h2 : rawURL = "" ∧ viaRequest = true
  · rw [if_pos h2] at h
    simp at h
  rw [if_neg h2] at h
  by_cases h3 : rawURL = "*"
  · rw [if_pos h3] at h
    simp only [Except.ok.injEq] at h
    subst h
    exact absurd rfl hu
  rw [if_neg h3] at h
  cases hg : getScheme rawURL with
  | error e =>
    rw [hg] at h
    simp at h
  | ok sr =>
    obtain ⟨scheme, rest⟩ := sr
    rw [hg] at h
    simp only [] at h
    obtain ⟨u0, rest', hpair⟩ : ∃ (u0 : URL) (rest' : String),
        (if strings.HasSuffix rest "?" = true ∧ strings.Count rest '?' = 1 then
          (({ Scheme := strings.ToLower scheme, ForceQuery := true } : URL),
            strings.sliceTo rest (rest.data.length - 1))
        else
          match strings.Cut rest '?' with
          | (before, after, _) =>
            (({ Scheme := strings.ToLower scheme, RawQuery := after } : URL), before)) =
        (u0, rest') := ⟨_, _, rfl⟩
    have hhost : u0.Host = "" := by
      split_ifs at hpair
      · simp only [Prod.mk.injEq] at hpair
        rw [← hpair.1]
      · split at hpair
        simp only [Prod.mk.injEq] at hpair
        rw [← hpair.1]
    rw [hpair] at h
    simp only [] at h
    by_cases h4 : (!strings.HasPrefix rest' "/") = true
    · rw [if_pos h4] at h
      by_cases h5 : u0.Scheme ≠ ""
      · rw [if_pos h5] at h
        simp only [Except.ok.injEq] at h
        subst h
        exact absurd hhost hu
      rw [if_neg h5] at h
      by_cases h6 : viaRequest = true
      · rw [if_pos h6] at h
        simp at h
      rw [if_neg h6] at h
      split_ifs at h
      exact url.parseRest_host h hhost hu
    · rw [if_neg h4] at h
      exact url.parseRest_host h hhost hu

theorem url.Parse_host {rawURL : String} {u : URL} (h : Parse rawURL = .ok u) (hu : u.Host ≠ "") :
    ∃ p : String, (p = "" ∨ strings.HasPrefix p "/" = true) ∧
      unescape p encoding.encodePath = .ok u.Path ∧ (u.RawPath = "" ∨ u.RawPath = p) := by
  unfold Parse at h
  split at h
  split at h
  · simp at h
  · rename_i u1 hp
    split_ifs at h
    · simp only [Except.ok.injEq] at h
      subst h
      exact url.parse_host hp hu
    · unfold URL.setFragment at h
      split at h
      · simp at h
      · rename_i hs
        split at hs
        · simp at hs
        · split_ifs at hs <;>
          · simp only [Except.ok.injEq] at hs h
            subst hs
            subst h
            exact @url.parse_host _ _ u1 hp hu

theorem url.unescape_ok_iff {s t : String} {mode : encoding} :
    unescape s mode = .ok t ↔ unescapeLoop mode s.data = .ok t.data := by
  unfold unescape
  cases unescapeLoop mode s.data with
  | error e => simp
  | ok r =>
    simp only [Except.ok.injEq]
    constructor
    · rintro rfl
      rfl
    · intro h
      exact String.ext h

/-- Unescaping a path that begins with `/` gives a path that begins with `/`. -/
theorem url.unescape_path_rooted {p t : String} (hp : strings.HasPrefix p "/" = true)
    (h : unescape p encoding.encodePath = .ok t) : ∃ r, t.data = '/' :: r := by
  obtain ⟨cs, hcs⟩ := (strings.HasPrefix_iff p "/").mp hp
  have hcs' : p.data = '/' :: cs := hcs
  rw [url.unescape_ok_iff, hcs', url.unescapeLoop_path_slash] at h
  cases hr : unescapeLoop encoding.encodePath cs with
  | error e => rw [hr] at h; simp at h
  | ok r =>
    rw [hr] at h
    simp only [Except.ok.injEq] at h
    exact ⟨r, h.symm⟩

/-- The escaped path of a URL with a host that `url.Parse` returns is empty or
begins with `/`. -/
theorem url.EscapedPath_rooted_of {u : URL} {p : String}
    (hp : p = "" ∨ strings.HasPrefix p "/" = true)
    (hpath : unescape p encoding.encodePath = .ok u.Path)
    (hraw : u.RawPath = "" ∨ u.RawPath = p) :
    u.EscapedPath = "" ∨ strings.HasPrefix u.EscapedPath "/" = true := by
  unfold URL.EscapedPath
  by_cases h1 : u.RawPath ≠ "" ∧ validEncoded u.RawPath encoding.encodePath = true ∧
      unescape u.RawPath encoding.encodePath = .ok u.Path
  · rw [if_pos h1]
    rcases hraw with h | h
    · exact absurd h h1.1
    · rw [h]
      rcases hp with rfl | hp
      · exact absurd h h1.1
      · exact Or.inr hp
  · rw [if_neg h1]
    rcases hp with rfl | hp
    · have h2 : u.Path = "" := by
        have : unescape "" encoding.encodePath = .ok "" := by decide
        rw [this] at hpath
        simp only [Except.ok.injEq] at hpath
        exact hpath.symm
      rw [h2]
      left
      decide
    · obtain ⟨r, hr⟩ := url.unescape_path_rooted hp hpath
      have h3 : u.Path ≠ "*" := by
        intro hc
        rw [hc] at hr
        simp at hr
      rw [if_neg h3]
      right
      rw [strings.HasPrefix_iff]
      refine ⟨r.flatMap (escapeByte encoding.encodePath), ?_⟩
      show (u.Path.data.flatMap (escapeByte encoding.encodePath)) = _
      rw [hr]
      rfl

theorem parseURL_ok_Parse {link : String} {parsed : URL} (h : parseURL link = (some parsed, none)) :
    ∃ link', url.Parse link' = .ok parsed := by
  unfold parseURL at h
  simp only [] at h
  split at h
  · simp at h
  · rename_i hp
    simp only [Prod.mk.injEq, Option.some.injEq, and_true] at h
    subst h
    exact ⟨_, hp⟩

/-- Every URL that `parseURL` returns with a host has an escaped path that is
empty or begins with `/`. -/
theorem parseURL_rooted {link : String} {parsed : URL} (h : parseURL link = (some parsed, none))
    (hh : parsed.Host ≠ "") :
    parsed.EscapedPath = "" ∨ strings.HasPrefix parsed.EscapedPath "/" = true := by
  obtain ⟨link', hl⟩ := parseURL_ok_Parse h
  obtain ⟨p, h1, h2, h3⟩ := url.Parse_host hl hh
  exact url.EscapedPath_rooted_of h1 h2 h3

theorem strings.Split_root_segment {seg : String} (h : '/' ∉ seg.data) :
    strings.Split ("/" ++ seg) '/' = ["", seg] := by
  unfold strings.Split
  have : ("/" ++ seg : String).data = '/' :: seg.data := by simp
  rw [this, strings.splitOn_cons_sep, strings.splitOn_of_not_mem h]
  rfl

/-- The Twitch parser on a split into exactly two parts. -/
theorem parseTwitchURL_pair {u : URL} {a b : String}
    (h : strings.Split u.EscapedPath '/' = [a, b]) :
    parseTwitchURL u =
      if b = "" then some ("", "", some (GoError.new "invalid id")) else some (TypeUser, b, none) := by
  unfold parseTwitchURL
  simp only [h]
  by_cases hb : b = ""
  · simp [hb]
  · simp [hb]

/-- The Twitch parser on a split that does not have two parts. -/
theorem parseTwitchURL_not_pair {u : URL} (h : (strings.Split u.EscapedPath '/').length ≠ 2) :
    parseTwitchURL u =
      some ("", "", some (GoError.new ("invalid twitch user path: " ++ u.EscapedPath))) := by
  unfold parseTwitchURL
  simp only []
  rw [if_pos h]

/-- C12: every URL with a Twitch host that `parseURL` returns has an escaped
path that is empty or begins with `/`; and on such a path `parseTwitchURL`
succeeds exactly when the path is `/` followed by one non-empty segment without
a further `/`, and then returns the user kind with that segment.  It fails on
the empty path, on `/` alone, and on every path that splits into more than two
parts (more than one segment, a trailing slash included). -/
theorem parseTwitchURL_shapes :
    (∀ (link : String) (parsed : URL), parseURL link = (some parsed, none) →
      strings.HasSuffix parsed.Host "twitch.tv" = true →
      (parsed.EscapedPath = "" ∨ strings.HasPrefix parsed.EscapedPath "/" = true)) ∧
    (∀ u : URL, (u.EscapedPath = "" ∨ strings.HasPrefix u.EscapedPath "/" = true) →
      ((∃ kind id, parseTwitchURL u = some (kind, id, none)) ↔
        ∃ seg : String, seg ≠ "" ∧ '/' ∉ seg.data ∧ u.EscapedPath = "/" ++ seg) ∧
      (∀ seg : String, u.EscapedPath = "/" ++ seg → seg ≠ "" → '/' ∉ seg.data →
        parseTwitchURL u = some (TypeUser, seg, none)) ∧
      (u.EscapedPath = "" →
        parseTwitchURL u = some ("", "", some (GoError.new "invalid twitch user path: "))) ∧
      (u.EscapedPath = "/" →
        parseTwitchURL u = some ("", "", some (GoError.new "invalid id"))) ∧
      (2 < (strings.Split u.EscapedPath '/').length →
        parseTwitchURL u =
          some ("", "", some (GoError.new ("invalid twitch user path: " ++ u.EscapedPath))))) := by
  constructor
  · intro link parsed hp hs
    apply parseURL_rooted hp
    intro hc
    rw [hc] at hs
    exact absurd hs (by decide)
  · intro u hroot
    have good : ∀ seg : String, u.EscapedPath = "/" ++ seg → seg ≠ "" → '/' ∉ seg.data →
        parseTwitchURL u = some (TypeUser, seg, none) := by
      intro seg hp hne hseg
      have hs : strings.Split u.EscapedPath '/' = ["", seg] := by
        rw [hp]
        exact strings.Split_root_segment hseg
      rw [parseTwitchURL_pair hs, if_neg hne]
    refine ⟨⟨?_, ?_⟩, good, ?_, ?_, ?_⟩
    · rintro ⟨kind, id, h⟩
      by_cases hl : (strings.Split u.EscapedPath '/').length ≠ 2
      · rw [parseTwitchURL_not_pair hl] at h
        simp at h
      · match hs : strings.Split u.EscapedPath '/' with
        | [] => rw [hs] at hl; simp at hl
        | [_] => rw [hs] at hl; simp at hl
        | _ :: _ :: _ :: _ => rw [hs] at hl; simp at hl
        | [a, b] =>
          rw [parseTwitchURL_pair hs] at h
          by_cases hb : b = ""
          · rw [if_pos hb] at h
            simp at h
          · obtain ⟨h1, h2, h3⟩ := strings.Split_eq_pair hs
            refine ⟨b, hb, h3, ?_⟩
            rcases hroot with h0 | h0
            · rw [h0] at h1
              simp at h1
            · obtain ⟨t, ht⟩ := (strings.HasPrefix_iff _ _).mp h0
              have ht' : u.EscapedPath.data = '/' :: t := ht
              apply String.ext
              rw [h1]
              cases ha : a.data with
              | nil => simp
              | cons c cs =>
                rw [h1, ha] at ht'
                simp only [List.cons_append, List.cons.injEq] at ht'
                rw [ha] at h2
                exact absurd (by simp [ht'.1]) h2
    · rintro ⟨seg, hne, hseg, hp⟩
      exact ⟨_, _, good seg hp hne hseg⟩
    · intro hp
      have hl : (strings.Split u.EscapedPath '/').length ≠ 2 := by
        rw [hp]
        decide
      rw [parseTwitchURL_not_pair hl, hp]
      rfl
    · intro hp
      have hs : strings.Split u.EscapedPath '/' = ["", ""] := by
        rw [hp]
        decide
      rw [parseTwitchURL_pair hs]
      rfl
    · intro hl
      exact parseTwitchURL_not_pair (by omega)

/-- Witness of C12: `https://twitch.tv/foo/bar` of the spec is an error, and the
user link of the comment in the source is parsed. -/
theorem parseTwitchURL_shapes_witness :
    parseURL "https://twitch.tv/foo/bar" =
        (some { Scheme := "https", Host := "twitch.tv", Path := "/foo/bar" }, none) ∧
      strings.HasPrefix
          (URL.EscapedPath { Scheme := "https", Host := "twitch.tv", Path := "/foo/bar" }) "/" = true ∧
      parseTwitchURL { Scheme := "https", Host := "twitch.tv", Path := "/foo/bar" } =
        some ("", "", some (GoError.new "invalid twitch user path: /foo/bar")) ∧
      ParseURL "https://twitch.tv/foo/bar" =
        some ({}, some (GoError.new "invalid twitch user path: /foo/bar")) ∧
      ParseURL "https://www.twitch.tv/samueletienne" =
        some ({ LinkType := TypeUser, Provider := ProviderTwitch, ItemID := "samueletienne" }, none) :=
  ⟨by decide, by decide,
    ((parseTwitchURL_shapes.2 { Scheme := "https", Host := "twitch.tv", Path := "/foo/bar" }
      (Or.inr (by decide))).2.2.2.2 (by decide)).trans (by decide),
    by decide, by decide⟩

/-! ## Claims C13 and C14: the builder factory -/

/-- C13: for a provider that is none of the five, `New` returns the `nil`
builder and the "unsupported provider" error; the state of the world is the
one it was called in and the result is the same for all constructors, so no
constructor has run; the message of the error is `unsupported provider `
followed by the quoted provider. -/
theorem New_unsupported_provider {Ctx Downloader Builder W : Type}
    (c : Constructors Ctx Downloader Builder W) (ctx : Ctx) (provider : Provider) (key : String)
    (downloader : Downloader) (w : W)
    (h : provider ∉ [ProviderYoutube, ProviderVimeo, ProviderSoundcloud, ProviderTwitch,
      ProviderBilibili]) :
    New c ctx provider key downloader w =
        ((none, some (GoError.unsupportedProvider provider)), w) ∧
      ∀ quote : String → String,
        (GoError.unsupportedProvider provider).Error quote =
          "unsupported provider " ++ quote provider := by
  simp only [List.mem_cons, List.mem_singleton, List.not_mem_nil, or_false, not_or] at h
  obtain ⟨h1, h2, h3, h4, h5⟩ := h
  refine ⟨?_, fun quote => rfl⟩
  unfold New
  rw [if_neg h1, if_neg h2, if_neg h3, if_neg h4, if_neg h5]

/-- Witness of C13: `New(ctx, "unknown-provider", "", nil)` of the spec; no
call is recorded and the message quotes the provider. -/
theorem New_unsupported_provider_witness :
    "unknown-provider" ∉ [ProviderYoutube, ProviderVimeo, ProviderSoundcloud, ProviderTwitch,
        ProviderBilibili] ∧
      New tracingConstructors "ctx" "unknown-provider" "" none [] =
        ((none, some (GoError.unsupportedProvider "unknown-provider")), []) ∧
      (GoError.unsupportedProvider "unknown-provider").Error strconv.QuoteASCII =
        "unsupported provider \"unknown-provider\"" :=
  ⟨by decide,
    (New_unsupported_provider tracingConstructors "ctx" "unknown-provider" "" none []
      (by decide)).1,
    ((New_unsupported_provider tracingConstructors "ctx" "unknown-provider" "" none []
      (by decide)).2 strconv.QuoteASCII).trans (by decide)⟩

/-- C14: for each of the five providers `New` returns what the constructor of
that provider returns, result and state unchanged: YouTube from the key and the
downloader, Vimeo from the context and the key, Twitch from the key, SoundCloud
and Bilibili from no argument.  For a provider other than YouTube the result
does not depend on the downloader. -/
theorem New_returns_constructor_result {Ctx Downloader Builder W : Type}
    (c : Constructors Ctx Downloader Builder W) (ctx : Ctx) (key : String)
    (downloader : Downloader) (w : W) :
    New c ctx ProviderYoutube key downloader w = c.NewYouTubeBuilder key downloader w ∧
    New c ctx ProviderVimeo key downloader w = c.NewVimeoBuilder ctx key w ∧
    New c ctx ProviderSoundcloud key downloader w = c.NewSoundcloudBuilder w ∧
    New c ctx ProviderTwitch key downloader w = c.NewTwitchBuilder key w ∧
    New c ctx ProviderBilibili key downloader w = c.NewBilibiliBuilder w ∧
    ∀ (provider : Provider) (other : Downloader), provider ≠ ProviderYoutube →
      New c ctx provider key downloader w = New c ctx provider key other w := by
  refine ⟨?_, ?_, ?_, ?_, ?_, ?_⟩
  · unfold New
    rw [if_pos rfl]
  · unfold New
    rw [if_neg (by decide), if_pos rfl]
  · unfold New
    rw [if_neg (by decide), if_neg (by decide), if_pos rfl]
  · unfold New
    rw [if_neg (by decide), if_neg (by decide), if_neg (by decide), if_pos rfl]
  · unfold New
    rw [if_neg (by decide), if_neg (by decide), if_neg (by decide), if_neg (by decide), if_pos rfl]
  · intro provider other hne
    unfold New
    rw [if_neg hne, if_neg hne]

/-- Witness of C14: the failure of the Twitch constructor on an empty key is
returned as it is, whatever the downloader. -/
theorem New_returns_constructor_result_witness :
    New tracingConstructors "ctx" ProviderTwitch "" (some "dl") [] =
        ((none, some (GoError.new "twitch key is missing")), ["NewTwitchBuilder"]) ∧
      ProviderTwitch ≠ ProviderYoutube ∧
      New tracingConstructors "ctx" ProviderTwitch "" (some "dl") [] =
        New tracingConstructors "ctx" ProviderTwitch "" none [] :=
  ⟨(New_returns_constructor_result tracingConstructors "ctx" "" (some "dl") []).2.2.2.1.trans
      (by decide),
    by decide,
    (New_returns_constructor_result tracingConstructors "ctx" "" (some "dl") []).2.2.2.2.2
      ProviderTwitch none (by decide)⟩

/-! ## Claims C15 to C19: the normalizer, the error messages, the kinds, the Bilibili identifier -/

/-- C15 (as stated, refuted): the scheme-less link
`httpfoo.youtube.com/channel/UC1` begins with the letters `http`, so `parseURL`
adds no scheme; `url.Parse` then reads the whole link as a path without host and
`ParseURL` rejects it, while the link with `https://` in front is parsed as a
YouTube channel. -/
theorem parseURL_http_letters :
    strings.HasPrefix "httpfoo.youtube.com/channel/UC1" "http" = true ∧
      parseURL "httpfoo.youtube.com/channel/UC1" =
        (some { Path := "httpfoo.youtube.com/channel/UC1" }, none) ∧
      ParseURL "httpfoo.youtube.com/channel/UC1" =
        some ({}, some (GoError.new "unsupported URL host")) ∧
      parseURL "https://httpfoo.youtube.com/channel/UC1" =
        (some { Scheme := "https", Host := "httpfoo.youtube.com", Path := "/channel/UC1" }, none) ∧
      ParseURL "https://httpfoo.youtube.com/channel/UC1" =
        some ({ LinkType := TypeChannel, Provider := ProviderYoutube, ItemID := "UC1" }, none) := by
  refine ⟨by decide, by decide, by decide, by decide, by decide⟩

/-- C15 (amended): `parseURL` tests the four letters `http` at the start of the
link.  A link that begins with them is handed to `url.Parse` unchanged; a link
that does not is parsed as the link with `https://` in front, so `parseURL`
returns on it what it returns on that longer link. -/
theorem parseURL_prefix_rule (link : String) :
    (strings.HasPrefix link "http" = true →
      parseURL link =
        match url.Parse link with
        | .error err => (none, some (GoError.wrap err ("failed to parse url: " ++ link)))
        | .ok parsed => (some parsed, none)) ∧
    (strings.HasPrefix link "http" = false →
      parseURL link = parseURL ("https://" ++ link) ∧
      parseURL link =
        match url.Parse ("https://" ++ link) with
        | .error err =>
          (none, some (GoError.wrap err ("failed to parse url: " ++ ("https://" ++ link))))
        | .ok parsed => (some parsed, none)) := by
  have hlong : strings.HasPrefix ("https://" ++ link) "http" = true :=
    (strings.HasPrefix_iff _ _).mpr ⟨'s' :: ':' :: '/' :: '/' :: link.data, by
      simp only [String.data_append]
      rfl⟩
  constructor
  · intro h
    unfold parseURL
    simp only [h, Bool.not_true, Bool.false_eq_true, if_false]
  · intro h
    have e : parseURL link =
        match url.Parse ("https://" ++ link) with
        | .error err =>
          (none, some (GoError.wrap err ("failed to parse url: " ++ ("https://" ++ link))))
        | .ok parsed => (some parsed, none) := by
      unfold parseURL
      simp only [h, Bool.not_false, if_true]
    refine ⟨?_, e⟩
    rw [e]
    unfold parseURL
    simp only [hlong, Bool.not_true, Bool.false_eq_true, if_false]

/-- Witness of C15: the scheme-less link of the spec is parsed as the link with
`https://` in front. -/
theorem parseURL_prefix_rule_witness :
    strings.HasPrefix "youtube.com/playlist?list=PL123" "http" = false ∧
      parseURL "youtube.com/playlist?list=PL123" =
        parseURL ("https://" ++ "youtube.com/playlist?list=PL123") ∧
      strings.HasPrefix "http://vimeo.com/groups/abc" "http" = true ∧
      parseURL "http://vimeo.com/groups/abc" =
        (some { Scheme := "http", Host := "vimeo.com", Path := "/groups/abc" }, none) :=
  ⟨by decide,
    ((parseURL_prefix_rule "youtube.com/playlist?list=PL123").2 (by decide)).1,
    by decide,
    ((parseURL_prefix_rule "http://vimeo.com/groups/abc").1 (by decide)).trans (by decide)⟩

/-- C17 (as stated, refuted): `ParseURL` rejects `https://example.com/x` and
`https://www.youtube.com/channel/` with errors whose messages, "unsupported URL
host" and "invalid id", do not contain the link. -/
theorem ParseURL_error_message_counterexample :
    ParseURL "https://example.com/x" = some ({}, some (GoError.new "unsupported URL host")) ∧
      (GoError.new "unsupported URL host").Error strconv.QuoteASCII = "unsupported URL host" ∧
      (¬ ∃ pre post : String,
        (GoError.new "unsupported URL host").Error strconv.QuoteASCII =
          pre ++ "https://example.com/x" ++ post) ∧
      ParseURL "https://www.youtube.com/channel/" = some ({}, some (GoError.new "invalid id")) ∧
      (¬ ∃ pre post : String,
        (GoError.new "invalid id").Error strconv.QuoteASCII =
          pre ++ "https://www.youtube.com/channel/" ++ post) := by
  refine ⟨by decide, rfl, ?_, by decide, ?_⟩
  · rintro ⟨pre, post, h⟩
    have h1 := congrArg String.length h
    have h2 : ((GoError.new "unsupported URL host").Error strconv.QuoteASCII).length = 20 := by
      decide
    have h3 : "https://example.com/x".length = 21 := by decide
    rw [String.length_append, String.length_append, h2, h3] at h1
    omega
  · rintro ⟨pre, post, h⟩
    have h1 := congrArg String.length h
    have h2 : ((GoError.new "invalid id").Error strconv.QuoteASCII).length = 10 := by decide
    have h3 : "https://www.youtube.com/channel/".length = 32 := by decide
    rw [String.length_append, String.length_append, h2, h3] at h1
    omega

/-- C17 (amended): when the normalizer `parseURL` fails on a link, `ParseURL`
returns its error, and the message of that error contains the link: it is
"failed to parse url: ", the normalized link, and the cause. -/
theorem parseURL_error_names_link (quote : String → String) (link : String) (e : GoError)
    (h : parseURL link = (none, some e)) :
    ParseURL link = some ({}, some e) ∧
      ∃ pre post : String, e.Error quote = pre ++ link ++ post := by
  refine ⟨ParseURL_of_error h, ?_⟩
  have key : ∃ (link' : String) (err : GoError),
      e = GoError.wrap err ("failed to parse url: " ++ link') ∧
        (link' = link ∨ link' = "https://" ++ link) := by
    unfold parseURL at h
    simp only [] at h
    split at h
    · rename_i err _
      simp only [Prod.mk.injEq, Option.some.injEq, true_and] at h
      refine ⟨_, err, h.symm, ?_⟩
      split_ifs
      · exact Or.inr rfl
      · exact Or.inl rfl
    · simp at h
  obtain ⟨link', err, rfl, rfl | rfl⟩ := key
  · exact ⟨"failed to parse url: ", ": " ++ err.Error quote, by
      simp only [GoError.Error, String.append_assoc]⟩
  · exact ⟨"failed to parse url: " ++ "https://", ": " ++ err.Error quote, by
      simp only [GoError.Error, String.append_assoc]⟩

/-- Witness of C17: `http://[::1` has no closing bracket in its host. -/
theorem parseURL_error_names_link_witness :
    parseURL "http://[::1" =
        (none, some (GoError.wrap
          (GoError.urlError "parse" "http://[::1" (GoError.new "missing ']' in host"))
          "failed to parse url: http://[::1")) ∧
      (GoError.wrap
          (GoError.urlError "parse" "http://[::1" (GoError.new "missing ']' in host"))
          "failed to parse url: http://[::1").Error strconv.QuoteASCII =
        "failed to parse url: http://[::1: parse \"http://[::1\": missing ']' in host" ∧
      ∃ pre post : String,
        (GoError.wrap
          (GoError.urlError "parse" "http://[::1" (GoError.new "missing ']' in host"))
          "failed to parse url: http://[::1").Error strconv.QuoteASCII =
          pre ++ "http://[::1" ++ post :=
  ⟨by decide, by decide,
    (parseURL_error_names_link strconv.QuoteASCII "http://[::1" _ (by decide)).2⟩

/-- C18: on every link on which `ParseURL` succeeds, the kind is among those the
parser of the provider returns: SoundCloud only Playlist; Twitch only User;
Bilibili only User or Channel; Vimeo only Group, Channel or User; YouTube only
Playlist, Channel, User or Handle. -/
theorem ParseURL_kind_of_provider (link : String) (info : Info)
    (h : ParseURL link = some (info, none)) :
    (info.Provider = ProviderSoundcloud → info.LinkType = TypePlaylist) ∧
    (info.Provider = ProviderTwitch → info.LinkType = TypeUser) ∧
    (info.Provider = ProviderBilibili → info.LinkType = TypeUser ∨ info.LinkType = TypeChannel) ∧
    (info.Provider = ProviderVimeo →
      info.LinkType = TypeGroup ∨ info.LinkType = TypeChannel ∨ info.LinkType = TypeUser) ∧
    (info.Provider = ProviderYoutube →
      info.LinkType = TypePlaylist ∨ info.LinkType = TypeChannel ∨ info.LinkType = TypeUser ∨
        info.LinkType = TypeHandle) := by
  rcases ParseURL_outcome link with ⟨e, he⟩ | ⟨provider, kinds, kind, id, hm, hk, hr⟩
  · rw [he] at h
    simp at h
  · rw [hr] at h
    simp only [Option.some.injEq, Prod.mk.injEq, and_true] at h
    subst h
    show (provider = ProviderSoundcloud → kind = TypePlaylist) ∧
      (provider = ProviderTwitch → kind = TypeUser) ∧
      (provider = ProviderBilibili → kind = TypeUser ∨ kind = TypeChannel) ∧
      (provider = ProviderVimeo → kind = TypeGroup ∨ kind = TypeChannel ∨ kind = TypeUser) ∧
      (provider = ProviderYoutube →
        kind = TypePlaylist ∨ kind = TypeChannel ∨ kind = TypeUser ∨ kind = TypeHandle)
    simp only [List.mem_cons, Prod.mk.injEq, List.mem_singleton, List.not_mem_nil, or_false] at hm
    rcases hm with ⟨rfl, rfl⟩ | ⟨rfl, rfl⟩ | ⟨rfl, rfl⟩ | ⟨rfl, rfl⟩ | ⟨rfl, rfl⟩
    · simp only [List.mem_cons, List.mem_singleton, List.not_mem_nil, or_false] at hk
      refine ⟨fun hc => absurd hc (by decide), fun hc => absurd hc (by decide), fun _ => hk,
        fun hc => absurd hc (by decide), fun hc => absurd hc (by decide)⟩
    · simp only [List.mem_cons, List.mem_singleton, List.not_mem_nil, or_false] at hk
      refine ⟨fun hc => absurd hc (by decide), fun hc => absurd hc (by decide),
        fun hc => absurd hc (by decide), fun hc => absurd hc (by decide), fun _ => hk⟩
    · simp only [List.mem_cons, List.mem_singleton, List.not_mem_nil, or_false] at hk
      refine ⟨fun hc => absurd hc (by decide), fun hc => absurd hc (by decide),
        fun hc => absurd hc (by decide), fun _ => hk, fun hc => absurd hc (by decide)⟩
    · simp only [List.mem_cons, List.mem_singleton, List.not_mem_nil, or_false] at hk
      refine ⟨fun _ => hk, fun hc => absurd hc (by decide), fun hc => absurd hc (by decide),
        fun hc => absurd hc (by decide), fun hc => absurd hc (by decide)⟩
    · simp only [List.mem_cons, List.mem_singleton, List.not_mem_nil, or_false] at hk
      refine ⟨fun hc => absurd hc (by decide), fun _ => hk, fun hc => absurd hc (by decide),
        fun hc => absurd hc (by decide), fun hc => absurd hc (by decide)⟩

/-- Witness of C18: a Vimeo group link. -/
theorem ParseURL_kind_of_provider_witness :
    ParseURL "https://vimeo.com/groups/abc" =
        some ({ LinkType := TypeGroup, Provider := ProviderVimeo, ItemID := "abc" }, none) ∧
      (TypeGroup = TypeGroup ∨ TypeGroup = TypeChannel ∨ TypeGroup = TypeUser) :=
  ⟨by decide,
    (ParseURL_kind_of_provider "https://vimeo.com/groups/abc"
      { LinkType := TypeGroup, Provider := ProviderVimeo, ItemID := "abc" } (by decide)).2.2.2.1
      rfl⟩

/-- C19 (the code breaks the claim): the links with `mid` `a:b` and `sid` `c`,
and with `mid` `a` and `sid` `b:c`, are both parsed as Bilibili channels; their
`(mid, sid)` pairs differ and their identifiers are the same, `a:b:c`. -/
theorem parseBilibiliURL_identifier_collision :
    (strings.Split (URL.EscapedPath
        { Scheme := "https", Host := "space.bilibili.com", Path := "/a:b/channel/x",
          RawQuery := "sid=c" }) '/')[1]? = some "a:b" ∧
      Values.index (URL.Query
        { Scheme := "https", Host := "space.bilibili.com", Path := "/a:b/channel/x",
          RawQuery := "sid=c" }) "sid" = ["c"] ∧
      (strings.Split (URL.EscapedPath
        { Scheme := "https", Host := "space.bilibili.com", Path := "/a/channel/x",
          RawQuery := "sid=b:c" }) '/')[1]? = some "a" ∧
      Values.index (URL.Query
        { Scheme := "https", Host := "space.bilibili.com", Path := "/a/channel/x",
          RawQuery := "sid=b:c" }) "sid" = ["b:c"] ∧
      (("a:b", "c") : String × String) ≠ ("a", "b:c") ∧
      parseBilibiliURL
          { Scheme := "https", Host := "space.bilibili.com", Path := "/a:b/channel/x",
            RawQuery := "sid=c" } = some (TypeChannel, "a:b:c", none) ∧
      parseBilibiliURL
          { Scheme := "https", Host := "space.bilibili.com", Path := "/a/channel/x",
            RawQuery := "sid=b:c" } = some (TypeChannel, "a:b:c", none) ∧
      ParseURL "https://space.bilibili.com/a:b/channel/x?sid=c" =
        some ({ LinkType := TypeChannel, Provider := ProviderBilibili, ItemID := "a:b:c" }, none) ∧
      ParseURL "https://space.bilibili.com/a/channel/x?sid=b:c" =
        some ({ LinkType := TypeChannel, Provider := ProviderBilibili, ItemID := "a:b:c" }, none) := by
  refine ⟨by decide, by decide, by decide, by decide, by decide, by decide, by decide, by decide,
    by decide⟩

/-! ## Claim C20: the order of the host tests -/

theorem List.take_of_isPrefixOf {l r : List Char} (h : l.isPrefixOf r = true) {n : Nat}
    (hn : n ≤ l.length) : r.take n = l.take n := by
  obtain ⟨t, rfl⟩ := List.isPrefixOf_iff_prefix.mp h
  exact List.take_append_of_le_length hn

/-- Two of the five suffixes that end the same host are the same suffix. -/
theorem suffix_unique {host s1 s2 : String}
    (h1 : s1 ∈ ["bilibili.com", "youtube.com", "vimeo.com", "soundcloud.com", "twitch.tv"])
    (h2 : s2 ∈ ["bilibili.com", "youtube.com", "vimeo.com", "soundcloud.com", "twitch.tv"])
    (hs1 : strings.HasSuffix host s1 = true) (hs2 : strings.HasSuffix host s2 = true) :
    s1 = s2 := by
  have len : ∀ s ∈ ["bilibili.com", "youtube.com", "vimeo.com", "soundcloud.com", "twitch.tv"],
      5 ≤ (String.data s).reverse.length := by decide
  have e1 := List.take_of_isPrefixOf hs1 (len s1 h1)
  have e2 := List.take_of_isPrefixOf hs2 (len s2 h2)
  have e : s1.data.reverse.take 5 = s2.data.reverse.take 5 := e1.symm.trans e2
  simp only [List.mem_cons, List.mem_singleton, List.not_mem_nil, or_false] at h1 h2
  rcases h1 with rfl | rfl | rfl | rfl | rfl <;> rcases h2 with rfl | rfl | rfl | rfl | rfl <;>
    first
      | rfl
      | exact absurd e (by decide)

/-- The first element that satisfies a test is the same in every arrangement of
a list in which at most one element satisfies it. -/
theorem find?_perm_of_unique {α : Type} {p : α → Bool} {l l' : List α} (hperm : l.Perm l')
    (huniq : ∀ a ∈ l, ∀ b ∈ l, p a = true → p b = true → a = b) :
    l.find? p = l'.find? p := by
  induction hperm with
  | nil => rfl
  | cons x _ ih =>
    rw [List.find?_cons, List.find?_cons]
    cases p x with
    | true => rfl
    | false =>
      exact ih fun a ha b hb => huniq a (List.mem_cons_of_mem _ ha) b (List.mem_cons_of_mem _ hb)
  | swap x y l =>
    rw [List.find?_cons, List.find?_cons, List.find?_cons, List.find?_cons]
    cases hx : p x with
    | false => rfl
    | true =>
      cases hy : p y with
      | false => rfl
      | true =>
        have := huniq y (by simp) x (by simp) hy hx
        rw [this]
  | trans h1 _ ih1 ih2 =>
    refine (ih1 huniq).trans (ih2 ?_)
    intro a ha b hb
    exact huniq a (h1.mem_iff.mpr ha) b (h1.mem_iff.mpr hb)

/-- The router of the source is the ordered router on the table in source order. -/
theorem ParseURL_eq_ordered (link : String) : ParseURL link = ParseURLOrdered hostTable link := by
  unfold ParseURL ParseURLOrdered hostTable
  split
  · rfl
  · rfl
  · rename_i parsed _
    simp only [List.find?_cons, List.find?_nil]
    cases strings.HasSuffix parsed.Host "bilibili.com" <;>
      cases strings.HasSuffix parsed.Host "youtube.com" <;>
      cases strings.HasSuffix parsed.Host "vimeo.com" <;>
      cases strings.HasSuffix parsed.Host "soundcloud.com" <;>
      cases strings.HasSuffix parsed.Host "twitch.tv" <;> rfl

/-- C20: no host ends with two different ones of the five suffixes; and the
router that tries the five tests in any other order returns on every link what
`ParseURL` returns. -/
theorem ParseURL_order_irrelevant :
    (∀ host s1 s2 : String,
      s1 ∈ ["bilibili.com", "youtube.com", "vimeo.com", "soundcloud.com", "twitch.tv"] →
      s2 ∈ ["bilibili.com", "youtube.com", "vimeo.com", "soundcloud.com", "twitch.tv"] →
      strings.HasSuffix host s1 = true → strings.HasSuffix host s2 = true → s1 = s2) ∧
    (∀ order : List (String × Provider × (URL → Option Ret)), order.Perm hostTable →
      ∀ link : String, ParseURLOrdered order link = ParseURL link) := by
  refine ⟨fun host s1 s2 h1 h2 => suffix_unique h1 h2, ?_⟩
  intro order hperm link
  rw [ParseURL_eq_ordered]
  unfold ParseURLOrdered
  split
  · rfl
  · rfl
  · rename_i parsed _
    have huniq : ∀ a ∈ hostTable, ∀ b ∈ hostTable,
        strings.HasSuffix parsed.Host a.1 = true → strings.HasSuffix parsed.Host b.1 = true →
        a = b := by
      intro a ha b hb h1 h2
      have ha' : a.1 ∈ ["bilibili.com", "youtube.com", "vimeo.com", "soundcloud.com", "twitch.tv"] := by
        simp only [hostTable, List.mem_cons, List.mem_singleton, List.not_mem_nil, or_false] at ha
        rcases ha with rfl | rfl | rfl | rfl | rfl <;> simp
      have hb' : b.1 ∈ ["bilibili.com", "youtube.com", "vimeo.com", "soundcloud.com", "twitch.tv"] := by
        simp only [hostTable, List.mem_cons, List.mem_singleton, List.not_mem_nil, or_false] at hb
        rcases hb with rfl | rfl | rfl | rfl | rfl <;> simp
      have hab := suffix_unique ha' hb' h1 h2
      simp only [hostTable, List.mem_cons, List.mem_singleton, List.not_mem_nil, or_false] at ha hb
      rcases ha with rfl | rfl | rfl | rfl | rfl <;> rcases hb with rfl | rfl | rfl | rfl | rfl <;>
        first
          | rfl
          | exact absurd hab (by decide)
    rw [find?_perm_of_unique hperm.symm huniq]

/-- Witness of C20: the table in reverse order, on a YouTube link. -/
theorem ParseURL_order_irrelevant_witness :
    hostTable.reverse.Perm hostTable ∧
      ParseURLOrdered hostTable.reverse "https://www.youtube.com/channel/UC1" =
        ParseURL "https://www.youtube.com/channel/UC1" ∧
      ParseURL "https://www.youtube.com/channel/UC1" =
        some ({ LinkType := TypeChannel, Provider := ProviderYoutube, ItemID := "UC1" }, none) :=
  ⟨List.reverse_perm _,
    ParseURL_order_irrelevant.2 hostTable.reverse (List.reverse_perm _)
      "https://www.youtube.com/channel/UC1",
    by decide⟩

/-! ## Claim C16: canonical links -/

theorem strings.cutOn_of_not_mem {sep : Char} {l : List Char} (h : sep ∉ l) :
    strings.cutOn sep l = (l, [], false) := by
  induction l with
  | nil => rfl
  | cons c cs ih =>
    simp only [List.mem_cons, not_or] at h
    rw [strings.cutOn, if_neg (fun hc => h.1 hc.symm), ih h.2]

theorem strings.cutOn_append_sep {sep : Char} {a : List Char} (h : sep ∉ a) (b : List Char) :
    strings.cutOn sep (a ++ sep :: b) = (a, b, true) := by
  induction a with
  | nil => simp [strings.cutOn]
  | cons c cs ih =>
    simp only [List.mem_cons, not_or] at h
    rw [List.cons_append, strings.cutOn, if_neg (fun hc => h.1 hc.symm), ih h.2]

theorem strings.indexOf_slash_none {l : List Char} (h : '/' ∉ l) :
    strings.indexOf ['/'] l = none := by
  induction l with
  | nil => simp [strings.indexOf]
  | cons c cs ih =>
    simp only [List.mem_cons, not_or] at h
    have hc : c ≠ '/' := fun hc => h.1 hc.symm
    simp [strings.indexOf, List.isPrefixOf, ih h.2, h.1]

theorem strings.indexOf_slash_append {a : List Char} (h : '/' ∉ a) (b : List Char) :
    strings.indexOf ['/'] (a ++ '/' :: b) = some a.length := by
  induction a with
  | nil => simp [strings.indexOf, List.isPrefixOf]
  | cons c cs ih =>
    simp only [List.mem_cons, not_or] at h
    have hc : c ≠ '/' := fun hc => h.1 hc.symm
    simp [strings.indexOf, List.isPrefixOf, ih h.2, h.1]

/-- The split of the authority and the path in `parseRest`. -/
theorem url.parseRest_authority (u0 : URL) (h p : String) (hs : u0.Scheme ≠ "")
    (hauth : parseAuthority h = .ok (none, h)) (hh : '/' ∉ h.data)
    (hp : p = "" ∨ strings.HasPrefix p "/" = true) :
    parseRest u0 ("//" ++ h ++ p) false = URL.setPath { u0 with User := none, Host := h } p := by
  have hpre : strings.HasPrefix ("//" ++ h ++ p) "//" = true :=
    (strings.HasPrefix_iff _ _).mpr ⟨h.data ++ p.data, by simp⟩
  have hslice : strings.sliceFrom ("//" ++ h ++ p) 2 = h ++ p := by
    apply String.ext
    simp [strings.sliceFrom]
  unfold parseRest
  rw [if_pos ⟨Or.inl hs, hpre⟩]
  simp only [hslice]
  rcases hp with rfl | hp
  · have h1 : strings.Index (h ++ "") "/" = none := by
      unfold strings.Index
      simpa using strings.indexOf_slash_none hh
    simp only [h1]
    have h2 : (h ++ "" : String) = h := by
      apply String.ext
      simp
    rw [h2, hauth]
  · obtain ⟨cs, hcs⟩ := (strings.HasPrefix_iff _ _).mp hp
    have hcs' : p.data = '/' :: cs := hcs
    have h1 : strings.Index (h ++ p) "/" = some h.data.length := by
      unfold strings.Index
      have : (h ++ p).data = h.data ++ '/' :: cs := by simp [hcs']
      rw [this]
      exact strings.indexOf_slash_append hh cs
    have h2 : strings.sliceTo (h ++ p) h.data.length = h := by
      apply String.ext
      simp [strings.sliceTo]
    have h3 : strings.sliceFrom (h ++ p) h.data.length = p := by
      apply String.ext
      simp [strings.sliceFrom]
    simp only [h1, h2, h3]
    rw [hauth]

theorem url.getScheme_https (rest : String) :
    getScheme ("https:" ++ rest) = .ok ("https", rest) := by
  have hd : ("https:" ++ rest).data = 'h' :: 't' :: 't' :: 'p' :: 's' :: ':' :: rest.data := by
    simp only [String.data_append]
    rfl
  unfold getScheme
  rw [hd]
  simp [getSchemeLoop]

/-- The work of `parse` on a link `https://host/path` or `https://host/path?query`. -/
theorem url.parse_https (h p qs q : String)
    (hauth : parseAuthority h = .ok (none, h)) (hh : '/' ∉ h.data)
    (hp : p = "" ∨ strings.HasPrefix p "/" = true)
    (hctl : stringContainsCTLByte ("https:" ++ ("//" ++ h ++ p ++ qs)) = false)
    (hq1 : '?' ∉ h.data) (hq2 : '?' ∉ p.data)
    (hq : (qs = "" ∧ q = "") ∨ (qs = "?" ++ q ∧ q ≠ "" ∧ '?' ∉ q.data)) :
    parse ("https:" ++ ("//" ++ h ++ p ++ qs)) false =
      URL.setPath { Scheme := "https", Host := h, RawQuery := q } p := by
  have hne : ("https:" ++ ("//" ++ h ++ p ++ qs) : String) ≠ "*" := by
    intro hc
    have := congrArg String.data hc
    simp at this
  have hcut : ∃ found, strings.Cut ("//" ++ h ++ p ++ qs) '?' = ("//" ++ h ++ p, q, found) := by
    unfold strings.Cut
    have hnot : '?' ∉ ("//" ++ h ++ p : String).data := by
      simp only [String.data_append, List.mem_append, not_or]
      exact ⟨⟨by decide, hq1⟩, hq2⟩
    rcases hq with ⟨rfl, rfl⟩ | ⟨rfl, _, _⟩
    · have : ("//" ++ h ++ p ++ "" : String).data = ("//" ++ h ++ p : String).data := by simp
      rw [this, strings.cutOn_of_not_mem hnot]
      exact ⟨_, rfl⟩
    · have : ("//" ++ h ++ p ++ ("?" ++ q) : String).data =
          ("//" ++ h ++ p : String).data ++ '?' :: q.data := by simp
      rw [this, strings.cutOn_append_sep hnot]
      exact ⟨_, rfl⟩
  have hforce : ¬ (strings.HasSuffix ("//" ++ h ++ p ++ qs) "?" = true ∧
      strings.Count ("//" ++ h ++ p ++ qs) '?' = 1) := by
    rintro ⟨h1, h2⟩
    rcases hq with ⟨rfl, rfl⟩ | ⟨rfl, hqne, hqq⟩
    · unfold strings.Count at h2
      have : List.count '?' ("//" ++ h ++ p ++ "" : String).data = 0 := by
        rw [List.count_eq_zero]
        simp only [String.data_append, List.mem_append, not_or]
        exact ⟨⟨⟨by decide, hq1⟩, hq2⟩, by decide⟩
      omega
    · unfold strings.HasSuffix at h1
      have hd : ("//" ++ h ++ p ++ ("?" ++ q) : String).data.reverse =
          q.data.reverse ++ ('?' :: ("//" ++ h ++ p : String).data.reverse) := by simp
      rw [hd] at h1
      cases hr : q.data.reverse with
      | nil =>
        have : q.data = [] := by simpa using hr
        exact hqne (String.ext this)
      | cons c cs =>
        rw [hr] at h1
        have hc : c ∈ q.data := by
          have : c ∈ q.data.reverse := by rw [hr]; simp
          simpa using this
        have : '?' = c := by
          have h3 : ("?" : String).data.reverse = ['?'] := rfl
          rw [h3] at h1
          simpa [List.isPrefixOf] using h1
        exact hqq (this ▸ hc)
  have hpre : strings.HasPrefix ("//" ++ h ++ p) "/" = true :=
    (strings.HasPrefix_iff _ _).mpr ⟨'/' :: (h.data ++ p.data), by simp⟩
  unfold parse
  rw [if_neg (by simp [hctl]), if_neg (by simp), if_neg hne, url.getScheme_https]
  simp only []
  obtain ⟨found, hcut⟩ := hcut
  rw [if_neg hforce, hcut]
  simp only [hpre, Bool.not_true, Bool.false_eq_true, if_false]
  have hlow : strings.ToLower "https" = "https" := by decide
  rw [hlow]
  exact url.parseRest_authority _ h p (show ("https" : String) ≠ "" by decide) hauth hh hp

theorem url.ctl_append (a b : String) :
    stringContainsCTLByte (a ++ b) = (stringContainsCTLByte a || stringContainsCTLByte b) := by
  simp [stringContainsCTLByte, List.any_append]

/-- What `url.Parse` returns on a link `https://host/path` or
`https://host/path?query` whose parts hold no control byte and no `#`. -/
theorem url.Parse_https (h p qs q : String) (u : URL)
    (hauth : parseAuthority h = .ok (none, h)) (hh : '/' ∉ h.data)
    (hp : p = "" ∨ strings.HasPrefix p "/" = true)
    (hch : stringContainsCTLByte h = false) (hcp : stringContainsCTLByte p = false)
    (hcq : stringContainsCTLByte q = false)
    (hq1 : '?' ∉ h.data) (hq2 : '?' ∉ p.data)
    (hs1 : '#' ∉ h.data) (hs2 : '#' ∉ p.data) (hs3 : '#' ∉ q.data)
    (hq : (qs = "" ∧ q = "") ∨ (qs = "?" ++ q ∧ q ≠ "" ∧ '?' ∉ q.data))
    (hset : URL.setPath { Scheme := "https", Host := h, RawQuery := q } p = .ok u) :
    Parse ("https:" ++ ("//" ++ h ++ p ++ qs)) = .ok u := by
  have hcqs : stringContainsCTLByte qs = false := by
    rcases hq with ⟨rfl, _⟩ | ⟨rfl, _, _⟩
    · decide
    · rw [url.ctl_append, hcq]
      decide
  have hsqs : '#' ∉ qs.data := by
    rcases hq with ⟨rfl, _⟩ | ⟨rfl, _, _⟩
    · simp
    · simp only [String.data_append, List.mem_append, not_or]
      exact ⟨by decide, hs3⟩
  have hctl : stringContainsCTLByte ("https:" ++ ("//" ++ h ++ p ++ qs)) = false := by
    rw [url.ctl_append, url.ctl_append, url.ctl_append, url.ctl_append, hch, hcp, hcqs]
    decide
  have hsharp : '#' ∉ ("https:" ++ ("//" ++ h ++ p ++ qs) : String).data := by
    simp only [String.data_append, List.mem_append, not_or]
    exact ⟨by decide, ⟨⟨by decide, hs1⟩, hs2⟩, hsqs⟩
  unfold Parse strings.Cut
  rw [strings.cutOn_of_not_mem hsharp]
  simp only []
  have e : (⟨("https:" ++ ("//" ++ h ++ p ++ qs) : String).data⟩ : String) =
      "https:" ++ ("//" ++ h ++ p ++ qs) := rfl
  rw [e, url.parse_https h p qs q hauth hh hp hctl hq1 hq2 hq, hset]
  simp

/-- The URL that `setPath` builds from a path that unescapes. -/
theorem url.setPath_of_unescape (u0 : URL) {p : String} {t : List Char}
    (h : unescapeLoop encoding.encodePath p.data = .ok t) :
    ∃ u, URL.setPath u0 p = .ok u ∧ u.Host = u0.Host ∧ u.RawQuery = u0.RawQuery ∧
      unescape p encoding.encodePath = .ok u.Path ∧
      ((u.RawPath = "" ∧ p = escape u.Path encoding.encodePath) ∨ (u.RawPath = p ∧ p ≠ "")) := by
  have hu : unescape p encoding.encodePath = .ok ⟨t⟩ := url.unescape_ok_iff.mpr h
  unfold URL.setPath
  rw [hu]
  simp only []
  split_ifs with h1
  · exact ⟨_, rfl, rfl, rfl, rfl, Or.inl ⟨rfl, h1⟩⟩
  · refine ⟨_, rfl, rfl, rfl, rfl, Or.inr ⟨rfl, ?_⟩⟩
    rintro rfl
    have h2 : t = [] := by
      have : unescapeLoop encoding.encodePath ("" : String).data = .ok [] := rfl
      rw [this] at h
      simp only [Except.ok.injEq] at h
      exact h.symm
    subst h2
    exact h1 (by decide)

/-- The escaped path of a URL built by `setPath` from a rooted path in valid
encoding is that path. -/
theorem url.EscapedPath_eq_of {u : URL} {p : String}
    (hp : p = "" ∨ strings.HasPrefix p "/" = true)
    (hvalid : validEncoded p encoding.encodePath = true)
    (hpath : unescape p encoding.encodePath = .ok u.Path)
    (hraw : (u.RawPath = "" ∧ p = escape u.Path encoding.encodePath) ∨ (u.RawPath = p ∧ p ≠ "")) :
    u.EscapedPath = p := by
  unfold URL.EscapedPath
  rcases hraw with ⟨h1, h2⟩ | ⟨h1, h2⟩
  · rw [if_neg (fun hc => hc.1 h1)]
    have h3 : u.Path ≠ "*" := by
      rcases hp with rfl | hp
      · have : unescape "" encoding.encodePath = .ok "" := by decide
        rw [this] at hpath
        simp only [Except.ok.injEq] at hpath
        rw [← hpath]
        decide
      · obtain ⟨r, hr⟩ := url.unescape_path_rooted hp hpath
        intro hc
        rw [hc] at hr
        simp at hr
    rw [if_neg h3, ← h2]
  · rw [if_pos ⟨by rw [h1]; exact h2, by rw [h1]; exact hvalid, by rw [h1]; exact hpath⟩, h1]

/-- A control byte is not in valid path encoding. -/
theorem url.ctl_not_valid : ∀ n < 128, (n < 32 ∨ n = 127) →
    validEncoded ⟨[Char.ofNat n]⟩ encoding.encodePath = false := by
  decide

/-- A path in valid encoding holds no control byte, no `?` and no `#`. -/
theorem url.validEncoded_clean {p : String} (h : validEncoded p encoding.encodePath = true) :
    stringContainsCTLByte p = false ∧ '?' ∉ p.data ∧ '#' ∉ p.data := by
  have hc : ∀ c ∈ p.data, validEncoded ⟨[c]⟩ encoding.encodePath = true := by
    intro c hc
    unfold validEncoded at h ⊢
    rw [List.all_eq_true] at h
    simp only [List.all_cons, List.all_nil, Bool.and_true]
    exact h c hc
  refine ⟨?_, ?_, ?_⟩
  · unfold stringContainsCTLByte
    rw [Bool.eq_false_iff]
    intro hany
    rw [List.any_eq_true] at hany
    obtain ⟨c, hmem, hctl⟩ := hany
    have hv := hc c hmem
    have hn : c.toNat < 32 ∨ c.toNat = 127 := by
      simpa using hctl
    have hlt : c.toNat < 128 := by omega
    have := url.ctl_not_valid c.toNat hlt hn
    rw [Char.ofNat_toNat] at this
    rw [this] at hv
    exact absurd hv (by decide)
  · intro hmem
    exact absurd (hc _ hmem) (by decide)
  · intro hmem
    exact absurd (hc _ hmem) (by decide)

/-- What `parseURL` returns on a canonical link: a URL with the host, the
escaped path and the raw query of the link. -/
theorem parseURL_canonical (h p qs q : String)
    (hhost : parseAuthority h = .ok (none, h) ∧ '/' ∉ h.data ∧
      stringContainsCTLByte h = false ∧ '?' ∉ h.data ∧ '#' ∉ h.data)
    (hp : p = "" ∨ strings.HasPrefix p "/" = true)
    (hvalid : validEncoded p encoding.encodePath = true)
    (hesc : ∃ t, unescapeLoop encoding.encodePath p.data = .ok t)
    (hq : (qs = "" ∧ q = "") ∨ (qs = "?" ++ q ∧ q ≠ "" ∧ '?' ∉ q.data))
    (hcq : stringContainsCTLByte q = false) (hs3 : '#' ∉ q.data) :
    ∃ u, parseURL ("https:" ++ ("//" ++ h ++ p ++ qs)) = (some u, none) ∧
      u.Host = h ∧ u.EscapedPath = p ∧ u.RawQuery = q := by
  obtain ⟨hauth, hh, hch, hq1, hs1⟩ := hhost
  obtain ⟨hcp, hq2, hs2⟩ := url.validEncoded_clean hvalid
  obtain ⟨t, ht⟩ := hesc
  obtain ⟨u, hset, hH, hQ, hpath, hraw⟩ :=
    url.setPath_of_unescape { Scheme := "https", Host := h, RawQuery := q } ht
  have hparse := url.Parse_https h p qs q u hauth hh hp hch hcp hcq hq1 hq2 hs1 hs2 hs3 hq hset
  refine ⟨u, ?_, hH, url.EscapedPath_eq_of hp hvalid hpath hraw, hQ⟩
  have hpre : strings.HasPrefix ("https:" ++ ("//" ++ h ++ p ++ qs)) "http" = true :=
    (strings.HasPrefix_iff _ _).mpr ⟨'s' :: ':' :: ("//" ++ h ++ p ++ qs : String).data, by
      simp only [String.data_append]
      rfl⟩
  unfold parseURL
  simp only [hpre, Bool.not_true, Bool.false_eq_true, if_false, hparse]

/-! ### Paths that unescape -/

theorem url.unescapeLoop_cons_plain {c : Char} (hc : c ≠ '%') (l : List Char) :
    (∃ t, unescapeLoop encoding.encodePath (c :: l) = .ok t) ↔
      ∃ t, unescapeLoop encoding.encodePath l = .ok t := by
  rw [unescapeLoop.eq_def]
  simp only [hc, if_false]
  by_cases hplus : c = '+'
  · simp only [hplus, if_true]
    cases unescapeLoop encoding.encodePath l with
    | error e => simp
    | ok t => simp
  · simp only [hplus, if_false]
    rw [if_neg (by simp)]
    cases unescapeLoop encoding.encodePath l with
    | error e => simp
    | ok t => simp

theorem url.unescapeLoop_cons_pct {a b : Char} (l : List Char) :
    (∃ t, unescapeLoop encoding.encodePath ('%' :: a :: b :: l) = .ok t) ↔
      (ishex a = true ∧ ishex b = true ∧ ∃ t, unescapeLoop encoding.encodePath l = .ok t) := by
  rw [unescapeLoop.eq_def]
  simp only [if_true]
  by_cases hab : ishex a = true ∧ ishex b = true
  · have h1 : ¬ ((!ishex a || !ishex b) = true) := by simp [hab.1, hab.2]
    rw [if_neg h1, if_neg (by simp), if_neg (by simp)]
    cases unescapeLoop encoding.encodePath l with
    | error e => simp
    | ok t => simp [hab.1, hab.2]
  · have h1 : (!ishex a || !ishex b) = true := by
      simp only [not_and_or, Bool.not_eq_true] at hab
      rcases hab with h | h <;> simp [h]
    rw [if_pos h1]
    simp only [reduceCtorEq, exists_false, false_iff, not_and]
    intro ha hb
    exact absurd ⟨ha, hb⟩ hab

theorem url.upperhex_ishex : ∀ n < 16, ishex (upperhex n) = true ∧
    validEncoded ⟨[upperhex n]⟩ encoding.encodePath = true := by
  decide

/-- The escaped form of a path unescapes. -/
theorem url.escape_unescapes (l : List Char) :
    ∃ t, unescapeLoop encoding.encodePath (l.flatMap (escapeByte encoding.encodePath)) = .ok t := by
  induction l with
  | nil => exact ⟨[], rfl⟩
  | cons c cs ih =>
    rw [List.flatMap_cons]
    unfold escapeByte
    by_cases hs : shouldEscape c encoding.encodePath = true
    · rw [if_pos hs, if_neg (by simp)]
      simp only [List.cons_append, List.nil_append]
      rw [url.unescapeLoop_cons_pct]
      exact ⟨(url.upperhex_ishex _ (Nat.mod_lt _ (by decide))).1,
        (url.upperhex_ishex _ (Nat.mod_lt _ (by decide))).1, ih⟩
    · rw [if_neg hs]
      simp only [List.cons_append, List.nil_append]
      have hc : c ≠ '%' := by
        rintro rfl
        exact hs (by decide)
      rw [url.unescapeLoop_cons_plain hc]
      exact ih

/-- The escaped form of a path is in valid encoding. -/
theorem url.escape_valid (l : List Char) :
    validEncoded ⟨l.flatMap (escapeByte encoding.encodePath)⟩ encoding.encodePath = true := by
  induction l with
  | nil => rfl
  | cons c cs ih =>
    unfold validEncoded at ih ⊢
    simp only [List.flatMap_cons, List.all_append, Bool.and_eq_true]
    refine ⟨?_, ih⟩
    unfold escapeByte
    by_cases hs : shouldEscape c encoding.encodePath = true
    · rw [if_pos hs, if_neg (by simp)]
      have h1 := (url.upperhex_ishex (c.toNat / 16 % 16) (Nat.mod_lt _ (by decide))).2
      have h2 := (url.upperhex_ishex (c.toNat % 16) (Nat.mod_lt _ (by decide))).2
      unfold validEncoded at h1 h2
      simp only [List.all_cons, List.all_nil, Bool.and_true] at h1 h2 ⊢
      simp only [Bool.and_eq_true]
      exact ⟨by decide, h1, h2⟩
    · rw [if_neg hs]
      simp only [List.all_cons, List.all_nil, Bool.and_true]
      simp only [Bool.not_eq_true] at hs
      split_ifs <;> simp [hs]

/-- The escaped path of every URL is in valid encoding and unescapes. -/
theorem url.EscapedPath_canon (u : URL) :
    validEncoded u.EscapedPath encoding.encodePath = true ∧
      ∃ t, unescapeLoop encoding.encodePath u.EscapedPath.data = .ok t := by
  unfold URL.EscapedPath
  split_ifs with h1 h2
  · refine ⟨h1.2.1, ?_⟩
    exact ⟨u.Path.data, url.unescape_ok_iff.mp h1.2.2⟩
  · exact ⟨by decide, ⟨_, rfl⟩⟩
  · exact ⟨url.escape_valid _, url.escape_unescapes _⟩

/-- When a path unescapes, so do the part before a `/` and the part after it. -/
theorem url.unescapes_split : ∀ (a b : List Char),
    (∃ t, unescapeLoop encoding.encodePath (a ++ '/' :: b) = .ok t) →
    (∃ t, unescapeLoop encoding.encodePath a = .ok t) ∧
      ∃ t, unescapeLoop encoding.encodePath b = .ok t
  | [], b, h => by
    refine ⟨⟨[], rfl⟩, ?_⟩
    rw [List.nil_append, url.unescapeLoop_cons_plain (by decide)] at h
    exact h
  | [c], b, h => by
    by_cases hc : c = '%'
    · subst hc
      rw [show (['%'] ++ '/' :: b) = '%' :: '/' :: b from rfl] at h
      cases b with
      | nil =>
        rw [unescapeLoop.eq_def] at h
        simp at h
      | cons x b =>
        rw [url.unescapeLoop_cons_pct] at h
        exact absurd h.1 (by decide)
    · rw [List.cons_append, url.unescapeLoop_cons_plain hc] at h
      obtain ⟨h1, h2⟩ := url.unescapes_split [] b h
      exact ⟨(url.unescapeLoop_cons_plain hc []).mpr h1, h2⟩
  | [c, x], b, h => by
    by_cases hc : c = '%'
    · subst hc
      rw [show (['%', x] ++ '/' :: b) = '%' :: x :: '/' :: b from rfl,
        url.unescapeLoop_cons_pct] at h
      exact absurd h.2.1 (by decide)
    · rw [List.cons_append, url.unescapeLoop_cons_plain hc] at h
      obtain ⟨h1, h2⟩ := url.unescapes_split [x] b h
      exact ⟨(url.unescapeLoop_cons_plain hc [x]).mpr h1, h2⟩
  | c :: x :: y :: a, b, h => by
    by_cases hc : c = '%'
    · subst hc
      rw [show ('%' :: x :: y :: a ++ '/' :: b) = '%' :: x :: y :: (a ++ '/' :: b) from rfl,
        url.unescapeLoop_cons_pct] at h
      obtain ⟨hx, hy, hrest⟩ := h
      obtain ⟨h1, h2⟩ := url.unescapes_split a b hrest
      exact ⟨(url.unescapeLoop_cons_pct a).mpr ⟨hx, hy, h1⟩, h2⟩
    · rw [List.cons_append, url.unescapeLoop_cons_plain hc] at h
      obtain ⟨h1, h2⟩ := url.unescapes_split (x :: y :: a) b h
      exact ⟨(url.unescapeLoop_cons_plain hc (x :: y :: a)).mpr h1, h2⟩

/-- When two paths unescape, so does the one after the other. -/
theorem url.unescapes_append : ∀ (a b : List Char),
    (∃ t, unescapeLoop encoding.encodePath a = .ok t) →
    (∃ t, unescapeLoop encoding.encodePath b = .ok t) →
    ∃ t, unescapeLoop encoding.encodePath (a ++ b) = .ok t
  | [], _, _, hb => hb
  | [c], b, ha, hb => by
    by_cases hc : c = '%'
    · subst hc
      rw [unescapeLoop.eq_def] at ha
      simp at ha
    · exact (url.unescapeLoop_cons_plain hc b).mpr hb
  | [c, x], b, ha, hb => by
    by_cases hc : c = '%'
    · subst hc
      rw [unescapeLoop.eq_def] at ha
      simp at ha
    · rw [url.unescapeLoop_cons_plain hc] at ha
      exact (url.unescapeLoop_cons_plain hc _).mpr (url.unescapes_append [x] b ha hb)
  | c :: x :: y :: a, b, ha, hb => by
    by_cases hc : c = '%'
    · subst hc
      rw [url.unescapeLoop_cons_pct] at ha
      exact (url.unescapeLoop_cons_pct _).mpr ⟨ha.1, ha.2.1, url.unescapes_append a b ha.2.2 hb⟩
    · rw [url.unescapeLoop_cons_plain hc] at ha
      exact (url.unescapeLoop_cons_plain hc _).mpr (url.unescapes_append (x :: y :: a) b ha hb)

theorem url.validEncoded_append (a b : String) (mode : encoding) :
    validEncoded (a ++ b) mode = (validEncoded a mode && validEncoded b mode) := by
  simp [validEncoded, List.all_append]

/-- Every part of a path in valid encoding that unescapes is a segment in valid
encoding that unescapes. -/
theorem url.parts_canon : ∀ (parts : List (List Char)) (l : List Char),
    strings.splitOn '/' l = parts →
    validEncoded ⟨l⟩ encoding.encodePath = true →
    (∃ t, unescapeLoop encoding.encodePath l = .ok t) →
    ∀ q ∈ parts, '/' ∉ q ∧ validEncoded ⟨q⟩ encoding.encodePath = true ∧
      ∃ t, unescapeLoop encoding.encodePath q = .ok t
  | [], _, _, _, _, q, hq => by simp at hq
  | p :: rest, l, hs, hv, he, q, hq => by
    obtain ⟨h1, h2⟩ := strings.splitOn_eq_cons hs
    rcases h2 with ⟨rfl, rfl⟩ | ⟨l', rfl, h3⟩
    · simp only [List.mem_singleton] at hq
      subst hq
      exact ⟨h1, hv, he⟩
    · have hv' : validEncoded ⟨p⟩ encoding.encodePath = true ∧
          validEncoded ⟨l'⟩ encoding.encodePath = true := by
        unfold validEncoded at hv ⊢
        simp only [List.all_append, List.all_cons, Bool.and_eq_true] at hv
        exact ⟨hv.1, hv.2.2⟩
      obtain ⟨he1, he2⟩ := url.unescapes_split p l' he
      rcases List.mem_cons.mp hq with rfl | hq'
      · exact ⟨h1, hv'.1, he1⟩
      · exact url.parts_canon rest l' h3 hv'.2 he2 q hq'

/-- Every part of the escaped path of a URL is a segment in valid encoding that
unescapes. -/
theorem url.segment_canon (u : URL) {seg : String}
    (h : seg ∈ strings.Split u.EscapedPath '/') :
    '/' ∉ seg.data ∧ validEncoded seg encoding.encodePath = true ∧
      ∃ t, unescapeLoop encoding.encodePath seg.data = .ok t := by
  obtain ⟨hv, he⟩ := url.EscapedPath_canon u
  unfold strings.Split at h
  rw [List.mem_map] at h
  obtain ⟨q, hq, rfl⟩ := h
  exact url.parts_canon _ _ rfl hv he q hq

/-- A segment in valid encoding fills the place of a path segment. -/
theorem isSegment_of_canon {seg : String} (h1 : '/' ∉ seg.data)
    (h2 : validEncoded seg encoding.encodePath = true) : isSegment seg :=
  ⟨h1, (url.validEncoded_clean h2).2.1, (url.validEncoded_clean h2).2.2⟩

/-! ### Query values -/

theorem url.upperhex_unhex : ∀ n < 16, unhex (upperhex n) = n ∧ ishex (upperhex n) = true ∧
    upperhex n ∉ ['&', ';', '#', '?', '%', '+'] ∧ ¬ ((upperhex n).toNat < 32 ∨ (upperhex n).toNat = 127) := by
  decide

/-- The bytes of a percent-encoded text: none separates query pairs, none ends
the query, none is a control byte. -/
theorem percentEncode_clean (v : String) :
    ∀ x ∈ (percentEncode v).data,
      x ≠ '&' ∧ x ≠ ';' ∧ x ≠ '#' ∧ x ≠ '?' ∧ ¬ (x.toNat < 32 ∨ x.toNat = 127) := by
  intro x hx
  unfold percentEncode at hx
  simp only [List.mem_flatMap] at hx
  obtain ⟨c, _, hxc⟩ := hx
  by_cases hc : c.toNat < 256
  · rw [if_pos hc] at hxc
    simp only [List.mem_cons, List.mem_singleton, List.not_mem_nil, or_false] at hxc
    have hd : c.toNat / 16 < 16 := by omega
    have hm : c.toNat % 16 < 16 := Nat.mod_lt _ (by decide)
    rcases hxc with rfl | rfl | rfl
    · decide
    · have := (url.upperhex_unhex _ hd).2.2
      simp only [List.mem_cons, List.mem_singleton, List.not_mem_nil, or_false, not_or] at this
      exact ⟨this.1.1, this.1.2.1, this.1.2.2.1, this.1.2.2.2.1, not_or.mpr this.2⟩
    · have := (url.upperhex_unhex _ hm).2.2
      simp only [List.mem_cons, List.mem_singleton, List.not_mem_nil, or_false, not_or] at this
      exact ⟨this.1.1, this.1.2.1, this.1.2.2.1, this.1.2.2.2.1, not_or.mpr this.2⟩
  · rw [if_neg hc] at hxc
    simp only [List.mem_singleton] at hxc
    subst hxc
    refine ⟨?_, ?_, ?_, ?_, by omega⟩ <;>
    · rintro rfl
      exact hc (by decide)

/-- The function `url.QueryUnescape` decodes a percent-encoded text to the text. -/
theorem QueryUnescape_percentEncode (v : String) :
    QueryUnescape (percentEncode v) = .ok v := by
  unfold QueryUnescape
  rw [url.unescape_ok_iff]
  unfold percentEncode
  simp only []
  induction v.data with
  | nil => rfl
  | cons c cs ih =>
    rw [List.flatMap_cons]
    by_cases hc : c.toNat < 256
    · rw [if_pos hc]
      have hd : c.toNat / 16 < 16 := by omega
      have hm : c.toNat % 16 < 16 := Nat.mod_lt _ (by decide)
      obtain ⟨u1, x1, _⟩ := url.upperhex_unhex _ hd
      obtain ⟨u2, x2, _⟩ := url.upperhex_unhex _ hm
      simp only [List.cons_append, List.nil_append]
      rw [unescapeLoop.eq_def]
      simp only [if_true, x1, x2, Bool.not_true, Bool.or_self, Bool.false_eq_true, if_false]
      rw [if_neg (by simp), if_neg (by simp), ih]
      simp only [u1, u2]
      have : c.toNat / 16 * 16 + c.toNat % 16 = c.toNat := by omega
      rw [this, Char.ofNat_toNat]
    · rw [if_neg hc]
      simp only [List.cons_append, List.nil_append]
      have h1 : c ≠ '%' := by
        rintro rfl
        exact hc (by decide)
      have h2 : c ≠ '+' := by
        rintro rfl
        exact hc (by decide)
      rw [unescapeLoop.eq_def]
      simp only [h1, h2, if_false]
      rw [if_neg (by simp), ih]

/-- The function `url.ParseQuery` on a query of one pair whose key is plain and
whose value decodes. -/
theorem ParseQuery_single (key val v : String)
    (hkey : key ≠ "" ∧ '&' ∉ key.data ∧ ';' ∉ key.data ∧ '=' ∉ key.data ∧
      QueryUnescape key = .ok key)
    (h1 : '&' ∉ val.data) (h2 : ';' ∉ val.data) (hv : QueryUnescape val = .ok v) :
    url.ParseQuery (key ++ "=" ++ val) = ([(key, v)], none) := by
  obtain ⟨k0, k1, k2, k3, k4⟩ := hkey
  have hne : (key ++ "=" ++ val : String) ≠ "" := by
    intro hc
    have := congrArg String.data hc
    simp at this
  have hamp : '&' ∉ (key ++ "=" ++ val : String).data := by
    simp only [String.data_append, List.mem_append, not_or]
    exact ⟨⟨k1, by decide⟩, h1⟩
  have hsemi : strings.Contains (key ++ "=" ++ val) ';' = false := by
    unfold strings.Contains
    rw [Bool.eq_false_iff]
    simp only [ne_eq, List.contains_eq_any_beq, List.any_eq_true, beq_iff_eq, not_exists, not_and]
    intro x hx hxs
    subst hxs
    simp only [String.data_append, List.mem_append] at hx
    rcases hx with (hx | hx) | hx
    · exact k2 hx
    · exact absurd hx (by decide)
    · exact h2 hx
  have hcut : strings.Cut (key ++ "=" ++ val) '=' = (key, val, true) := by
    unfold strings.Cut
    have : (key ++ "=" ++ val : String).data = key.data ++ '=' :: val.data := by simp
    rw [this, strings.cutOn_append_sep k3]
  unfold url.ParseQuery
  rw [if_neg hne]
  unfold strings.Split
  rw [strings.splitOn_of_not_mem hamp]
  simp only [List.map_cons, List.map_nil, List.foldl_cons, List.foldl_nil]
  unfold parseQueryStep
  simp only [hsemi, Bool.false_eq_true, if_false, hne, hcut, k4, hv, List.nil_append]

/-! ### What a success of a path parser tells about the identifier -/

theorem mem_of_getElem?_eq_some {l : List String} {i : Nat} {a : String} (h : l[i]? = some a) :
    a ∈ l := by
  rw [List.getElem?_eq_some] at h
  obtain ⟨hi, rfl⟩ := h
  exact List.getElem_mem hi

theorem parseYoutubeURL_ok {u : URL} {kind : Kind} {id : String}
    (h : parseYoutubeURL u = some (kind, id, none)) :
    (kind = TypePlaylist ∧ id ≠ "") ∨
      (kind = TypeChannel ∧ id ≠ "" ∧ id ∈ strings.Split u.EscapedPath '/') ∨
      (kind = TypeUser ∧ id ≠ "" ∧ id ∈ strings.Split u.EscapedPath '/') ∨
      (kind = TypeHandle ∧ id ≠ "" ∧ ("@" ++ id) ∈ strings.Split u.EscapedPath '/') := by
  unfold parseYoutubeURL at h
  simp only [] at h
  repeat' split at h
  all_goals try (simp at h; done)
  all_goals simp only [Option.some.injEq, Prod.mk.injEq, and_true] at h
  all_goals obtain ⟨rfl, rfl⟩ := h
  all_goals first
    | exact Or.inl ⟨rfl, by assumption⟩
    | exact Or.inr (Or.inl ⟨rfl, by assumption, mem_of_getElem?_eq_some (by assumption)⟩)
    | exact Or.inr (Or.inr (Or.inl ⟨rfl, by assumption, mem_of_getElem?_eq_some (by assumption)⟩))
    | skip
  rename_i x hi hx hy
  refine Or.inr (Or.inr (Or.inr ⟨rfl, hy, ?_⟩))
  have hpre : strings.HasPrefix x "@" = true := by
    simp only [not_or, Bool.not_eq_true, Bool.not_eq_false'] at hx
    simpa using hx.2
  obtain ⟨t, ht⟩ := (strings.HasPrefix_iff _ _).mp hpre
  have hx' : "@" ++ strings.TrimPrefix x "@" = x := by
    unfold strings.TrimPrefix
    rw [if_pos hpre]
    apply String.ext
    simp only [String.data_append]
    rw [ht]
    rfl
  rw [hx']
  exact mem_of_getElem?_eq_some hi

theorem parseBilibiliURL_ok {u : URL} {kind : Kind} {id : String}
    (h : parseBilibiliURL u = some (kind, id, none)) :
    (kind = TypeUser ∧ id ∈ strings.Split u.EscapedPath '/') ∨
      (kind = TypeChannel ∧ ∃ mid sid : String, id = mid ++ ":" ++ sid ∧
        mid ∈ strings.Split u.EscapedPath '/') := by
  unfold parseBilibiliURL at h
  simp only [] at h
  repeat' split at h
  all_goals try (simp at h; done)
  all_goals simp only [Option.some.injEq, Prod.mk.injEq, and_true] at h
  all_goals obtain ⟨rfl, rfl⟩ := h
  all_goals first
    | exact Or.inl ⟨rfl, mem_of_getElem?_eq_some (by assumption)⟩
    | exact Or.inr ⟨rfl, _, _, rfl, mem_of_getElem?_eq_some (by assumption)⟩

theorem parseVimeoURL_ok {u : URL} {kind : Kind} {id : String}
    (h : parseVimeoURL u = some (kind, id, none)) :
    (kind = TypeGroup ∧ id ≠ "" ∧ id ∈ strings.Split u.EscapedPath '/') ∨
      (kind = TypeChannel ∧ id ≠ "" ∧ id ∈ strings.Split u.EscapedPath '/') ∨
      (kind = TypeUser ∧ id ≠ "" ∧ id ≠ "groups" ∧ id ≠ "channels" ∧
        id ∈ strings.Split u.EscapedPath '/') := by
  unfold parseVimeoURL at h
  simp only [] at h
  by_cases h1 : (strings.Split u.EscapedPath '/').length ≤ 1
  · rw [if_pos h1] at h
    simp at h
  rw [if_neg h1] at h
  cases hi : (strings.Split u.EscapedPath '/')[1]? with
  | none => rw [hi] at h; simp at h
  | some first =>
    rw [hi] at h
    simp only [] at h
    by_cases hg : first = "groups"
    · simp only [hg, if_true, true_or] at h
      repeat' split at h
      all_goals try (simp at h; done)
      all_goals simp only [Option.some.injEq, Prod.mk.injEq, and_true] at h
      all_goals obtain ⟨rfl, rfl⟩ := h
      all_goals exact Or.inl ⟨rfl, by assumption, mem_of_getElem?_eq_some (by assumption)⟩
    by_cases hc : first = "channels"
    · simp only [hc, if_true, or_true, show ("channels" : String) ≠ "groups" by decide, if_false] at h
      repeat' split at h
      all_goals try (simp at h; done)
      all_goals simp only [Option.some.injEq, Prod.mk.injEq, and_true] at h
      all_goals obtain ⟨rfl, rfl⟩ := h
      all_goals exact Or.inr (Or.inl ⟨rfl, by assumption, mem_of_getElem?_eq_some (by assumption)⟩)
    · simp only [hg, hc, if_false, show ¬ (TypeUser = TypeGroup ∨ TypeUser = TypeChannel) by decide,
        if_true] at h
      by_cases hx : first = ""
      · rw [if_pos hx] at h
        simp at h
      rw [if_neg hx] at h
      simp only [Option.some.injEq, Prod.mk.injEq, and_true] at h
      obtain ⟨rfl, rfl⟩ := h
      exact Or.inr (Or.inr ⟨rfl, hx, hg, hc, mem_of_getElem?_eq_some hi⟩)

theorem parseSoundcloudURL_ok {u : URL} {kind : Kind} {id : String}
    (h : parseSoundcloudURL u = some (kind, id, none)) :
    kind = TypePlaylist ∧ id ∈ strings.Split u.EscapedPath '/' := by
  unfold parseSoundcloudURL at h
  simp only [] at h
  repeat' split at h
  all_goals try (simp at h; done)
  all_goals simp only [Option.some.injEq, Prod.mk.injEq, and_true] at h
  all_goals obtain ⟨rfl, rfl⟩ := h
  all_goals exact ⟨rfl, mem_of_getElem?_eq_some (by assumption)⟩

theorem parseTwitchURL_ok {u : URL} {kind : Kind} {id : String}
    (h : parseTwitchURL u = some (kind, id, none)) :
    kind = TypeUser ∧ id ≠ "" ∧ id ∈ strings.Split u.EscapedPath '/' := by
  unfold parseTwitchURL at h
  simp only [] at h
  repeat' split at h
  all_goals try (simp at h; done)
  all_goals simp only [Option.some.injEq, Prod.mk.injEq, and_true] at h
  all_goals obtain ⟨rfl, rfl⟩ := h
  all_goals exact ⟨rfl, by assumption, mem_of_getElem?_eq_some (by assumption)⟩

/-! ### Links in canonical shape -/

theorem url.unescapes_plain_append : ∀ (a l : List Char), '%' ∉ a →
    (∃ t, unescapeLoop encoding.encodePath l = .ok t) →
    ∃ t, unescapeLoop encoding.encodePath (a ++ l) = .ok t
  | [], _, _, h => h
  | c :: a, l, ha, h => by
    simp only [List.mem_cons, not_or] at ha
    rw [List.cons_append, url.unescapeLoop_cons_plain (fun hc => ha.1 hc.symm)]
    exact url.unescapes_plain_append a l ha.2 h

/-- A link `https://host/prefix…segment` is parsed into a URL with that host and
that escaped path. -/
theorem canonical_path (h pre seg : String)
    (hhost : parseAuthority h = .ok (none, h) ∧ '/' ∉ h.data ∧
      stringContainsCTLByte h = false ∧ '?' ∉ h.data ∧ '#' ∉ h.data)
    (hpre : strings.HasPrefix pre "/" = true ∧ validEncoded pre encoding.encodePath = true ∧
      '%' ∉ pre.data)
    (hv : validEncoded seg encoding.encodePath = true)
    (he : ∃ t, unescapeLoop encoding.encodePath seg.data = .ok t) :
    ∃ u, parseURL ("https://" ++ h ++ pre ++ seg) = (some u, none) ∧
      u.Host = h ∧ u.EscapedPath = pre ++ seg ∧ u.RawQuery = "" := by
  obtain ⟨hp1, hp2, hp3⟩ := hpre
  have hroot : strings.HasPrefix (pre ++ seg) "/" = true := by
    obtain ⟨t, ht⟩ := (strings.HasPrefix_iff _ _).mp hp1
    exact (strings.HasPrefix_iff _ _).mpr ⟨t ++ seg.data, by simp [ht]⟩
  have hvalid : validEncoded (pre ++ seg) encoding.encodePath = true := by
    rw [url.validEncoded_append, hp2, hv]
    rfl
  have hesc : ∃ t, unescapeLoop encoding.encodePath (pre ++ seg).data = .ok t := by
    rw [String.data_append]
    exact url.unescapes_plain_append _ _ hp3 he
  have hlink : "https://" ++ h ++ pre ++ seg = "https:" ++ ("//" ++ h ++ (pre ++ seg) ++ "") := by
    rw [show ("https://" : String) = "https:" ++ "//" from by decide]
    simp only [String.append_assoc, String.append_empty]
  rw [hlink]
  exact parseURL_canonical h (pre ++ seg) "" "" hhost (Or.inr hroot) hvalid hesc
    (Or.inl ⟨rfl, rfl⟩) (by decide) (by simp)

/-- A link `https://host/path?key=value` with a percent-encoded value is parsed
into a URL with that host, that escaped path and that raw query. -/
theorem canonical_query (h p key v : String)
    (hhost : parseAuthority h = .ok (none, h) ∧ '/' ∉ h.data ∧
      stringContainsCTLByte h = false ∧ '?' ∉ h.data ∧ '#' ∉ h.data)
    (hroot : strings.HasPrefix p "/" = true)
    (hvalid : validEncoded p encoding.encodePath = true)
    (hesc : ∃ t, unescapeLoop encoding.encodePath p.data = .ok t)
    (hkey : key ≠ "" ∧ '?' ∉ key.data ∧ '#' ∉ key.data ∧ stringContainsCTLByte key = false) :
    ∃ u, parseURL ("https://" ++ h ++ p ++ "?" ++ key ++ "=" ++ percentEncode v) = (some u, none) ∧
      u.Host = h ∧ u.EscapedPath = p ∧ u.RawQuery = key ++ "=" ++ percentEncode v := by
  obtain ⟨k0, k1, k2, k3⟩ := hkey
  have hclean := percentEncode_clean v
  have hq0 : (key ++ "=" ++ percentEncode v : String) ≠ "" := by
    intro hc
    have := congrArg String.data hc
    simp at this
  have hq1 : '?' ∉ (key ++ "=" ++ percentEncode v : String).data := by
    simp only [String.data_append, List.mem_append, not_or]
    exact ⟨⟨k1, by decide⟩, fun hm => (hclean _ hm).2.2.2.1 rfl⟩
  have hq2 : '#' ∉ (key ++ "=" ++ percentEncode v : String).data := by
    simp only [String.data_append, List.mem_append, not_or]
    exact ⟨⟨k2, by decide⟩, fun hm => (hclean _ hm).2.2.1 rfl⟩
  have hq3 : stringContainsCTLByte (key ++ "=" ++ percentEncode v) = false := by
    rw [url.ctl_append, url.ctl_append, k3]
    have : stringContainsCTLByte (percentEncode v) = false := by
      unfold stringContainsCTLByte
      rw [Bool.eq_false_iff]
      intro hany
      rw [List.any_eq_true] at hany
      obtain ⟨c, hmem, hctl⟩ := hany
      exact (hclean c hmem).2.2.2.2 (by simpa using hctl)
    rw [this]
    decide
  have hlink : "https://" ++ h ++ p ++ "?" ++ key ++ "=" ++ percentEncode v =
      "https:" ++ ("//" ++ h ++ p ++ ("?" ++ (key ++ "=" ++ percentEncode v))) := by
    rw [show ("https://" : String) = "https:" ++ "//" from by decide]
    simp only [String.append_assoc]
  rw [hlink]
  exact parseURL_canonical h p _ _ hhost (Or.inr hroot) hvalid hesc
    (Or.inr ⟨rfl, hq0, hq1⟩) hq3 hq2

/-- The arm of the router that a host selects. -/
theorem ParseURL_routed {link : String} {u : URL} (hp : parseURL link = (some u, none)) :
    (u.Host = "space.bilibili.com" →
      ParseURL link = route ProviderBilibili (parseBilibiliURL u)) ∧
    (u.Host = "www.youtube.com" → ParseURL link = route ProviderYoutube (parseYoutubeURL u)) ∧
    (u.Host = "vimeo.com" → ParseURL link = route ProviderVimeo (parseVimeoURL u)) ∧
    (u.Host = "soundcloud.com" →
      ParseURL link = route ProviderSoundcloud (parseSoundcloudURL u)) ∧
    (u.Host = "www.twitch.tv" → ParseURL link = route ProviderTwitch (parseTwitchURL u)) := by
  rw [ParseURL_of_parsed hp]
  refine ⟨?_, ?_, ?_, ?_, ?_⟩ <;>
  · intro hh
    rw [hh]
    rfl

/-- Appending a text without separator to a text extends the last part of its split. -/
theorem strings.splitOn_append_last {sep : Char} {b : List Char} (hb : sep ∉ b) :
    ∀ (a : List Char) (parts : List (List Char)) (last : List Char),
      strings.splitOn sep a = parts ++ [last] →
      strings.splitOn sep (a ++ b) = parts ++ [last ++ b]
  | [], parts, last, h => by
    have h1 : parts = [] ∧ last = [] := by
      cases parts with
      | nil =>
        simp only [strings.splitOn, List.nil_append, List.cons.injEq, and_true] at h
        exact ⟨rfl, h.symm⟩
      | cons p ps =>
        simp only [strings.splitOn, List.cons_append, List.cons.injEq] at h
        have := congrArg List.length h.2
        simp at this
    obtain ⟨rfl, rfl⟩ := h1
    simpa using strings.splitOn_of_not_mem hb
  | c :: a, parts, last, h => by
    by_cases hc : c = sep
    · subst hc
      rw [strings.splitOn_cons_sep] at h
      rw [List.cons_append, strings.splitOn_cons_sep]
      cases parts with
      | nil =>
        simp only [List.nil_append, List.cons.injEq] at h
        exact absurd h.2 (strings.splitOn_ne_nil _ _)
      | cons p ps =>
        simp only [List.cons_append, List.cons.injEq] at h
        obtain ⟨rfl, h2⟩ := h
        rw [strings.splitOn_append_last hb a ps last h2]
        rfl
    · obtain ⟨p, ps, h1, h2⟩ := strings.splitOn_cons_ne hc a
      rw [h2] at h
      cases parts with
      | nil =>
        simp only [List.nil_append, List.cons.injEq] at h
        obtain ⟨rfl, rfl⟩ := h
        have h3 := strings.splitOn_append_last hb a [] p (by simpa using h1)
        obtain ⟨q, qs, h4, h5⟩ := strings.splitOn_cons_ne hc (a ++ b)
        rw [List.cons_append, h5]
        rw [h3] at h4
        simp only [List.nil_append, List.cons.injEq] at h4
        obtain ⟨rfl, rfl⟩ := h4
        rfl
      | cons p' ps' =>
        simp only [List.cons_append, List.cons.injEq] at h
        obtain ⟨rfl, rfl⟩ := h
        have h3 := strings.splitOn_append_last hb a (p :: ps') last (by simpa using h1)
        obtain ⟨q, qs, h4, h5⟩ := strings.splitOn_cons_ne hc (a ++ b)
        rw [List.cons_append, h5]
        rw [h3] at h4
        simp only [List.cons_append, List.cons.injEq] at h4
        obtain ⟨rfl, rfl⟩ := h4
        rfl

/-- The same for `strings.Split`. -/
theorem strings.Split_append_last (parts : List String) (last : String) {pre seg : String}
    (hpre : strings.Split pre '/' = parts ++ [last]) (hseg : '/' ∉ seg.data) :
    strings.Split (pre ++ seg) '/' = parts ++ [last ++ seg] := by
  unfold strings.Split at hpre ⊢
  have h1 : strings.splitOn '/' pre.data = parts.map String.data ++ [last.data] := by
    have := congrArg (List.map String.data) hpre
    simpa [List.map_map, Function.comp_def] using this
  rw [String.data_append, strings.splitOn_append_last hseg _ _ _ h1]
  simp only [List.map_append, List.map_map, Function.comp_def, List.map_cons, List.map_nil,
    List.map_id']
  rfl

theorem canonical_youtube_channel {seg : String} (h1 : '/' ∉ seg.data)
    (h2 : validEncoded seg encoding.encodePath = true)
    (h3 : ∃ t, unescapeLoop encoding.encodePath seg.data = .ok t) (h4 : seg ≠ "") :
    ParseURL ("https://www.youtube.com/channel/" ++ seg) =
      some ({ LinkType := TypeChannel, Provider := ProviderYoutube, ItemID := seg }, none) := by
  obtain ⟨u, hp, hH, hE, _⟩ :=
    canonical_path "www.youtube.com" "/channel/" seg (by decide) (by decide) h2 h3
  have hs : strings.Split u.EscapedPath '/' = "" :: "channel" :: [seg] := by
    rw [hE, strings.Split_append_last ["", "channel"] "" (by decide) h1]
    simp
  obtain ⟨p1, p2, p3⟩ := prefixes_of_channel hs
  rw [show ("https://www.youtube.com/channel/" : String) =
    "https://" ++ "www.youtube.com" ++ "/channel/" from by decide, (ParseURL_routed hp).2.1 hH]
  unfold parseYoutubeURL
  simp [p1, p2, p3, hs, h4, route]

theorem canonical_youtube_user {seg : String} (h1 : '/' ∉ seg.data)
    (h2 : validEncoded seg encoding.encodePath = true)
    (h3 : ∃ t, unescapeLoop encoding.encodePath seg.data = .ok t) (h4 : seg ≠ "") :
    ParseURL ("https://www.youtube.com/user/" ++ seg) =
      some ({ LinkType := TypeUser, Provider := ProviderYoutube, ItemID := seg }, none) := by
  obtain ⟨u, hp, hH, hE, _⟩ :=
    canonical_path "www.youtube.com" "/user/" seg (by decide) (by decide) h2 h3
  have hs : strings.Split u.EscapedPath '/' = "" :: "user" :: [seg] := by
    rw [hE, strings.Split_append_last ["", "user"] "" (by decide) h1]
    simp
  obtain ⟨p1, p2, p3, p4⟩ := prefixes_of_user hs
  rw [show ("https://www.youtube.com/user/" : String) =
    "https://" ++ "www.youtube.com" ++ "/user/" from by decide, (ParseURL_routed hp).2.1 hH]
  unfold parseYoutubeURL
  simp [p1, p2, p3, p4, hs, h4, route]

theorem canonical_youtube_handle {seg : String} (h1 : '/' ∉ seg.data)
    (h2 : validEncoded seg encoding.encodePath = true)
    (h3 : ∃ t, unescapeLoop encoding.encodePath seg.data = .ok t) (h4 : seg ≠ "") :
    ParseURL ("https://www.youtube.com/@" ++ seg) =
      some ({ LinkType := TypeHandle, Provider := ProviderYoutube, ItemID := seg }, none) := by
  obtain ⟨u, hp, hH, hE, _⟩ :=
    canonical_path "www.youtube.com" "/@" seg (by decide) (by decide) h2 h3
  have hs : strings.Split u.EscapedPath '/' = ["", "@" ++ seg] := by
    rw [hE, strings.Split_append_last [""] "@" (by decide) h1]
    simp
  have hpre : strings.HasPrefix u.EscapedPath "/@" = true := by
    rw [hE]
    exact (strings.HasPrefix_iff _ _).mpr ⟨seg.data, by simp⟩
  obtain ⟨_, p1, p2, p3, p4⟩ := split_of_handle hpre
  have h5 : strings.HasPrefix ("@" ++ seg) "@" = true :=
    (strings.HasPrefix_iff _ _).mpr ⟨seg.data, by simp⟩
  have h6 : strings.TrimPrefix ("@" ++ seg) "@" = seg := by
    unfold strings.TrimPrefix
    rw [if_pos h5]
    apply String.ext
    simp
  have h7 : ("@" ++ seg : String) ≠ "" := by
    intro hc
    have := congrArg String.data hc
    simp at this
  rw [show ("https://www.youtube.com/@" : String) =
    "https://" ++ "www.youtube.com" ++ "/@" from by decide, (ParseURL_routed hp).2.1 hH]
  unfold parseYoutubeURL
  simp [p1, p2, p3, p4, hpre, hs, h4, h5, h6, h7, route]

theorem canonical_youtube_playlist {v : String} (hv : v ≠ "") :
    ParseURL ("https://www.youtube.com/playlist?list=" ++ percentEncode v) =
      some ({ LinkType := TypePlaylist, Provider := ProviderYoutube, ItemID := v }, none) := by
  obtain ⟨u, hp, hH, hE, hQ⟩ :=
    canonical_query "www.youtube.com" "/playlist" "list" v (by decide) (by decide) (by decide)
      ⟨"/playlist".data, by decide⟩ (by decide)
  have hclean := percentEncode_clean v
  have hq : url.ParseQuery u.RawQuery = ([("list", v)], none) := by
    rw [hQ]
    exact ParseQuery_single "list" _ v (by decide) (fun hm => (hclean _ hm).1 rfl)
      (fun hm => (hclean _ hm).2.1 rfl) (QueryUnescape_percentEncode v)
  have hget : u.Query.Get "list" = v := by
    unfold URL.Query
    rw [hq]
    rfl
  have p1 : strings.HasPrefix u.EscapedPath "/playlist" = true := by
    rw [hE]
    decide
  rw [show ("https://www.youtube.com/playlist?list=" : String) =
    "https://" ++ "www.youtube.com" ++ "/playlist" ++ "?" ++ "list" ++ "=" from by decide,
    (ParseURL_routed hp).2.1 hH]
  unfold parseYoutubeURL
  simp [p1, hget, hv, route]

theorem canonical_bilibili_user {seg : String} (h1 : '/' ∉ seg.data)
    (h2 : validEncoded seg encoding.encodePath = true)
    (h3 : ∃ t, unescapeLoop encoding.encodePath seg.data = .ok t) :
    ParseURL ("https://space.bilibili.com/" ++ seg) =
      some ({ LinkType := TypeUser, Provider := ProviderBilibili, ItemID := seg }, none) := by
  obtain ⟨u, hp, hH, hE, _⟩ :=
    canonical_path "space.bilibili.com" "/" seg (by decide) (by decide) h2 h3
  have hs : strings.Split u.EscapedPath '/' = ["", seg] := by
    rw [hE, strings.Split_append_last [""] "" (by decide) h1]
    simp
  have h0 : (strings.Split u.Host '.')[0]? = some "space" := by
    rw [hH]
    decide
  rw [show ("https://space.bilibili.com/" : String) =
    "https://" ++ "space.bilibili.com" ++ "/" from by decide, (ParseURL_routed hp).1 hH]
  unfold parseBilibiliURL
  simp [h0, hs, route]

theorem canonical_bilibili_channel {mid : String} (sid : String) (h1 : '/' ∉ mid.data)
    (h2 : validEncoded mid encoding.encodePath = true)
    (h3 : ∃ t, unescapeLoop encoding.encodePath mid.data = .ok t) :
    ParseURL ("https://space.bilibili.com/" ++ mid ++ "/channel/x?sid=" ++ percentEncode sid) =
      some ({ LinkType := TypeChannel, Provider := ProviderBilibili, ItemID := mid ++ ":" ++ sid },
        none) := by
  have hroot : strings.HasPrefix ("/" ++ mid ++ "/channel/x") "/" = true :=
    (strings.HasPrefix_iff _ _).mpr ⟨mid.data ++ "/channel/x".data, by simp⟩
  have hvalid : validEncoded ("/" ++ mid ++ "/channel/x") encoding.encodePath = true := by
    rw [url.validEncoded_append, url.validEncoded_append, h2]
    decide
  have hesc : ∃ t, unescapeLoop encoding.encodePath ("/" ++ mid ++ "/channel/x" : String).data =
      .ok t := by
    simp only [String.data_append, List.append_assoc]
    exact url.unescapes_plain_append _ _ (by decide)
      (url.unescapes_append _ _ h3 ⟨"/channel/x".data, by decide⟩)
  obtain ⟨u, hp, hH, hE, hQ⟩ :=
    canonical_query "space.bilibili.com" ("/" ++ mid ++ "/channel/x") "sid" sid (by decide)
      hroot hvalid hesc (by decide)
  have hclean := percentEncode_clean sid
  have hq : url.ParseQuery u.RawQuery = ([("sid", sid)], none) := by
    rw [hQ]
    exact ParseQuery_single "sid" _ sid (by decide) (fun hm => (hclean _ hm).1 rfl)
      (fun hm => (hclean _ hm).2.1 rfl) (QueryUnescape_percentEncode sid)
  have hs : strings.Split u.EscapedPath '/' = ["", mid, "channel", "x"] := by
    rw [hE]
    unfold strings.Split
    have hd : ("/" ++ mid ++ "/channel/x" : String).data =
        [] ++ '/' :: (mid.data ++ '/' :: "channel/x".data) := by
      simp only [String.data_append, List.append_assoc]
      rfl
    rw [hd, strings.splitOn_append_sep (by simp), strings.splitOn_append_sep h1]
    rfl
  have h0 : (strings.Split u.Host '.')[0]? = some "space" := by
    rw [hH]
    decide
  have hlink : "https://space.bilibili.com/" ++ mid ++ "/channel/x?sid=" ++ percentEncode sid =
      "https://" ++ "space.bilibili.com" ++ ("/" ++ mid ++ "/channel/x") ++ "?" ++ "sid" ++ "=" ++
        percentEncode sid := by
    rw [show ("https://space.bilibili.com/" : String) =
      "https://" ++ "space.bilibili.com" ++ "/" from by decide,
      show ("/channel/x?sid=" : String) = "/channel/x" ++ "?" ++ "sid" ++ "=" from by decide]
    simp only [String.append_assoc]
  rw [hlink, (ParseURL_routed hp).1 hH]
  unfold parseBilibiliURL
  simp [h0, hs, hq, Values.index, route]

theorem canonical_vimeo_group {seg : String} (h1 : '/' ∉ seg.data)
    (h2 : validEncoded seg encoding.encodePath = true)
    (h3 : ∃ t, unescapeLoop encoding.encodePath seg.data = .ok t) (h4 : seg ≠ "") :
    ParseURL ("https://vimeo.com/groups/" ++ seg) =
      some ({ LinkType := TypeGroup, Provider := ProviderVimeo, ItemID := seg }, none) := by
  obtain ⟨u, hp, hH, hE, _⟩ :=
    canonical_path "vimeo.com" "/groups/" seg (by decide) (by decide) h2 h3
  have hs : strings.Split u.EscapedPath '/' = ["", "groups", seg] := by
    rw [hE, strings.Split_append_last ["", "groups"] "" (by decide) h1]
    simp
  rw [show ("https://vimeo.com/groups/" : String) =
    "https://" ++ "vimeo.com" ++ "/groups/" from by decide, (ParseURL_routed hp).2.2.1 hH]
  unfold parseVimeoURL
  simp [hs, h4, route]

theorem canonical_vimeo_channel {seg : String} (h1 : '/' ∉ seg.data)
    (h2 : validEncoded seg encoding.encodePath = true)
    (h3 : ∃ t, unescapeLoop encoding.encodePath seg.data = .ok t) (h4 : seg ≠ "") :
    ParseURL ("https://vimeo.com/channels/" ++ seg) =
      some ({ LinkType := TypeChannel, Provider := ProviderVimeo, ItemID := seg }, none) := by
  obtain ⟨u, hp, hH, hE, _⟩ :=
    canonical_path "vimeo.com" "/channels/" seg (by decide) (by decide) h2 h3
  have hs : strings.Split u.EscapedPath '/' = ["", "channels", seg] := by
    rw [hE, strings.Split_append_last ["", "channels"] "" (by decide) h1]
    simp
  rw [show ("https://vimeo.com/channels/" : String) =
    "https://" ++ "vimeo.com" ++ "/channels/" from by decide, (ParseURL_routed hp).2.2.1 hH]
  unfold parseVimeoURL
  simp [hs, h4, route]

theorem canonical_vimeo_user {seg : String} (h1 : '/' ∉ seg.data)
    (h2 : validEncoded seg encoding.encodePath = true)
    (h3 : ∃ t, unescapeLoop encoding.encodePath seg.data = .ok t) (h4 : seg ≠ "")
    (hg : seg ≠ "groups") (hc : seg ≠ "channels") :
    ParseURL ("https://vimeo.com/" ++ seg) =
      some ({ LinkType := TypeUser, Provider := ProviderVimeo, ItemID := seg }, none) := by
  obtain ⟨u, hp, hH, hE, _⟩ :=
    canonical_path "vimeo.com" "/" seg (by decide) (by decide) h2 h3
  have hs : strings.Split u.EscapedPath '/' = ["", seg] := by
    rw [hE, strings.Split_append_last [""] "" (by decide) h1]
    simp
  have hk : ¬ (TypeUser = TypeGroup ∨ TypeUser = TypeChannel) := by decide
  rw [show ("https://vimeo.com/" : String) =
    "https://" ++ "vimeo.com" ++ "/" from by decide, (ParseURL_routed hp).2.2.1 hH]
  unfold parseVimeoURL
  simp [hs, h4, hg, hc, hk, route]

theorem canonical_soundcloud {seg : String} (h1 : '/' ∉ seg.data)
    (h2 : validEncoded seg encoding.encodePath = true)
    (h3 : ∃ t, unescapeLoop encoding.encodePath seg.data = .ok t) :
    ParseURL ("https://soundcloud.com/u/sets/" ++ seg) =
      some ({ LinkType := TypePlaylist, Provider := ProviderSoundcloud, ItemID := seg }, none) := by
  obtain ⟨u, hp, hH, hE, _⟩ :=
    canonical_path "soundcloud.com" "/u/sets/" seg (by decide) (by decide) h2 h3
  have hs : strings.Split u.EscapedPath '/' = ["", "u", "sets", seg] := by
    rw [hE, strings.Split_append_last ["", "u", "sets"] "" (by decide) h1]
    simp
  rw [show ("https://soundcloud.com/u/sets/" : String) =
    "https://" ++ "soundcloud.com" ++ "/u/sets/" from by decide, (ParseURL_routed hp).2.2.2.1 hH]
  unfold parseSoundcloudURL
  simp [hs, route]

theorem canonical_twitch {seg : String} (h1 : '/' ∉ seg.data)
    (h2 : validEncoded seg encoding.encodePath = true)
    (h3 : ∃ t, unescapeLoop encoding.encodePath seg.data = .ok t) (h4 : seg ≠ "") :
    ParseURL ("https://www.twitch.tv/" ++ seg) =
      some ({ LinkType := TypeUser, Provider := ProviderTwitch, ItemID := seg }, none) := by
  obtain ⟨u, hp, hH, hE, _⟩ :=
    canonical_path "www.twitch.tv" "/" seg (by decide) (by decide) h2 h3
  have hs : strings.Split u.EscapedPath '/' = ["", seg] := by
    rw [hE, strings.Split_append_last [""] "" (by decide) h1]
    simp
  rw [show ("https://www.twitch.tv/" : String) =
    "https://" ++ "www.twitch.tv" ++ "/" from by decide, (ParseURL_routed hp).2.2.2.2 hH,
    parseTwitchURL_pair hs, if_neg h4]
  rfl

/-- A success of `ParseURL` comes from one parser, run on a parsed URL. -/
theorem ParseURL_ok_cases {link : String} {info : Info} (h : ParseURL link = some (info, none)) :
    ∃ u : URL,
      (info.Provider = ProviderBilibili ∧
        parseBilibiliURL u = some (info.LinkType, info.ItemID, none)) ∨
      (info.Provider = ProviderYoutube ∧
        parseYoutubeURL u = some (info.LinkType, info.ItemID, none)) ∨
      (info.Provider = ProviderVimeo ∧
        parseVimeoURL u = some (info.LinkType, info.ItemID, none)) ∨
      (info.Provider = ProviderSoundcloud ∧
        parseSoundcloudURL u = some (info.LinkType, info.ItemID, none)) ∨
      (info.Provider = ProviderTwitch ∧
        parseTwitchURL u = some (info.LinkType, info.ItemID, none)) := by
  rcases parseURL_cases link with ⟨e, he⟩ | ⟨parsed, hp⟩
  · rw [ParseURL_of_error he] at h
    simp at h
  · rw [ParseURL_of_parsed hp] at h
    refine ⟨parsed, ?_⟩
    split_ifs at h
    · exact Or.inl ((route_eq_ok_iff _ _ _).mp h)
    · exact Or.inr (Or.inl ((route_eq_ok_iff _ _ _).mp h))
    · exact Or.inr (Or.inr (Or.inl ((route_eq_ok_iff _ _ _).mp h)))
    · exact Or.inr (Or.inr (Or.inr (Or.inl ((route_eq_ok_iff _ _ _).mp h))))
    · exact Or.inr (Or.inr (Or.inr (Or.inr ((route_eq_ok_iff _ _ _).mp h))))
    · simp at h

theorem Info_eq {info : Info} {provider : Provider} {kind : Kind} {id : String}
    (h1 : info.Provider = provider) (h2 : info.LinkType = kind) (h3 : info.ItemID = id) :
    info = { LinkType := kind, Provider := provider, ItemID := id } := by
  obtain ⟨a, b, c⟩ := info
  simp only at h1 h2 h3
  subst h1 h2 h3
  rfl

theorem isQueryValue_percentEncode (v : String) : isQueryValue (percentEncode v) :=
  ⟨fun hm => (percentEncode_clean v _ hm).1 rfl, fun hm => (percentEncode_clean v _ hm).2.1 rfl,
    fun hm => (percentEncode_clean v _ hm).2.2.1 rfl,
    fun hm => (percentEncode_clean v _ hm).2.2.2.1 rfl⟩

theorem isQueryValue_empty : isQueryValue "" := by
  unfold isQueryValue
  decide

theorem isSegment_empty : isSegment "" := by
  unfold isSegment
  decide

/-- C16: for every descriptor that `ParseURL` returns without error on some
link there is a link in the canonical shape of its provider and kind, filled
with one path segment and one query value, on which `ParseURL` returns the same
descriptor. -/
theorem ParseURL_canonical_link (link : String) (info : Info)
    (h : ParseURL link = some (info, none)) :
    ∃ (fill : String → String → String) (seg val : String),
      (info.Provider, info.LinkType, fill) ∈ canonicalShapes ∧
      isSegment seg ∧ isQueryValue val ∧
      ParseURL (fill seg val) = some (info, none) := by
  obtain ⟨u, hb | hy | hv | hs | ht⟩ := ParseURL_ok_cases h
  · obtain ⟨hP, hr⟩ := hb
    rcases parseBilibiliURL_ok hr with ⟨hk, hmem⟩ | ⟨hk, mid, sid, hid, hmem⟩
    · obtain ⟨c1, c2, c3⟩ := url.segment_canon u hmem
      rw [Info_eq hP hk rfl]
      exact ⟨fun seg _ => "https://space.bilibili.com/" ++ seg, info.ItemID, "",
        by simp [canonicalShapes], isSegment_of_canon c1 c2, isQueryValue_empty,
        canonical_bilibili_user c1 c2 c3⟩
    · obtain ⟨c1, c2, c3⟩ := url.segment_canon u hmem
      rw [Info_eq hP hk hid]
      exact ⟨fun seg val => "https://space.bilibili.com/" ++ seg ++ "/channel/x?sid=" ++ val,
        mid, percentEncode sid, by simp [canonicalShapes], isSegment_of_canon c1 c2,
        isQueryValue_percentEncode sid, canonical_bilibili_channel sid c1 c2 c3⟩
  · obtain ⟨hP, hr⟩ := hy
    rcases parseYoutubeURL_ok hr with ⟨hk, hne⟩ | ⟨hk, hne, hmem⟩ | ⟨hk, hne, hmem⟩ |
      ⟨hk, hne, hmem⟩
    · rw [Info_eq hP hk rfl]
      exact ⟨fun _ val => "https://www.youtube.com/playlist?list=" ++ val, "",
        percentEncode info.ItemID, by simp [canonicalShapes], isSegment_empty,
        isQueryValue_percentEncode _, canonical_youtube_playlist hne⟩
    · obtain ⟨c1, c2, c3⟩ := url.segment_canon u hmem
      rw [Info_eq hP hk rfl]
      exact ⟨fun seg _ => "https://www.youtube.com/channel/" ++ seg, info.ItemID, "",
        by simp [canonicalShapes], isSegment_of_canon c1 c2, isQueryValue_empty,
        canonical_youtube_channel c1 c2 c3 hne⟩
    · obtain ⟨c1, c2, c3⟩ := url.segment_canon u hmem
      rw [Info_eq hP hk rfl]
      exact ⟨fun seg _ => "https://www.youtube.com/user/" ++ seg, info.ItemID, "",
        by simp [canonicalShapes], isSegment_of_canon c1 c2, isQueryValue_empty,
        canonical_youtube_user c1 c2 c3 hne⟩
    · obtain ⟨c1, c2, c3⟩ := url.segment_canon u hmem
      have d1 : '/' ∉ info.ItemID.data := by
        intro hm
        exact c1 (by simp [hm])
      have d2 : validEncoded info.ItemID encoding.encodePath = true := by
        rw [url.validEncoded_append] at c2
        simp only [Bool.and_eq_true] at c2
        exact c2.2
      have d3 : ∃ t, unescapeLoop encoding.encodePath info.ItemID.data = .ok t := by
        have : ("@" ++ info.ItemID : String).data = '@' :: info.ItemID.data := by simp
        rw [this, url.unescapeLoop_cons_plain (by decide)] at c3
        exact c3
      rw [Info_eq hP hk rfl]
      exact ⟨fun seg _ => "https://www.youtube.com/@" ++ seg, info.ItemID, "",
        by simp [canonicalShapes], isSegment_of_canon d1 d2, isQueryValue_empty,
        canonical_youtube_handle d1 d2 d3 hne⟩
  · obtain ⟨hP, hr⟩ := hv
    rcases parseVimeoURL_ok hr with ⟨hk, hne, hmem⟩ | ⟨hk, hne, hmem⟩ | ⟨hk, hne, hg, hc, hmem⟩
    · obtain ⟨c1, c2, c3⟩ := url.segment_canon u hmem
      rw [Info_eq hP hk rfl]
      exact ⟨fun seg _ => "https://vimeo.com/groups/" ++ seg, info.ItemID, "",
        by simp [canonicalShapes], isSegment_of_canon c1 c2, isQueryValue_empty,
        canonical_vimeo_group c1 c2 c3 hne⟩
    · obtain ⟨c1, c2, c3⟩ := url.segment_canon u hmem
      rw [Info_eq hP hk rfl]
      exact ⟨fun seg _ => "https://vimeo.com/channels/" ++ seg, info.ItemID, "",
        by simp [canonicalShapes], isSegment_of_canon c1 c2, isQueryValue_empty,
        canonical_vimeo_channel c1 c2 c3 hne⟩
    · obtain ⟨c1, c2, c3⟩ := url.segment_canon u hmem
      rw [Info_eq hP hk rfl]
      exact ⟨fun seg _ => "https://vimeo.com/" ++ seg, info.ItemID, "",
        by simp [canonicalShapes], isSegment_of_canon c1 c2, isQueryValue_empty,
        canonical_vimeo_user c1 c2 c3 hne hg hc⟩
  · obtain ⟨hP, hr⟩ := hs
    obtain ⟨hk, hmem⟩ := parseSoundcloudURL_ok hr
    obtain ⟨c1, c2, c3⟩ := url.segment_canon u hmem
    rw [Info_eq hP hk rfl]
    exact ⟨fun seg _ => "https://soundcloud.com/u/sets/" ++ seg, info.ItemID, "",
      by simp [canonicalShapes], isSegment_of_canon c1 c2, isQueryValue_empty,
      canonical_soundcloud c1 c2 c3⟩
  · obtain ⟨hP, hr⟩ := ht
    obtain ⟨hk, hne, hmem⟩ := parseTwitchURL_ok hr
    obtain ⟨c1, c2, c3⟩ := url.segment_canon u hmem
    rw [Info_eq hP hk rfl]
    exact ⟨fun seg _ => "https://www.twitch.tv/" ++ seg, info.ItemID, "",
      by simp [canonicalShapes], isSegment_of_canon c1 c2, isQueryValue_empty,
      canonical_twitch c1 c2 c3 hne⟩

/-- Witness of C16: a watch link whose `list` value holds an escaped `&`; the
canonical playlist link with the percent-encoded identifier gives the same
descriptor. -/
theorem ParseURL_canonical_link_witness :
    ParseURL "youtube.com/watch?v=1&list=a%26b" =
        some ({ LinkType := TypePlaylist, Provider := ProviderYoutube, ItemID := "a&b" }, none) ∧
      percentEncode "a&b" = "%61%26%62" ∧
      ParseURL ("https://www.youtube.com/playlist?list=" ++ percentEncode "a&b") =
        some ({ LinkType := TypePlaylist, Provider := ProviderYoutube, ItemID := "a&b" }, none) ∧
      ∃ (fill : String → String → String) (seg val : String),
        (ProviderYoutube, TypePlaylist, fill) ∈ canonicalShapes ∧
        isSegment seg ∧ isQueryValue val ∧
        ParseURL (fill seg val) =
          some ({ LinkType := TypePlaylist, Provider := ProviderYoutube, ItemID := "a&b" }, none) :=
  ⟨by decide, by decide, by decide,
    ParseURL_canonical_link "youtube.com/watch?v=1&list=a%26b"
      { LinkType := TypePlaylist, Provider := ProviderYoutube, ItemID := "a&b" } (by decide)⟩
end Podsync
